import Mathlib

/-!
# globus_gridftp_server_posix.c : the transfer engine and the checksum command

A shallow embedding of the send and receive paths of the POSIX data storage
interface module (`globus_l_gfs_posix_recv`, `globus_l_gfs_posix_write_to_storage`,
`globus_l_gfs_posix_write_to_storage_cb`, `globus_l_gfs_posix_send`,
`globus_l_gfs_posix_read_from_storage`, `globus_l_gfs_posix_read_from_storage_cb`)
and of its command side (`globus_l_gfs_posix_command`,
`globus_l_gfs_posix_cksm_adler32`, `globus_l_gfs_posix_cksm_md5`,
`globus_l_gfs_posix_cksm_md5_cb`), with the two functions on paths: the loop that
skips leading `/` characters and `globus_l_gfs_file_partition_path`.

Conventions of the embedding.

* The session handle `globus_l_gfs_posix_handle_t` is the structure `Handle`; every C
  function becomes a pure function from the handle (and the values the outside world
  returns to it) to the new handle and the list of calls it made, in program order.
* `globus_size_t` is an unsigned 64-bit integer, `globus_off_t` a signed 64-bit
  integer; conversions between them are explicit (`to_size_t`, `to_off_t`).
  `int` counters (`outstanding`, `optimal_count`) are `Int`; they stay far from the
  32-bit limits because `outstanding` is bounded by the concurrency value.
* Values returned by the operating system and by the transport (`open`, `stat`,
  `lseek`, `read`, `write`, `close`, `errno`, `malloc`, `register_read`,
  `register_write`, `get_optimal_concurrency`) are inputs of the functions.
* The mutex calls, `globus_free`, and the block tally kept for the log messages
  (`local_io_block_size`, `local_io_count`, `err_msg`) have no influence on the
  handle or on the calls below and are left out.
* The library functions `MD5_Init`, `MD5_Update`, `MD5_Final` (OpenSSL) and `adler32`
  (zlib) are given by the algorithms they implement, checked on test values.
* The receive callback holds the mutex of the handle from its first statement to its
  last, so receive completions are delivered one after the other (`recv_step`). The
  send callback does not: its decrement of `outstanding` and the last statement of the
  refill are outside the mutex, and `send_event` gives the pieces that interleave.
* A scheduled callback (`globus_callback_register_oneshot`) runs once and only when it
  has been registered; the registration itself is taken to succeed (the code stops
  the process with `globus_panic` when it does not).
-/

namespace GridftpPosix

/-! ## Machine integers -/

/-- Conversion to `globus_size_t` (unsigned, 64 bits): reduction modulo `2^64`. -/
def to_size_t (x : Int) : Nat := (x % (2 ^ 64 : Int)).toNat

/-- Conversion to `globus_off_t` (signed, 64 bits, two's complement). -/
def to_off_t (x : Int) : Int := (x + 2 ^ 63) % (2 ^ 64 : Int) - 2 ^ 63

/-- The errno value `ENOENT`. -/
def ENOENT : Int := 2

/-! ## Results, calls, handle -/

/-- A `globus_result_t`: `GLOBUS_SUCCESS`, `GLOBUS_FAILURE`, or an error object built
by `GlobusGFSErrorGeneric(msg)` or by `GlobusGFSErrorSystemError(func, errno)`. -/
inductive Result where
  | success
  | failure
  | generic (msg : String)
  | system (func : String) (errno : Int)
  deriving DecidableEq, Repr

/-- The calls to the transport and to the operating system that the transfer engine
makes, each with its arguments and (where the code looks at it) the value returned. -/
inductive Call where
  | begin_transfer
  | posix_open (path : String) (create : Bool) (ret : Int)
  | lseek (fd : Int) (offset : Int) (ret : Int)
  | read (fd : Int) (count : Nat) (ret : Int)
  | write (fd : Int) (count : Nat) (ret : Int)
  | close (fd : Int) (ret : Int)
  | register_read (length : Nat) (ok : Bool)
  | register_write (nbytes : Nat) (offset : Int) (ok : Bool)
  | update_bytes_written (offset : Int) (nbytes : Nat)
  | finished_transfer (rc : Result)
  deriving DecidableEq, Repr

/-- The fields of `globus_l_gfs_posix_handle_t` (the operation `op` and the mutex
apart). -/
structure Handle where
  pathname : String
  fd : Int
  seekable : Bool
  block_size : Nat
  block_length : Int
  offset : Int
  done : Bool
  optimal_count : Int
  outstanding : Int
  deriving DecidableEq, Repr

/-- The handle as `globus_l_gfs_posix_start` leaves it: only `fd = 0` is assigned;
the other fields are given arbitrary fixed values here. -/
def Handle.start : Handle :=
  { pathname := "", fd := 0, seekable := false, block_size := 0, block_length := 0,
    offset := 0, done := false, optimal_count := 0, outstanding := 0 }

/-! ## Path normalisation -/

/-- The loop `while (p[0] == '/' && p[1] == '/') p++;` on the characters of a path. -/
def skip_leading_slashes : List Char → List Char
  | [] => []
  | c :: tail =>
    if c = '/' ∧ tail.head? = some '/' then skip_leading_slashes tail else c :: tail

/-- The same loop on a string. -/
def normalize_path (p : String) : String := String.mk (skip_leading_slashes p.data)

/-! ## Receive: `globus_l_gfs_posix_write_to_storage` -/

/-- What the outside world answers in one iteration of a refill loop of the receive
path: whether `globus_malloc` returns a buffer and whether
`globus_gridftp_server_register_read` returns `GLOBUS_SUCCESS`. -/
structure IssueEnv where
  malloc_ok : Bool
  register_ok : Bool

/-- The loop `while (outstanding < optimal_count)` of
`globus_l_gfs_posix_write_to_storage`; `i` numbers the iterations, `fuel` bounds
them (see `write_to_storage`). -/
def write_to_storage_loop (env : Nat → IssueEnv) : Nat → Nat → Handle → Handle × List Call
  | 0, _, h => (h, [])
  | fuel + 1, i, h =>
    if h.outstanding < h.optimal_count then
      if (env i).malloc_ok = false then
        (h, [Call.finished_transfer (Result.generic "fail to allocate buffer")])
      else if (env i).register_ok = false then
        (h, [Call.register_read h.block_size false,
             Call.finished_transfer
               (Result.generic "globus_gridftp_server_register_read() fail")])
      else
        let r := write_to_storage_loop env fuel (i + 1)
          { h with outstanding := h.outstanding + 1 }
        (r.1, Call.register_read h.block_size true :: r.2)
    else (h, [])

/-- The function `globus_l_gfs_posix_write_to_storage`: `opt` is the value stored by
`globus_gridftp_server_get_optimal_concurrency`. The loop runs at most
`opt - outstanding` times, which is the fuel given to it. -/
def write_to_storage (opt : Int) (env : Nat → IssueEnv) (h : Handle) : Handle × List Call :=
  let h1 := { h with optimal_count := opt }
  write_to_storage_loop env (h1.optimal_count - h1.outstanding).toNat 0 h1

/-! ## Receive: `globus_l_gfs_posix_write_to_storage_cb` -/

/-- What the outside world answers during one receive completion: the values returned
by `lseek`, `write` and `close`, the value of `errno` read after each, and the answers
for the refill that may follow. -/
structure WriteCbEnv where
  lseek_ret : Int
  lseek_errno : Int
  write_ret : Int
  write_errno : Int
  close_ret : Int
  close_errno : Int
  opt : Int
  issue : Nat → IssueEnv

/-- The block `if (nbytes > 0) { ... }` of the completion callback: from the result
`rc` and the handle so far to the new `rc`, the new handle and the calls made. -/
def write_block (nbytes : Nat) (offset : Int) (env : WriteCbEnv) (rc : Result) (h : Handle) :
    Result × Handle × List Call :=
  if 0 < nbytes then
    let seek : List Call :=
      if h.seekable then [Call.lseek h.fd offset env.lseek_ret] else []
    if h.seekable ∧ env.lseek_ret ≠ offset then
      (Result.system "lseek" env.lseek_errno, { h with done := true }, seek)
    else
      let bytes_written : Nat := to_size_t env.write_ret
      if bytes_written < nbytes then
        (Result.system "write" env.write_errno, { h with done := true },
          seek ++ [Call.write h.fd nbytes env.write_ret])
      else
        (rc, h, seek ++ [Call.write h.fd nbytes env.write_ret,
                         Call.update_bytes_written offset nbytes])
  else (rc, h, [])

/-- The first statement of the callback, `rc = GLOBUS_SUCCESS; if (result !=
GLOBUS_SUCCESS) ... else if (eof) ...`: the initial `rc` and the handle. -/
def classify (result : Result) (eof : Bool) (h : Handle) : Result × Handle :=
  if result ≠ Result.success then
    (Result.generic "call back fail", { h with done := true })
  else if eof then (Result.success, { h with done := true })
  else (Result.success, h)

/-- The end of the callback, from `posix_handle->outstanding--` on: refill when not
`done`, else close and report when nothing is outstanding. -/
def complete (env : WriteCbEnv) (rc : Result) (h : Handle) : Handle × List Call :=
  let h2 : Handle := { h with outstanding := h.outstanding - 1 }
  if h2.done = false then write_to_storage env.opt env.issue h2
  else if h2.outstanding = 0 then
    let rc2 : Result :=
      if env.close_ret = -1 then Result.system "close" env.close_errno else rc
    (h2, [Call.close h2.fd env.close_ret, Call.finished_transfer rc2])
  else (h2, [])

/-- The function `globus_l_gfs_posix_write_to_storage_cb`, called by the transport
with the outcome `result` of a registered read, the byte count `nbytes`, the target
`offset` and the flag `eof`. -/
def write_to_storage_cb (result : Result) (nbytes : Nat) (offset : Int) (eof : Bool)
    (env : WriteCbEnv) (h : Handle) : Handle × List Call :=
  let a := classify result eof h
  let b := write_block nbytes offset env a.1 a.2
  let r := complete env b.1 b.2.1
  (r.1, b.2.2 ++ r.2)

/-! ## Receive: `globus_l_gfs_posix_recv` -/

/-- What the outside world answers during `globus_l_gfs_posix_recv`.
`quota_msg` is `some msg` when `XROOTD_CNSURL` is set and the space usage read from
the extended attribute exceeds the quota (`msg` is the text left in `err_msg`);
`cgi_filename` is the name printed by the `GRIDFTP_APPEND_XROOTD_CGI` helper, when
there is one. -/
structure RecvEnv where
  block_size : Nat
  range_offset : Int
  range_length : Int
  quota_msg : Option String
  cgi_filename : Option String
  stat_ret : Int
  stat_errno : Int
  open_ret : Int
  open_errno : Int
  opt : Int
  issue : Nat → IssueEnv

/-- The function `globus_l_gfs_posix_recv`, for a transfer of `pathname`. When `stat`
fails with an error other than `ENOENT` no `open` is attempted, the descriptor is the
one the handle held before the call, and `errno` is still the one `stat` set. -/
def recv (pathname : String) (env : RecvEnv) (h : Handle) : Handle × List Call :=
  let h1 : Handle :=
    { h with pathname := normalize_path pathname, outstanding := 0, done := false,
             block_size := env.block_size, offset := env.range_offset,
             block_length := env.range_length }
  match env.quota_msg with
  | some msg =>
    (h1, [Call.begin_transfer, Call.finished_transfer (Result.generic msg)])
  | none =>
    let filename : String :=
      match env.cgi_filename with
      | some f => f
      | none => h1.pathname
    let o : Handle × List Call × Int :=
      if env.stat_ret = 0 then
        ({ h1 with fd := env.open_ret }, [Call.posix_open filename false env.open_ret],
          env.open_errno)
      else if env.stat_errno = ENOENT then
        ({ h1 with fd := env.open_ret }, [Call.posix_open filename true env.open_ret],
          env.open_errno)
      else (h1, [], env.stat_errno)
    let h2 := o.1
    let fin : List Call :=
      if h2.fd = -1 then [Call.finished_transfer (Result.system "open" o.2.2)]
      else []
    let h3 : Handle :=
      { h2 with seekable := if h2.pathname = "/dev/null" then false else true }
    let r := write_to_storage env.opt env.issue h3
    (r.1, Call.begin_transfer :: o.2.1 ++ fin ++ r.2)

/-! ## Send: `globus_l_gfs_posix_read_from_storage` -/

/-- What the outside world answers in one iteration of the refill loop of the send
path: whether `globus_malloc` returns a buffer, the value returned by `read`, and
whether `globus_gridftp_server_register_write` returns `GLOBUS_SUCCESS`. -/
structure SendIssueEnv where
  malloc_ok : Bool
  read_ret : Int
  register_ok : Bool

/-- The answers for one call of `globus_l_gfs_posix_read_from_storage`: those of the
loop iterations and the value returned by the final `close`. -/
structure ReadEnv where
  issue : Nat → SendIssueEnv
  close_ret : Int

/-- The byte count asked from `read`: `block_size` when `block_length` is negative or
larger than `block_size`, else `block_length` (both compared as `globus_size_t`). -/
def read_length (h : Handle) : Nat :=
  if h.block_length < 0 ∨ h.block_size < to_size_t h.block_length then h.block_size
  else to_size_t h.block_length

/-- The loop `while (outstanding < optimal_count && !done)` of
`globus_l_gfs_posix_read_from_storage`. The third component of the value is `true`
when the function returned from inside the loop (allocation failure). -/
def read_from_storage_loop (env : Nat → SendIssueEnv) :
    Nat → Nat → Handle → Handle × List Call × Bool
  | 0, _, h => (h, [], false)
  | fuel + 1, i, h =>
    if h.outstanding < h.optimal_count ∧ h.done = false then
      if (env i).malloc_ok = false then
        (h, [Call.finished_transfer (Result.generic "fail to allocate buffer")], true)
      else
        let nbytes : Nat := to_size_t (env i).read_ret
        let rd : Call := Call.read h.fd (read_length h) (env i).read_ret
        if nbytes = 0 then
          let r := read_from_storage_loop env fuel (i + 1) { h with done := true }
          (r.1, rd :: r.2.1, r.2.2)
        else
          let offset1 : Int := to_off_t (h.offset + nbytes)
          let h1 : Handle :=
            { h with outstanding := h.outstanding + 1, offset := offset1,
                     block_length := to_off_t (h.block_length - nbytes) }
          let reg : Call :=
            Call.register_write nbytes (to_off_t (offset1 - nbytes)) (env i).register_ok
          let fin : List Call :=
            if (env i).register_ok = false then
              [Call.finished_transfer
                (Result.generic "globus_gridftp_server_register_write() fail")]
            else []
          let r := read_from_storage_loop env fuel (i + 1) h1
          (r.1, rd :: reg :: fin ++ r.2.1, r.2.2)
    else (h, [], false)

/-- The function `globus_l_gfs_posix_read_from_storage`. Every iteration of the loop
either sets `done` or increments `outstanding`, so `optimal_count - outstanding + 1`
iterations are enough. -/
def read_from_storage (env : ReadEnv) (h : Handle) : Handle × List Call :=
  let r := read_from_storage_loop env.issue ((h.optimal_count - h.outstanding).toNat + 1) 0 h
  if r.2.2 then (r.1, r.2.1)
  else if r.1.outstanding = 0 then
    (r.1, r.2.1 ++ [Call.close r.1.fd env.close_ret, Call.finished_transfer Result.success])
  else (r.1, r.2.1)

/-- The function `globus_l_gfs_posix_read_from_storage_cb`: neither `result` nor
`nbytes` is looked at. -/
def read_from_storage_cb (_result : Result) (_nbytes : Nat) (env : ReadEnv) (h : Handle) :
    Handle × List Call :=
  read_from_storage env { h with outstanding := h.outstanding - 1 }

/-! ## Send: `globus_l_gfs_posix_send` -/

/-- What the outside world answers during `globus_l_gfs_posix_send`. -/
structure SendEnv where
  block_size : Nat
  range_offset : Int
  range_length : Int
  open_ret : Int
  open_errno : Int
  lseek_ret : Int
  opt : Int
  rd : ReadEnv

/-- The function `globus_l_gfs_posix_send`, for a transfer of `pathname`. -/
def send (pathname : String) (env : SendEnv) (h : Handle) : Handle × List Call :=
  let h1 : Handle :=
    { h with pathname := normalize_path pathname, outstanding := 0, done := false,
             block_size := env.block_size, offset := env.range_offset,
             block_length := env.range_length, fd := env.open_ret }
  let fin : List Call :=
    if h1.fd = -1 then [Call.finished_transfer (Result.system "open" env.open_errno)]
    else []
  let zero : Bool := if h1.pathname = "/dev/zero" then true else false
  let seek : List Call :=
    if zero then [] else [Call.lseek h1.fd h1.offset env.lseek_ret]
  let h2 : Handle :=
    { h1 with seekable := if zero then false else true, optimal_count := env.opt }
  let r := read_from_storage env.rd h2
  (r.1, Call.begin_transfer :: Call.posix_open h1.pathname false env.open_ret ::
          fin ++ seek ++ r.2)

/-! ## A transfer as seen by the transport

The transport calls `recv` or `send` once and then delivers completions: one
completion for each operation whose registration succeeded, in any order and with
any outcome. `Sys` keeps the handle, the number of registered operations that have
not completed yet, and every call made so far. -/

/-- Whether a call is a registration that succeeded. -/
def Call.registers : Call → Bool
  | Call.register_read _ ok => ok
  | Call.register_write _ _ ok => ok
  | _ => false

/-- The number of operations the calls of `cs` registered with success. -/
def registered (cs : List Call) : Nat := cs.countP Call.registers

/-- The results passed to `globus_gridftp_server_finished_transfer`, in order. -/
def finished_results : List Call → List Result
  | [] => []
  | Call.finished_transfer rc :: cs => rc :: finished_results cs
  | _ :: cs => finished_results cs

/-- The ranges passed to `globus_gridftp_server_update_bytes_written`, in order. -/
def reported_ranges : List Call → List (Int × Nat)
  | [] => []
  | Call.update_bytes_written o n :: cs => (o, n) :: reported_ranges cs
  | _ :: cs => reported_ranges cs

/-- The descriptors passed to `close`, in order. -/
def closed_fds : List Call → List Int
  | [] => []
  | Call.close fd _ :: cs => fd :: closed_fds cs
  | _ :: cs => closed_fds cs

/-- Whether a call is an I/O operation: a registration with the transport, or a
`read`, `write` or `lseek` on the descriptor. -/
def Call.is_io_op : Call → Bool
  | Call.register_read _ _ => true
  | Call.register_write _ _ _ => true
  | Call.read _ _ _ => true
  | Call.write _ _ _ => true
  | Call.lseek _ _ _ => true
  | _ => false

/-- Whether a call asks the transport to register an operation. -/
def Call.is_registration : Call → Bool
  | Call.register_read _ _ => true
  | Call.register_write _ _ _ => true
  | _ => false

/-- The calls made after the first `globus_gridftp_server_finished_transfer`. -/
def after_first_report : List Call → List Call
  | [] => []
  | Call.finished_transfer _ :: cs => cs
  | _ :: cs => after_first_report cs

/-- The state of a transfer: handle, pending operations, calls so far. -/
structure Sys where
  h : Handle
  pending : Nat
  log : List Call

/-- A completion of a registered read, as the transport delivers it to
`globus_l_gfs_posix_write_to_storage_cb`. -/
structure RecvCompletion where
  result : Result
  nbytes : Nat
  offset : Int
  eof : Bool
  env : WriteCbEnv

/-- A completion of a registered write, as the transport delivers it to
`globus_l_gfs_posix_read_from_storage_cb`. -/
structure SendCompletion where
  result : Result
  nbytes : Nat
  env : ReadEnv

/-- The state after `globus_l_gfs_posix_recv`. -/
def recv_init (pathname : String) (env : RecvEnv) (h : Handle) : Sys :=
  let r := recv pathname env h
  { h := r.1, pending := registered r.2, log := r.2 }

/-- Delivery of one receive completion. With no operation pending there is nothing
to complete and the state is unchanged. -/
def recv_step (s : Sys) (c : RecvCompletion) : Sys :=
  if s.pending = 0 then s
  else
    let r := write_to_storage_cb c.result c.nbytes c.offset c.eof c.env s.h
    { h := r.1, pending := s.pending - 1 + registered r.2, log := s.log ++ r.2 }

/-- The state a receive transfer reaches after the completions `cs`. -/
def recv_run (s : Sys) (cs : List RecvCompletion) : Sys := cs.foldl recv_step s

/-- The state after `globus_l_gfs_posix_send`. -/
def send_init (pathname : String) (env : SendEnv) (h : Handle) : Sys :=
  let r := send pathname env h
  { h := r.1, pending := registered r.2, log := r.2 }

/-- Delivery of one send completion whose callback runs from its first statement to its
last with no other thread in between (for callbacks that overlap see `send_event`). -/
def send_step (s : Sys) (c : SendCompletion) : Sys :=
  if s.pending = 0 then s
  else
    let r := read_from_storage_cb c.result c.nbytes c.env s.h
    { h := r.1, pending := s.pending - 1 + registered r.2, log := s.log ++ r.2 }

/-- The state a send transfer reaches after the completions `cs`. -/
def send_run (s : Sys) (cs : List SendCompletion) : Sys := cs.foldl send_step s

/-! ## What a send reads and registers -/

/-- The `(nbytes, offset)` arguments of the calls of
`globus_gridftp_server_register_write`, in order. -/
def registered_writes : List Call → List (Nat × Int)
  | [] => []
  | Call.register_write n o _ :: cs => (n, o) :: registered_writes cs
  | _ :: cs => registered_writes cs

/-- The byte counts returned by the `read` calls, as `globus_size_t`, in order; the
reads that returned 0 (end of file) are left out. -/
def read_counts : List Call → List Nat
  | [] => []
  | Call.read _ _ ret :: cs =>
    if to_size_t ret = 0 then read_counts cs else to_size_t ret :: read_counts cs
  | _ :: cs => read_counts cs

/-- The operations that carry the byte counts `ns` one after the other from offset
`o` on: `(n1, o), (n2, o + n1), (n3, o + n1 + n2), ...`. -/
def chain (o : Int) : List Nat → List (Nat × Int)
  | [] => []
  | n :: ns => (n, o) :: chain (o + n) ns

/-- Whether `x` is a value of `globus_off_t`. -/
def in_off_t (x : Int) : Prop := -2 ^ 63 ≤ x ∧ x < 2 ^ 63

/-- The state of a send that started at offset `o` with length `l`: the writes
registered so far carry the byte counts read so far, one after the other from `o` on,
and `offset` and `block_length` have moved by the bytes read. -/
def SendOffsets (o l : Int) (s : Sys) : Prop :=
  registered_writes s.log = chain o (read_counts s.log)
    ∧ s.h.offset = o + ((read_counts s.log).sum : Nat)
    ∧ s.h.block_length = l - ((read_counts s.log).sum : Nat)

/-! ## A send in which every read returns the count it asked for -/

/-- The byte counts asked from `read`, in order. -/
def read_requests : List Call → List Nat
  | [] => []
  | Call.read _ count _ :: cs => count :: read_requests cs
  | _ :: cs => read_requests cs

/-- Whether every `read` returned exactly the byte count it asked for. -/
def reads_full : List Call → Bool
  | [] => true
  | Call.read _ count ret :: cs => decide (ret = (count : Int)) && reads_full cs
  | _ :: cs => reads_full cs

/-- Whether a call is an `lseek`. -/
def Call.is_lseek : Call → Bool
  | Call.lseek _ _ _ => true
  | _ => false

/-- Whether a call is a `write` on the descriptor. -/
def Call.is_write : Call → Bool
  | Call.write _ _ _ => true
  | _ => false

/-- Whether a call is an `open`. -/
def Call.is_open : Call → Bool
  | Call.posix_open _ _ _ => true
  | _ => false

/-- The total of the byte counts registered with the transport for sending. -/
def bytes_registered (cs : List Call) : Nat := ((registered_writes cs).map Prod.fst).sum

/-- Every allocation and every registration of a send refill succeeds. -/
def issue_all_ok (env : Nat → SendIssueEnv) : Prop :=
  ∀ i, (env i).malloc_ok = true ∧ (env i).register_ok = true

/-- The quotient `l / b` rounded up. -/
def ceil_div (l b : Nat) : Nat := (l + b - 1) / b

/-- The byte counts asked from `read` when `l` bytes are sent in blocks of `b` and
every read is served in full: `l / b` times `b`, then the remainder if there is one,
then a last read of 0 bytes. -/
def full_reads (b l : Nat) : List Nat :=
  List.replicate (l / b) b ++ (if l % b = 0 then [] else [l % b]) ++ [0]

/-- The reads still to come on a handle in that case. -/
def reads_left (h : Handle) : List Nat :=
  if h.done then [] else full_reads h.block_size h.block_length.toNat

/-- The writes still to be registered on a handle in that case. -/
def writes_left (h : Handle) : Nat :=
  if h.done then 0 else ceil_div h.block_length.toNat h.block_size

/-- What a refill does to a handle `h` in that case, `h1` being the handle after it and
`cs` the calls made. -/
def FullRefill (h h1 : Handle) (cs : List Call) : Prop :=
  h1.block_size = h.block_size ∧ h1.optimal_count = h.optimal_count ∧ h1.fd = h.fd
    ∧ 0 ≤ h1.block_length
    ∧ read_requests cs ++ reads_left h1 = reads_left h
    ∧ (bytes_registered cs : Int) + h1.block_length = h.block_length
    ∧ h1.outstanding = h.outstanding + registered cs
    ∧ (h1.done = true ∨ h1.optimal_count ≤ h1.outstanding)
    ∧ (h1.done = true → h1.block_length = 0)
    ∧ (h.done = true → h1.done = true)
    ∧ finished_results cs = [] ∧ closed_fds cs = [] ∧ cs.any Call.is_lseek = false
    ∧ registered cs + writes_left h1 = writes_left h

/-- The handle with which `globus_l_gfs_posix_send` enters the refill for
"/dev/zero". -/
def zero_handle (env : SendEnv) (h : Handle) : Handle :=
  { h with pathname := "/dev/zero", outstanding := 0, done := false,
           block_size := env.block_size, offset := env.range_offset,
           block_length := env.range_length, fd := env.open_ret,
           seekable := false, optimal_count := env.opt }

/-- The state of a send of `l` bytes in blocks of `b` on descriptor `fd` without seek,
in that case:
the reads made and the reads still to come are those of `full_reads`, the bytes
registered and the bytes left add up to `l`, every operation counted in `outstanding`
is pending, and the transfer has been closed and reported, with success, exactly when
it is `done` with nothing outstanding. -/
def FullSend (l b : Nat) (fd : Int) (s : Sys) : Prop :=
  (0 < b ∧ s.h.block_size = b) ∧ s.h.fd = fd ∧ 1 ≤ s.h.optimal_count
    ∧ 0 ≤ s.h.block_length ∧ s.h.block_length < 2 ^ 63
    ∧ read_requests s.log ++ reads_left s.h = full_reads b l
    ∧ (bytes_registered s.log : Int) + s.h.block_length = l
    ∧ s.h.outstanding = s.pending
    ∧ (s.h.done = true ∨ s.h.optimal_count ≤ s.h.outstanding)
    ∧ (s.h.done = true → s.h.block_length = 0)
    ∧ finished_results s.log
      = (if s.h.done = true ∧ s.h.outstanding = 0 then [Result.success] else [])
    ∧ closed_fds s.log = (if s.h.done = true ∧ s.h.outstanding = 0 then [fd] else [])
    ∧ s.log.any Call.is_lseek = false

/-! ## MD5

The digest algorithm of RFC 1321, which the module takes from the OpenSSL library
through `MD5_Init`, `MD5_Update` and `MD5_Final`. Bytes are natural numbers below
256 and words natural numbers below `2^32`. -/

/-- The shift amounts of the 64 steps. -/
def md5_shift : List Nat :=
  [7, 12, 17, 22, 7, 12, 17, 22, 7, 12, 17, 22, 7, 12, 17, 22,
   5, 9, 14, 20, 5, 9, 14, 20, 5, 9, 14, 20, 5, 9, 14, 20,
   4, 11, 16, 23, 4, 11, 16, 23, 4, 11, 16, 23, 4, 11, 16, 23,
   6, 10, 15, 21, 6, 10, 15, 21, 6, 10, 15, 21, 6, 10, 15, 21]

/-- The additive constants of the 64 steps, `floor(2^32 * |sin(i + 1)|)`. -/
def md5_sine : List Nat :=
  [3614090360, 3905402710, 606105819, 3250441966,
   4118548399, 1200080426, 2821735955, 4249261313,
   1770035416, 2336552879, 4294925233, 2304563134,
   1804603682, 4254626195, 2792965006, 1236535329,
   4129170786, 3225465664, 643717713, 3921069994,
   3593408605, 38016083, 3634488961, 3889429448,
   568446438, 3275163606, 4107603335, 1163531501,
   2850285829, 4243563512, 1735328473, 2368359562,
   4294588738, 2272392833, 1839030562, 4259657740,
   2763975236, 1272893353, 4139469664, 3200236656,
   681279174, 3936430074, 3572445317, 76029189,
   3654602809, 3873151461, 530742520, 3299628645,
   4096336452, 1126891415, 2878612391, 4237533241,
   1700485571, 2399980690, 4293915773, 2240044497,
   1873313359, 4264355552, 2734768916, 1309151649,
   4149444226, 3174756917, 718787259, 3951481745]

/-- Rotation to the left of a 32-bit word. -/
def rotl32 (x s : Nat) : Nat := ((x <<< s) % 2 ^ 32) ||| (x >>> (32 - s))

/-- The little-endian 32-bit word number `g` of a block of 64 bytes. -/
def md5_word (block : List Nat) (g : Nat) : Nat :=
  block.getD (4 * g) 0 + 256 * block.getD (4 * g + 1) 0 + 65536 * block.getD (4 * g + 2) 0
    + 16777216 * block.getD (4 * g + 3) 0

/-- Step `i` of the processing of a block. -/
def md5_round (block : List Nat) (st : Nat × Nat × Nat × Nat) (i : Nat) :
    Nat × Nat × Nat × Nat :=
  let a := st.1
  let b := st.2.1
  let c := st.2.2.1
  let d := st.2.2.2
  let nb := 4294967295 - b
  let nd := 4294967295 - d
  let f : Nat :=
    if i < 16 then (b &&& c) ||| (nb &&& d)
    else if i < 32 then (d &&& b) ||| (nd &&& c)
    else if i < 48 then (b ^^^ c) ^^^ d
    else c ^^^ (b ||| nd)
  let g : Nat :=
    if i < 16 then i
    else if i < 32 then (5 * i + 1) % 16
    else if i < 48 then (3 * i + 5) % 16
    else (7 * i) % 16
  let x := (f + a + md5_sine.getD i 0 + md5_word block g) % 2 ^ 32
  (d, (b + rotl32 x (md5_shift.getD i 0)) % 2 ^ 32, b, c)

/-- The processing of one block of 64 bytes. -/
def md5_block (st : Nat × Nat × Nat × Nat) (block : List Nat) : Nat × Nat × Nat × Nat :=
  let r := (List.range 64).foldl (md5_round block) st
  ((st.1 + r.1) % 2 ^ 32, (st.2.1 + r.2.1) % 2 ^ 32, (st.2.2.1 + r.2.2.1) % 2 ^ 32,
    (st.2.2.2 + r.2.2.2) % 2 ^ 32)

/-- The `n` little-endian bytes of `x`. -/
def le_bytes (n x : Nat) : List Nat := (List.range n).map fun k => (x / 256 ^ k) % 256

/-- The message with its padding: a byte 128, zero bytes up to 56 modulo 64, and the
length of the message in bits as 8 little-endian bytes. -/
def md5_pad (msg : List Nat) : List Nat :=
  msg.map (· % 256) ++ [128] ++ List.replicate ((119 - msg.length % 64) % 64) 0
    ++ le_bytes 8 ((8 * msg.length) % 2 ^ 64)

/-- The MD5 digest of a message: 16 bytes. -/
def md5 (msg : List Nat) : List Nat :=
  let p := md5_pad msg
  let r := (List.range (p.length / 64)).foldl
    (fun st k => md5_block st ((p.drop (64 * k)).take 64))
    (1732584193, 4023233417, 2562383102, 271733878)
  le_bytes 4 r.1 ++ le_bytes 4 r.2.1 ++ le_bytes 4 r.2.2.1 ++ le_bytes 4 r.2.2.2

/-- The context `MD5_CTX`, represented by the bytes fed to it so far. -/
abbrev MD5_CTX : Type := List Nat

/-- The library call `MD5_Init`. -/
def MD5_Init : MD5_CTX := []

/-- The library call `MD5_Update`. -/
def MD5_Update (c : MD5_CTX) (data : List Nat) : MD5_CTX := c ++ data

/-- The library call `MD5_Final`. -/
def MD5_Final (c : MD5_CTX) : List Nat := md5 c

/-! ## The checksum buffer `cksm` and the format of a digest -/

/-- The character that ends a C string. -/
def NUL : Char := Char.ofNat 0

/-- The lowercase hexadecimal digit of a number below 16. -/
def hex_digit (n : Nat) : Char :=
  if n < 10 then Char.ofNat (48 + n) else Char.ofNat (87 + n)

/-- The call `sprintf(&buf[pos], "%02x", v)` for a value `v` below 256: two
hexadecimal digits and the terminating `NUL`. -/
def sprintf_02x (buf : List Char) (pos : Nat) (v : Nat) : List Char :=
  ((buf.set pos (hex_digit (v / 16))).set (pos + 1) (hex_digit (v % 16))).set (pos + 2) NUL

/-- The loop `for (i = 0; i < MD5_DIGEST_LENGTH; ++i) sprintf(&cksm[i*2], "%02x",
(unsigned int) md5digest[i]);` followed by `cksm[MD5_DIGEST_LENGTH*2+1] = 0`, on the
buffer `cksm`; `md5digest[i]` is an `unsigned char`. -/
def format_digest (md5digest : List Nat) (cksm : List Char) : List Char :=
  ((List.range 16).foldl
    (fun buf i => sprintf_02x buf (i * 2) (md5digest.getD i 0 % 256)) cksm).set 33 NUL

/-- The C string that starts a buffer: the characters before the first `NUL`. -/
def c_string (buf : List Char) : List Char := buf.takeWhile (fun c => c != NUL)

/-- The two hexadecimal digits of every byte, high digit first. -/
def hex_chars : List Nat → List Char
  | [] => []
  | b :: bs => hex_digit (b / 16) :: hex_digit (b % 16) :: hex_chars bs

/-! ## The MD5 checksum task -/

/-- The calls made by the command side of the module, with the values returned where
the code looks at them. `intermediate_command` carries the number whose decimal text
is sent, `time` the value returned by `time(NULL)`. -/
inductive CmdCall where
  | posix_call (name : String) (ret : Int)
  | close (fd : Int)
  | lseek (fd : Int) (offset : Int)
  | read (fd : Int) (count : Nat)
  | time (now : Int)
  | sleep (seconds : Nat)
  | register_oneshot
  | intermediate_command (rc : Result) (total_bytes : Int)
  | finished_command (rc : Result) (payload : Option String)
  deriving DecidableEq, Repr

/-- The fields of `struct globus_l_gfs_posix_cksm_md5_cb_t`. They count the bytes of
one file and are integers here. -/
structure Md5Task where
  c : MD5_CTX
  fd : Int
  fsize : Int
  blocksize : Int
  offset : Int
  length : Int
  total_bytes : Int
  marker_freq : Int
  t_lastmarker : Int
  deriving DecidableEq, Repr

/-- The constant `MAXBLOCSIZE4CKSM`. -/
def MAXBLOCSIZE4CKSM : Int := 4 * 1024 * 1024

/-- What the outside world answers during one step of the checksum: the value of
`errno` when the step is entered, the bytes `read` puts in the buffer (`none` when
`read` returns -1, in which case it sets `errno` to `read_errno`), and the value of
`time(NULL)`. -/
structure Md5StepEnv where
  errno : Int
  read_data : Option (List Nat)
  read_errno : Int
  now : Int

/-- The outcome of one step: the task (`none` once it is freed and not scheduled
again), the buffer `cksm`, the value of `errno` and the calls made. -/
structure Md5Step where
  task : Option Md5Task
  cksm : List Char
  errno : Int
  calls : List CmdCall

/-- The byte count passed to `read` by a step: `length > blocksize ? blocksize :
length`, converted to `size_t`. -/
def md5_read_count (t : Md5Task) : Nat :=
  to_size_t (if t.length > t.blocksize then t.blocksize else t.length)

/-- The function `globus_l_gfs_posix_cksm_md5_cb`. -/
def cksm_md5_cb (env : Md5StepEnv) (cksm : List Char) (t : Md5Task) : Md5Step :=
  if t.length = 0 then
    let cksm1 := format_digest (MD5_Final t.c) cksm
    { task := none, cksm := cksm1, errno := env.errno,
      calls := [CmdCall.close t.fd,
                CmdCall.finished_command Result.success (some (String.mk (c_string cksm1)))] }
  else
    let readlen : Int :=
      match env.read_data with
      | some bytes => bytes.length
      | none => -1
    let errno1 : Int :=
      match env.read_data with
      | some _ => env.errno
      | none => env.read_errno
    if 0 < readlen ∧ errno1 = 0 then
      let t1 : Md5Task :=
        { t with offset := t.offset + readlen, length := t.length - readlen,
                 total_bytes := t.total_bytes + readlen,
                 c := MD5_Update t.c (env.read_data.getD []) }
      if env.now - t1.t_lastmarker > t1.marker_freq then
        { task := some { t1 with t_lastmarker := env.now }, cksm := cksm, errno := errno1,
          calls := [CmdCall.read t.fd (md5_read_count t), CmdCall.time env.now,
                    CmdCall.intermediate_command Result.success t1.total_bytes,
                    CmdCall.register_oneshot] }
      else
        { task := some t1, cksm := cksm, errno := errno1,
          calls := [CmdCall.read t.fd (md5_read_count t), CmdCall.time env.now,
                    CmdCall.register_oneshot] }
    else
      { task := some t, cksm := cksm, errno := 0,
        calls := [CmdCall.read t.fd (md5_read_count t), CmdCall.sleep 2,
                  CmdCall.register_oneshot] }

/-- What the outside world answers during `globus_l_gfs_posix_cksm_md5`: `ext` is
`none` when `GRIDFTP_CKSUM_EXT_MD5` is not set, `some none` when `popen` of the helper
fails, `some (some w)` when the helper runs and `w` is the first word it prints (empty
when it prints none); then the results of `stat` and `open`, the update interval of
the transport and `time(NULL)`. -/
structure Md5Env where
  ext : Option (Option String)
  stat_ret : Int
  is_reg : Bool
  st_size : Int
  open_ret : Int
  marker_freq : Int
  now : Int

/-- The outcome of `globus_l_gfs_posix_cksm_md5`: the value returned, the task
scheduled (if any), the buffer `cksm` and the calls made. -/
structure Md5Start where
  rc : Result
  task : Option Md5Task
  cksm : List Char
  calls : List CmdCall

/-- The call `fscanf(F, "%s", cksm)` when the stream holds the word `w`: the
characters of `w` and a `NUL` at the start of the buffer; when it holds no word
(`w` empty) the buffer is left as it was. -/
def scan_word (w : String) (cksm : List Char) : List Char :=
  if w = "" then cksm else w.data ++ NUL :: cksm.drop (w.length + 1)

/-- The statements `pt = strchr(cksm, ' '); if (pt != NULL) pt[0] = 0;`: the first
space of the C string, if there is one, becomes `NUL`. -/
def cut_at_space : List Char → List Char
  | [] => []
  | c :: cs =>
    if c = NUL then c :: cs
    else if c = ' ' then NUL :: cs
    else c :: cut_at_space cs

/-- The function `globus_l_gfs_posix_cksm_md5` for the range `offset`, `length` of
`filename`. The sum `offset + length` and the difference `st_size - offset` are
computed in `globus_off_t`, hence reduced to 64 bits. -/
def cksm_md5 (env : Md5Env) (cksm : List Char) (offset length : Int) : Md5Start :=
  match env.ext with
  | some none => { rc := Result.failure, task := none, cksm := cksm, calls := [] }
  | some (some w) =>
    let cksm1 := cut_at_space (scan_word w cksm)
    { rc := Result.success, task := none, cksm := cksm1,
      calls := [CmdCall.finished_command Result.success (some (String.mk (c_string cksm1)))] }
  | none =>
    if env.stat_ret ≠ 0 ∨ env.is_reg = false then
      { rc := Result.failure, task := none, cksm := cksm,
        calls := [CmdCall.posix_call "stat" env.stat_ret] }
    else if env.open_ret < 0 then
      { rc := Result.failure, task := none, cksm := cksm,
        calls := [CmdCall.posix_call "stat" env.stat_ret,
                  CmdCall.posix_call "open" env.open_ret] }
    else
      let length1 : Int :=
        if length < 0 ∨ to_off_t (offset + length) > env.st_size then
          to_off_t (env.st_size - offset)
        else length
      { rc := Result.success,
        task := some { c := MD5_Init, fd := env.open_ret, fsize := env.st_size,
                       blocksize := MAXBLOCSIZE4CKSM, offset := offset, length := length1,
                       total_bytes := 0, marker_freq := env.marker_freq,
                       t_lastmarker := env.now },
        cksm := cksm,
        calls := [CmdCall.posix_call "stat" env.stat_ret,
                  CmdCall.posix_call "open" env.open_ret,
                  CmdCall.lseek env.open_ret offset, CmdCall.time env.now,
                  CmdCall.register_oneshot] }

/-- The state of a checksum in progress: the task, the buffer `cksm` and the calls
made so far. -/
structure CksmState where
  task : Option Md5Task
  cksm : List Char
  calls : List CmdCall

/-- One run of the scheduled callback; without a task nothing is scheduled. -/
def cksm_step (s : CksmState) (env : Md5StepEnv) : CksmState :=
  match s.task with
  | none => s
  | some t =>
    let r := cksm_md5_cb env s.cksm t
    { task := r.task, cksm := r.cksm, calls := s.calls ++ r.calls }

/-- The state after the runs of the callback answered by `envs`. -/
def cksm_run (s : CksmState) (envs : List Md5StepEnv) : CksmState := envs.foldl cksm_step s

/-- The state after `globus_l_gfs_posix_cksm_md5`. -/
def cksm_init (env : Md5Env) (cksm : List Char) (offset length : Int) : CksmState :=
  let r := cksm_md5 env cksm offset length
  { task := r.task, cksm := r.cksm, calls := r.calls }

/-- The payloads of the calls of `globus_gridftp_server_finished_command`. -/
def finished_commands : List CmdCall → List (Result × Option String)
  | [] => []
  | CmdCall.finished_command rc p :: cs => (rc, p) :: finished_commands cs
  | _ :: cs => finished_commands cs

/-- The byte counts asked from `read` by the command side. -/
def cmd_read_counts : List CmdCall → List Nat
  | [] => []
  | CmdCall.read _ n :: cs => n :: cmd_read_counts cs
  | _ :: cs => cmd_read_counts cs

/-! ## The Adler-32 checksum and the command handler -/

/-- The function `adler32` of zlib: the running checksum `adler` continued over the
bytes of `buf`. -/
def adler32 (adler : Nat) (buf : List Nat) : Nat :=
  let r := buf.foldl
    (fun (ab : Nat × Nat) byte =>
      let a := (ab.1 + byte % 256) % 65521
      (a, (ab.2 + a) % 65521))
    (adler % 65536, adler / 65536 % 65536)
  r.2 * 65536 + r.1

/-- The value of `adler32(0L, Z_NULL, 0)`, the checksum of no data. -/
def adler32_init : Nat := 1

/-- The text printed by `"%08x"` for a value below `2^32`: 8 hexadecimal digits. -/
def hex8 (x : Nat) : List Char := (List.range 8).map fun k => hex_digit (x / 16 ^ (7 - k) % 16)

/-- What the outside world answers during `globus_l_gfs_posix_cksm_adler32`: `ext`
as in `Md5Env` for `GRIDFTP_CKSUM_EXT_ADLER32`, the results of `stat` and `open`, and
the data returned by the successive calls of `read` (a read after the last one
returns 0). -/
structure Adler32Env where
  ext : Option (Option String)
  stat_ret : Int
  is_reg : Bool
  open_ret : Int
  reads : List (List Nat)

/-- The function `globus_l_gfs_posix_cksm_adler32`: the value returned, the buffer
`cksm` and the calls made. The loop `while ((len = read(fd, buf, 65536)) > 0)` ends at
the first read that returns no data. -/
def cksm_adler32 (env : Adler32Env) (cksm : List Char) : Result × List Char × List CmdCall :=
  match env.ext with
  | some none => (Result.failure, cksm, [])
  | some (some w) =>
    let cksm1 := cut_at_space (scan_word w cksm)
    (Result.success, cksm1,
      [CmdCall.finished_command Result.success (some (String.mk (c_string cksm1)))])
  | none =>
    if env.stat_ret ≠ 0 ∨ env.is_reg = false then
      (Result.failure, cksm, [CmdCall.posix_call "stat" env.stat_ret])
    else if env.open_ret < 0 then
      (Result.failure, cksm,
        [CmdCall.posix_call "stat" env.stat_ret, CmdCall.posix_call "open" env.open_ret])
    else
      let data := env.reads.takeWhile (fun chunk => !chunk.isEmpty)
      let adler := data.foldl adler32 adler32_init
      let cksm1 := (hex8 (adler % 2 ^ 32) ++ NUL :: cksm.drop 9).set 8 NUL
      (Result.success, cksm1,
        [CmdCall.posix_call "stat" env.stat_ret, CmdCall.posix_call "open" env.open_ret]
          ++ data.map (fun _ => CmdCall.read env.open_ret 65536)
          ++ [CmdCall.read env.open_ret 65536, CmdCall.close env.open_ret,
              CmdCall.finished_command Result.success (some (String.mk (c_string cksm1)))])

/-- The commands `globus_l_gfs_posix_command` has a case for, and `other` for every
other value of `cmd_info->command`. -/
inductive Command where
  | MKD | RMD | DELE | TRNC | SITE_RDEL | RNTO | SITE_CHMOD | SITE_CHGRP | SITE_UTIME
  | SITE_SYMLINK | CKSM | other
  deriving DecidableEq, Repr

/-- What the outside world answers during `globus_l_gfs_posix_command`: the value
returned by the system call of the command and `errno` after it, the value returned
by `globus_l_gfs_file_delete_dir`, whether `globus_l_gfs_posix_chgrp` returns
`GLOBUS_SUCCESS`, and the answers for the two checksum routines. -/
structure CommandEnv where
  ret : Int
  errno : Int
  rdel : Result
  chgrp_ok : Bool
  adler : Adler32Env
  md5 : Md5Env

/-- The statement `(call(...) == 0) || (rc = GlobusGFSErrorSystemError(name, errno))`
after `rc = GLOBUS_SUCCESS`. -/
def posix_result (name : String) (ret errno : Int) : Result :=
  if ret = 0 then Result.success else Result.system name errno

/-- The `switch` of `globus_l_gfs_posix_command`: the value of `rc` after it, the task
scheduled (if any), the buffer `cksm` and the calls made. -/
def command_switch (cmd : Command) (cksm_alg : String) (cksm_offset cksm_length : Int)
    (env : CommandEnv) (cksm : List Char) : Md5Start :=
  match cmd with
  | Command.MKD =>
    { rc := posix_result "mkdir" env.ret env.errno, task := none, cksm := cksm,
      calls := [CmdCall.posix_call "mkdir" env.ret] }
  | Command.RMD =>
    { rc := posix_result "rmdir" env.ret env.errno, task := none, cksm := cksm,
      calls := [CmdCall.posix_call "rmdir" env.ret] }
  | Command.DELE =>
    { rc := posix_result "unlink" env.ret env.errno, task := none, cksm := cksm,
      calls := [CmdCall.posix_call "unlink" env.ret] }
  | Command.TRNC =>
    { rc := posix_result "truncate" env.ret env.errno, task := none, cksm := cksm,
      calls := [CmdCall.posix_call "truncate" env.ret] }
  | Command.SITE_RDEL => { rc := env.rdel, task := none, cksm := cksm, calls := [] }
  | Command.RNTO =>
    { rc := posix_result "rename" env.ret env.errno, task := none, cksm := cksm,
      calls := [CmdCall.posix_call "rename" env.ret] }
  | Command.SITE_CHMOD =>
    { rc := posix_result "chmod" env.ret env.errno, task := none, cksm := cksm,
      calls := [CmdCall.posix_call "chmod" env.ret] }
  | Command.SITE_CHGRP =>
    { rc := if env.chgrp_ok then Result.success else Result.system "chgrp" env.errno,
      task := none, cksm := cksm, calls := [] }
  | Command.SITE_UTIME =>
    { rc := posix_result "utime" env.ret env.errno, task := none, cksm := cksm,
      calls := [CmdCall.posix_call "utime" env.ret] }
  | Command.SITE_SYMLINK =>
    { rc := posix_result "symlink" env.ret env.errno, task := none, cksm := cksm,
      calls := [CmdCall.posix_call "symlink" env.ret] }
  | Command.CKSM =>
    if cksm_alg = "adler32" ∨ cksm_alg = "ADLER32" then
      let r := cksm_adler32 env.adler cksm
      { rc := r.1, task := none, cksm := r.2.1, calls := r.2.2 }
    else if cksm_alg = "md5" ∨ cksm_alg = "MD5" then
      cksm_md5 env.md5 cksm cksm_offset cksm_length
    else { rc := Result.failure, task := none, cksm := cksm, calls := [] }
  | Command.other => { rc := Result.failure, task := none, cksm := cksm, calls := [] }

/-- The function `globus_l_gfs_posix_command`: the `switch`, then
`if (rc != GLOBUS_SUCCESS || cmd_info->command != GLOBUS_GFS_CMD_CKSM)
globus_gridftp_server_finished_command(op, rc, NULL);`. -/
def command (cmd : Command) (cksm_alg : String) (cksm_offset cksm_length : Int)
    (env : CommandEnv) (cksm : List Char) : CksmState :=
  let r := command_switch cmd cksm_alg cksm_offset cksm_length env cksm
  if r.rc ≠ Result.success ∨ cmd ≠ Command.CKSM then
    { task := r.task, cksm := r.cksm,
      calls := r.calls ++ [CmdCall.finished_command r.rc none] }
  else { task := r.task, cksm := r.cksm, calls := r.calls }

/-- The progress markers in a list of calls, each with the value of `time(NULL)` seen
last before it; `last` is the value seen before the list. -/
def markers (last : Int) : List CmdCall → List (Int × Int)
  | [] => []
  | CmdCall.time now :: cs => markers now cs
  | CmdCall.intermediate_command _ b :: cs => (last, b) :: markers last cs
  | _ :: cs => markers last cs

/-- The value of `time(NULL)` seen last in a list of calls. -/
def last_time (last : Int) : List CmdCall → Int
  | [] => last
  | CmdCall.time now :: cs => last_time now cs
  | _ :: cs => last_time last cs

/-- Markers `(time, total_bytes)` that follow a marker or a task start at time `t0`
with `b0` bytes: every one comes more than `freq` seconds after the one before, and
the byte totals do not decrease. -/
def markers_ok (freq : Int) : Int → Int → List (Int × Int) → Prop
  | _, _, [] => True
  | t0, b0, (t, b) :: ms => freq < t - t0 ∧ b0 ≤ b ∧ markers_ok freq t b ms

/-! ## The chain of steps of a checksum -/

/-- The number of calls of `globus_callback_register_oneshot`. -/
def oneshots (cs : List CmdCall) : Nat := cs.count CmdCall.register_oneshot

/-- The state after the first `n` runs of the scheduled callback `cksm_md5_cb`, the run
number `k` (counted from 0) being answered by `env k`. -/
def cksm_after (env : Nat → Md5StepEnv) (s : CksmState) (n : Nat) : CksmState :=
  cksm_run s ((List.range n).map env)

/-- Every step that reads is entered with `errno` equal to 0 and its `read` returns at
least 1 byte and at most the count it asked for. -/
def GoodReads (env : Nat → Md5StepEnv) (s : CksmState) : Prop :=
  ∀ k t, (cksm_after env s k).task = some t → t.length ≠ 0 →
    (env k).errno = 0
      ∧ ∃ bytes, (env k).read_data = some bytes ∧ 1 ≤ bytes.length
          ∧ bytes.length ≤ md5_read_count t

/-- Every `read` of the chain returns the count it asked for. -/
def FullReads (env : Nat → Md5StepEnv) (s : CksmState) : Prop :=
  ∀ k t bytes, (cksm_after env s k).task = some t → t.length ≠ 0 →
    (env k).read_data = some bytes → bytes.length = md5_read_count t

/-! ## Splitting a path: `globus_l_gfs_file_partition_path`

A C string is given by the list of its characters before the terminator. -/

/-- The constant `MAXPATHLEN` of `<sys/param.h>`. -/
def MAXPATHLEN : Nat := 4096

/-- The call `strrchr(buf, c)`: the index of the last `c` in `buf`, `none` for the null
pointer returned when there is none. -/
def strrchr (c : Char) : List Char → Option Nat
  | [] => none
  | x :: xs =>
    match strrchr c xs with
    | some i => some (i + 1)
    | none => if x = c then some 0 else none

/-- The loop `while (filepart && !*(filepart + 1) && filepart != buf)` with its body
`*filepart = 0; filepart = strrchr(buf, '/');`: as long as the last `/` is the last
character of `buf` and not the first, `buf` is cut there. Every iteration shortens
`buf`; `fuel` bounds their number (see `file_partition_path`). -/
def drop_trailing_slashes : Nat → List Char → List Char
  | 0, buf => buf
  | fuel + 1, buf =>
    match strrchr '/' buf with
    | some i =>
      if buf.get? (i + 1) = none ∧ i ≠ 0 then drop_trailing_slashes fuel (buf.take i)
      else buf
    | none => buf

/-- The statement `if (!filepart) ... else ...` that follows the loop: the pair of
`basepath` and `filename` stored for the contents `buf` of the buffer, `filepart`
being the position of its last `/`. -/
def partition_buf (buf : List Char) : List Char × List Char :=
  match strrchr '/' buf with
  | none => ([], buf)
  | some i =>
    if i = 0 then
      if buf.get? (i + 1) = none then ([], ['/'])
      else (['/'], buf.drop (i + 1))
    else (buf.take i, buf.drop (i + 1))

/-- The function `globus_l_gfs_file_partition_path`: the pair of `basepath` and
`filename` it stores for `pathname`. `strncpy` and the assignment after it leave the
first `MAXPATHLEN - 1` characters of `pathname` in `buf`; the loop runs at most once
for each character of `buf`. -/
def file_partition_path (pathname : List Char) : List Char × List Char :=
  let buf0 := pathname.take (MAXPATHLEN - 1)
  partition_buf (drop_trailing_slashes buf0.length buf0)

/-- In the words of the specification: the path without its trailing `/`
characters. -/
def without_trailing_slashes (p : List Char) : List Char :=
  p.rdropWhile (fun c => c == '/')

/-- In the words of the specification: a path made only of `/` characters. -/
def only_slashes (p : List Char) : Prop := p ≠ [] ∧ ∀ c ∈ p, c = '/'

/-! ## A send whose threads interleave

`globus_l_gfs_posix_read_from_storage_cb` runs `posix_handle->outstanding--` before
`globus_l_gfs_posix_read_from_storage` takes the mutex, and the latter runs its last
statement, `if (outstanding == 0) ...`, after it has released the mutex. When the
transport runs callbacks on several threads, these statements of one thread fall
between the statements of another. The events below are the pieces of the send path
that interleave: the decrement, the taking of the mutex, one evaluation of the loop
condition (followed by the loop body or by the release of the mutex), and the last
statement. Each piece is indivisible, and the mutex keeps the loop of one thread apart
from the loop of another. `send_step` is the case of a callback that runs all its
pieces with no other thread in between (`send_step_as_events`). -/

/-- The mutex of the handle: free, held by the thread that runs the refill loop, or
lost, when that thread has returned from inside the loop without releasing it. -/
inductive Mutex where
  | free
  | held
  | lost
  deriving DecidableEq, Repr

/-- The state of a send whose threads interleave: the handle, the number of writes
registered whose callback has not started (`pending`), the number of threads that wait
for the mutex (`entered`: callbacks past their decrement, and the call of
`globus_l_gfs_posix_send` before its refill), the mutex, the number of threads that
have released the mutex and not yet run the last statement (`leaving`), and the calls
made so far. -/
structure SendThreads where
  h : Handle
  pending : Nat
  entered : Nat
  mutex : Mutex
  leaving : Nat
  log : List Call

/-- The pieces of the send path that threads interleave. `decrement`: a callback
starts and runs `posix_handle->outstanding--`. `lock`: a thread that waits takes the
free mutex. `iterate e`: the thread that holds the mutex evaluates the loop condition
and either runs the loop body once, with the answers `e`, or leaves the loop and
releases the mutex. `final_test r`: a thread that has released the mutex runs
`if (outstanding == 0) { close; finished_transfer }`, `close` returning `r`. -/
inductive SendEvent where
  | decrement
  | lock
  | iterate (e : SendIssueEnv)
  | final_test (close_ret : Int)

/-- One event. An event that no thread can run in the state leaves it unchanged. The
loop body is `read_from_storage_loop` with fuel for one iteration; when it returns from
inside the loop (no buffer) the mutex is not released. -/
def send_event (s : SendThreads) : SendEvent → SendThreads
  | SendEvent.decrement =>
    if s.pending = 0 then s
    else
      { s with h := { s.h with outstanding := s.h.outstanding - 1 },
               pending := s.pending - 1, entered := s.entered + 1 }
  | SendEvent.lock =>
    if s.entered = 0 ∨ s.mutex ≠ Mutex.free then s
    else { s with entered := s.entered - 1, mutex := Mutex.held }
  | SendEvent.iterate e =>
    if s.mutex ≠ Mutex.held then s
    else if s.h.outstanding < s.h.optimal_count ∧ s.h.done = false then
      let r := read_from_storage_loop (fun _ => e) 1 0 s.h
      { s with h := r.1, pending := s.pending + registered r.2.1, log := s.log ++ r.2.1,
               mutex := if r.2.2 then Mutex.lost else Mutex.held }
    else { s with mutex := Mutex.free, leaving := s.leaving + 1 }
  | SendEvent.final_test close_ret =>
    if s.leaving = 0 then s
    else if s.h.outstanding = 0 then
      { s with leaving := s.leaving - 1,
               log := s.log ++ [Call.close s.h.fd close_ret,
                                Call.finished_transfer Result.success] }
    else { s with leaving := s.leaving - 1 }

/-- The state after the events `es`. -/
def send_events (s : SendThreads) (es : List SendEvent) : SendThreads :=
  es.foldl send_event s

/-- The statements of `globus_l_gfs_posix_send` that come before the call of
`globus_l_gfs_posix_read_from_storage`: the handle and the calls made. -/
def send_setup (pathname : String) (env : SendEnv) (h : Handle) : Handle × List Call :=
  let h1 : Handle :=
    { h with pathname := normalize_path pathname, outstanding := 0, done := false,
             block_size := env.block_size, offset := env.range_offset,
             block_length := env.range_length, fd := env.open_ret }
  let fin : List Call :=
    if h1.fd = -1 then [Call.finished_transfer (Result.system "open" env.open_errno)]
    else []
  let zero : Bool := if h1.pathname = "/dev/zero" then true else false
  let seek : List Call :=
    if zero then [] else [Call.lseek h1.fd h1.offset env.lseek_ret]
  let h2 : Handle :=
    { h1 with seekable := if zero then false else true, optimal_count := env.opt }
  (h2, Call.begin_transfer :: Call.posix_open h1.pathname false env.open_ret :: fin ++ seek)

/-- The state in which `globus_l_gfs_posix_send` calls
`globus_l_gfs_posix_read_from_storage`: its thread is the one that waits for the
mutex. -/
def send_enter (pathname : String) (env : SendEnv) (h : Handle) : SendThreads :=
  { h := (send_setup pathname env h).1, pending := 0, entered := 1, mutex := Mutex.free,
    leaving := 0, log := (send_setup pathname env h).2 }

/-- The number of threads at work in the send path. -/
def active (s : SendThreads) : Nat :=
  s.entered + (if s.mutex = Mutex.held then 1 else 0) + s.leaving

/-- Whether the events `es` run from `s` one thread at a time: no thread starts before
the one at work has run its last statement. -/
def no_overlap : SendThreads → List SendEvent → Bool
  | s, [] => decide (active s ≤ 1)
  | s, e :: es => decide (active s ≤ 1) && no_overlap (send_event s e) es

/-- Whether an event, if it is a loop body, gets its buffer and has its write
registered. -/
def SendEvent.ok : SendEvent → Bool
  | SendEvent.iterate e => e.malloc_ok && e.register_ok
  | _ => true

/-- The events of one call of `globus_l_gfs_posix_read_from_storage` that runs alone:
it takes the mutex, runs the loop body once for each of `answers`, finds the loop
condition false, releases the mutex and runs the last statement. -/
def refill_events (answers : List SendIssueEnv) (close_ret : Int) : List SendEvent :=
  [SendEvent.lock] ++ answers.map SendEvent.iterate
    ++ [SendEvent.iterate { malloc_ok := true, read_ret := 0, register_ok := true },
        SendEvent.final_test close_ret]

/-- The events of one callback that runs alone: the decrement, then the refill. -/
def callback_events (answers : List SendIssueEnv) (close_ret : Int) : List SendEvent :=
  SendEvent.decrement :: refill_events answers close_ret

/-- A state of a transfer seen as a state of threads of which none is at work. -/
def Sys.threads (s : Sys) : SendThreads :=
  { h := s.h, pending := s.pending, entered := 0, mutex := Mutex.free, leaving := 0,
    log := s.log }

/-- The events of a thread that holds the mutex and runs the loop body `k` times, with
the answers `env i`, `env (i + 1)`, ... -/
def loop_events (env : Nat → SendIssueEnv) (i k : Nat) : List SendEvent :=
  (List.range k).map (fun j => SendEvent.iterate (env (i + j)))

/-- While a receive has operations pending, `seekable` is what
`globus_l_gfs_posix_recv` made it: false for `/dev/null`, true for any other path. -/
def RecvSeekable (pathname : String) (s : Sys) : Prop :=
  s.pending = 0
    ∨ s.h.seekable = (if normalize_path pathname = "/dev/null" then false else true)

/-! ## Sample answers of the outside world, used to evaluate the functions -/

/-- Every allocation and every registration of the receive path succeeds. -/
def issue_ok : Nat → IssueEnv := fun _ => { malloc_ok := true, register_ok := true }

/-- Allocations succeed, every `globus_gridftp_server_register_read` fails. -/
def issue_register_fails : Nat → IssueEnv :=
  fun _ => { malloc_ok := true, register_ok := false }

/-- The answers to `globus_l_gfs_posix_recv` for a target that does not exist yet
(`stat` fails with `ENOENT`) and whose `open` returns `fd`; block size 4, write range
from offset 0 without length limit, concurrency `opt`. -/
def recv_env (fd : Int) (open_errno : Int) (opt : Int) : RecvEnv :=
  { block_size := 4, range_offset := 0, range_length := -1, quota_msg := none,
    cgi_filename := none, stat_ret := -1, stat_errno := ENOENT, open_ret := fd,
    open_errno := open_errno, opt := opt, issue := issue_ok }

/-- The answers to a receive completion for `nbytes` bytes at `offset` in which
`lseek` returns `lseek_ret`, `write` returns `write_ret`, `close` succeeds and the
refill gets the concurrency `opt`. -/
def cb_env (lseek_ret write_ret : Int) (opt : Int) : WriteCbEnv :=
  { lseek_ret := lseek_ret, lseek_errno := 29, write_ret := write_ret, write_errno := 28,
    close_ret := 0, close_errno := 0, opt := opt, issue := issue_ok }

/-- A completion whose transport result is success and whose `lseek` and `write`
succeed in full. -/
def completion_ok (offset : Int) (nbytes : Nat) (eof : Bool) (opt : Int) : RecvCompletion :=
  { result := Result.success, nbytes := nbytes, offset := offset, eof := eof,
    env := cb_env offset nbytes opt }

/-- The last completion of a transfer: success, no data, end of file. -/
def completion_eof (offset : Int) (opt : Int) : RecvCompletion :=
  completion_ok offset 0 true opt

/-- A handle in the middle of a transfer on descriptor 5: seekable, block size 4, not
`done`, with the given `outstanding` and `optimal_count`. -/
def active_handle (outstanding optimal_count : Int) : Handle :=
  { pathname := "/data/file", fd := 5, seekable := true, block_size := 4,
    block_length := -1, offset := 0, done := false, optimal_count := optimal_count,
    outstanding := outstanding }

/-- Every allocation succeeds, every `read` returns `read_ret`, and every
`globus_gridftp_server_register_write` returns `register_ok`. -/
def send_issue (read_ret : Int) (register_ok : Bool) : Nat → SendIssueEnv :=
  fun _ => { malloc_ok := true, read_ret := read_ret, register_ok := register_ok }

/-- The answers to one call of `globus_l_gfs_posix_read_from_storage`. -/
def read_env (read_ret : Int) (register_ok : Bool) : ReadEnv :=
  { issue := send_issue read_ret register_ok, close_ret := 0 }

/-- The answers to `globus_l_gfs_posix_send` when `open` returns `fd`; block size 4,
read range from offset 0 without length limit, concurrency `opt`. -/
def send_env (fd : Int) (open_errno : Int) (opt : Int) (read_ret : Int) (register_ok : Bool) :
    SendEnv :=
  { block_size := 4, range_offset := 0, range_length := -1, open_ret := fd,
    open_errno := open_errno, lseek_ret := if fd = -1 then -1 else 0, opt := opt,
    rd := read_env read_ret register_ok }

/-- A completion with end of file and no data, on a descriptor whose `close` fails
with `EBADF`. -/
def completion_eof_bad_fd : RecvCompletion :=
  { result := Result.success, nbytes := 0, offset := 0, eof := true,
    env := { lseek_ret := -1, lseek_errno := 9, write_ret := -1, write_errno := 9,
             close_ret := -1, close_errno := 9, opt := 1, issue := issue_ok } }

/-- A completion that the transport reports as failed, without data. -/
def completion_transport_error : RecvCompletion :=
  { result := Result.generic "connection reset", nbytes := 0, offset := 0, eof := false,
    env := cb_env 0 0 2 }

/-- A completion of 4 bytes at offset 0 of which `write` accepts only 3. -/
def completion_short_write : RecvCompletion :=
  { result := Result.success, nbytes := 4, offset := 0, eof := false, env := cb_env 0 3 2 }

/-- A completion of 4 bytes at offset 0 for which `lseek` fails. -/
def completion_seek_error : RecvCompletion :=
  { result := Result.success, nbytes := 4, offset := 0, eof := false, env := cb_env (-1) 4 2 }

/-- The answers to `globus_l_gfs_posix_send` for a send of 1 MiB from offset 0 in
blocks of `b` bytes with concurrency 1, when `open` returns 5 and the reads of the
first refill return `read_ret`. -/
def mib_send_env (b : Nat) (read_ret : Int) : SendEnv :=
  { block_size := b, range_offset := 0, range_length := 1048576, open_ret := 5,
    open_errno := 0, lseek_ret := 0, opt := 1, rd := read_env read_ret true }

/-- A buffer `cksm` filled by earlier commands. -/
def stale_cksm : List Char := List.replicate 512 'x'

/-- A checksum task on descriptor 7 with `length` bytes left, the bytes `c` fed so
far, a marker interval of 10 seconds and the last marker at time 100. -/
def md5_task (c : List Nat) (length : Int) : Md5Task :=
  { c := c, fd := 7, fsize := 4, blocksize := MAXBLOCSIZE4CKSM, offset := 0,
    length := length, total_bytes := c.length, marker_freq := 10, t_lastmarker := 100 }

/-- The answers to a checksum step entered with `errno` whose `read` returns `data`,
at time 101. -/
def step_env (errno : Int) (data : List Nat) : Md5StepEnv :=
  { errno := errno, read_data := some data, read_errno := 0, now := 101 }

/-- The answers to `globus_l_gfs_posix_cksm_md5` for a regular file of `size` bytes
opened on descriptor 7, without external helper. -/
def md5_env (size : Int) : Md5Env :=
  { ext := none, stat_ret := 0, is_reg := true, st_size := size, open_ret := 7,
    marker_freq := 10, now := 100 }

/-- The answers to `globus_l_gfs_posix_command` when the system call of the command
returns `ret` with `errno` 13, for a regular file of 4 bytes 1, 2, 3, 4 opened on
descriptor 7, without external checksum helpers. -/
def command_env (ret : Int) : CommandEnv :=
  { ret := ret, errno := 13, rdel := Result.success, chgrp_ok := true,
    adler := { ext := none, stat_ret := 0, is_reg := true, open_ret := 7,
               reads := [[1, 2, 3, 4]] },
    md5 := md5_env 4 }

/-- The answers to a checksum step whose `read` fails with `EIO`. -/
def step_env_eio : Md5StepEnv := { errno := 0, read_data := none, read_errno := 5, now := 101 }

/-- The answers to `globus_l_gfs_posix_recv` when `stat` fails with `EACCES` (13): as
`recv_env`, with concurrency 1; the values for `open` are not used. -/
def recv_env_eacces : RecvEnv := { recv_env 5 0 1 with stat_errno := 13 }

/-- A handle left by an earlier transfer on descriptor 5, which that transfer has
closed. -/
def used_handle : Handle := { active_handle 0 1 with done := true }

/-- Checksum steps entered with `errno` equal to 0 whose reads return one byte each. -/
def one_byte_reads : Nat → Md5StepEnv := fun _ => step_env 0 [1]

/-- Checksum steps entered with `errno` equal to 0 whose reads return two bytes each. -/
def two_byte_reads : Nat → Md5StepEnv := fun _ => step_env 0 [1, 2]

/-- The events of a send of 1 MiB from "/dev/zero" in blocks of 512 KiB with
concurrency 1 in which no two threads overlap: the refill of
`globus_l_gfs_posix_send` reads and registers the first block, the callback of the
first write reads and registers the second, and the callback of the second write
finds the end of the data, closes and reports. -/
def one_at_a_time : List SendEvent :=
  refill_events [send_issue 524288 true 0] 0
    ++ callback_events [send_issue 524288 true 0] 0
    ++ callback_events [send_issue 0 true 0] 0

/-- The events of a send of 1 MiB from "/dev/zero" in one block with concurrency 1 in
which the callback of the write starts before `globus_l_gfs_posix_send` has run its
last statement: both threads then find `outstanding == 0`. -/
def overlapping : List SendEvent :=
  [SendEvent.lock, SendEvent.iterate (send_issue 1048576 true 0),
   SendEvent.iterate (send_issue 0 true 0),
   SendEvent.decrement, SendEvent.lock, SendEvent.iterate (send_issue 0 true 0),
   SendEvent.iterate (send_issue 0 true 0),
   SendEvent.final_test 0, SendEvent.final_test 0]

/-! # Theorems -/

theorem registered_nil : registered [] = 0 := rfl

theorem registered_append (a b : List Call) :
    registered (a ++ b) = registered a + registered b := by
  simp [registered, List.countP_append]

theorem registered_cons (c : Call) (cs : List Call) :
    registered (c :: cs) = (if c.registers = true then 1 else 0) + registered cs := by
  simp [registered, List.countP_cons, Nat.add_comm]

theorem finished_results_append (a b : List Call) :
    finished_results (a ++ b) = finished_results a ++ finished_results b := by
  induction a with
  | nil => rfl
  | cons c cs ih => cases c <;> simp [finished_results, ih]

theorem reported_ranges_append (a b : List Call) :
    reported_ranges (a ++ b) = reported_ranges a ++ reported_ranges b := by
  induction a with
  | nil => rfl
  | cons c cs ih => cases c <;> simp [reported_ranges, ih]

/-- With the fuel `write_to_storage` gives it, the receive refill loop stops because
its condition is false or because it returned after a failure, never for lack of
fuel. -/
theorem write_to_storage_loop_exit (env : Nat → IssueEnv) :
    ∀ (fuel i : Nat) (h : Handle), (h.optimal_count - h.outstanding).toNat ≤ fuel →
      ¬ ((write_to_storage_loop env fuel i h).1.outstanding
            < (write_to_storage_loop env fuel i h).1.optimal_count)
        ∨ finished_results (write_to_storage_loop env fuel i h).2 ≠ [] := by
  intro fuel
  induction fuel with
  | zero =>
    intro i h hf
    left
    simp only [write_to_storage_loop]
    omega
  | succ n ih =>
    intro i h hf
    unfold write_to_storage_loop
    by_cases hg : h.outstanding < h.optimal_count
    · by_cases hm : (env i).malloc_ok = false
      · right; simp [hg, hm, finished_results]
      · by_cases hr : (env i).register_ok = false
        · right; simp [hg, hm, hr, finished_results]
        · have := ih (i + 1) { h with outstanding := h.outstanding + 1 }
            (by simp only []; omega)
          simpa [hg, hm, hr, finished_results] using this
    · left; simp [hg]

/-- With the fuel `read_from_storage` gives it, the send refill loop stops because its
condition is false or because it returned after an allocation failure. -/
theorem read_from_storage_loop_exit (env : Nat → SendIssueEnv) :
    ∀ (fuel i : Nat) (h : Handle),
      h.done = true ∨ (h.optimal_count - h.outstanding).toNat ≤ fuel →
      (read_from_storage_loop env fuel i h).2.2 = true
        ∨ ¬ ((read_from_storage_loop env fuel i h).1.outstanding
              < (read_from_storage_loop env fuel i h).1.optimal_count
            ∧ (read_from_storage_loop env fuel i h).1.done = false) := by
  intro fuel
  induction fuel with
  | zero =>
    intro i h hf
    right
    simp only [read_from_storage_loop]
    rcases hf with hf | hf
    · simp [hf]
    · intro hc; omega
  | succ n ih =>
    intro i h hf
    unfold read_from_storage_loop
    by_cases hg : h.outstanding < h.optimal_count ∧ h.done = false
    · by_cases hm : (env i).malloc_ok = false
      · left; simp [hg, hm]
      · by_cases hz : to_size_t (env i).read_ret = 0
        · have := ih (i + 1) { h with done := true } (Or.inl rfl)
          simpa [hg, hm, hz] using this
        · have := ih (i + 1)
            { h with outstanding := h.outstanding + 1,
                     offset := to_off_t (h.offset + to_size_t (env i).read_ret),
                     block_length := to_off_t (h.block_length - to_size_t (env i).read_ret) }
            (Or.inr (by
              rcases hf with hf | hf
              · simp [hf] at hg
              · simp only []; omega))
          simpa [hg, hm, hz] using this
    · right; simp [hg]

/-! ### The receive callback on a failed completion -/

/-- The block `if (nbytes > 0)` never clears `done` and registers nothing. -/
theorem write_block_done (nbytes : Nat) (offset : Int) (env : WriteCbEnv) (rc : Result)
    (h : Handle) (hd : h.done = true) :
    (write_block nbytes offset env rc h).2.1.done = true := by
  unfold write_block
  simp only []
  split_ifs <;> simp [hd]

theorem write_block_no_registration (nbytes : Nat) (offset : Int) (env : WriteCbEnv)
    (rc : Result) (h : Handle) :
    (write_block nbytes offset env rc h).2.2.all (fun c => !c.is_registration) = true := by
  unfold write_block
  simp only []
  split_ifs <;> simp [Call.is_registration]

/-- The end of the callback on a handle that is `done`: no refill, and a report only
when `outstanding` has dropped to 0. -/
theorem complete_of_done (env : WriteCbEnv) (rc : Result) (h : Handle) (hd : h.done = true) :
    (complete env rc h).1.done = true
      ∧ (complete env rc h).2.all (fun c => !c.is_registration) = true
      ∧ (finished_results (complete env rc h).2 ≠ [] → (complete env rc h).1.outstanding = 0) := by
  unfold complete
  simp only [hd]
  split_ifs with h0 h1 <;> simp_all [Call.is_registration, finished_results]

/-- The receive callback, called with a transport result other than success: `done`
is true when it returns, it registers no operation, and it reports the transfer
finished only if `outstanding` has dropped to 0. -/
theorem write_to_storage_cb_of_transport_error (result : Result) (nbytes : Nat)
    (offset : Int) (eof : Bool) (env : WriteCbEnv) (h : Handle)
    (hres : result ≠ Result.success) :
    (write_to_storage_cb result nbytes offset eof env h).1.done = true
      ∧ (write_to_storage_cb result nbytes offset eof env h).2.all
          (fun c => !c.is_registration) = true
      ∧ (finished_results (write_to_storage_cb result nbytes offset eof env h).2 ≠ [] →
          (write_to_storage_cb result nbytes offset eof env h).1.outstanding = 0) := by
  have hc : (classify result eof h).2.done = true := by simp [classify, hres]
  have hb := write_block_done nbytes offset env (classify result eof h).1 _ hc
  have hn := write_block_no_registration nbytes offset env (classify result eof h).1
    (classify result eof h).2
  have hk := complete_of_done env
    (write_block nbytes offset env (classify result eof h).1 (classify result eof h).2).1 _ hb
  have hf : finished_results
      (write_block nbytes offset env (classify result eof h).1 (classify result eof h).2).2.2
      = [] := by
    unfold write_block
    simp only []
    split_ifs <;> simp [finished_results]
  unfold write_to_storage_cb
  simp only []
  refine ⟨hk.1, ?_, ?_⟩
  · rw [List.all_append, hn, hk.2.1]; rfl
  · rw [finished_results_append, hf, List.nil_append]
    exact hk.2.2

/-- The receive callback on a short write (`write` accepts `k` bytes, `0 ≤ k <
nbytes`, after a seek that did not fail): `done` is true when it returns, the range is
not reported as written and no operation is registered; the transfer is reported
finished by this callback only if `outstanding` has dropped to 0, and then with the
write error unless `close` fails. -/
theorem write_to_storage_cb_of_short_write (result : Result) (nbytes : Nat)
    (offset : Int) (eof : Bool) (env : WriteCbEnv) (h : Handle)
    (hn : 0 < nbytes) (hseek : ¬ (h.seekable = true ∧ env.lseek_ret ≠ offset))
    (hk0 : 0 ≤ env.write_ret) (hk : env.write_ret < nbytes) :
    (write_to_storage_cb result nbytes offset eof env h).1.done = true
      ∧ reported_ranges (write_to_storage_cb result nbytes offset eof env h).2 = []
      ∧ (write_to_storage_cb result nbytes offset eof env h).2.all
          (fun c => !c.is_registration) = true
      ∧ (finished_results (write_to_storage_cb result nbytes offset eof env h).2 = []
        ∨ ((write_to_storage_cb result nbytes offset eof env h).1.outstanding = 0
          ∧ finished_results (write_to_storage_cb result nbytes offset eof env h).2
            = [if env.close_ret = -1 then Result.system "close" env.close_errno
               else Result.system "write" env.write_errno])) := by
  have hs : (classify result eof h).2.seekable = h.seekable := by
    unfold classify; split_ifs <;> rfl
  have hlt : to_size_t env.write_ret < nbytes := by
    unfold to_size_t
    omega
  have hb : write_block nbytes offset env (classify result eof h).1 (classify result eof h).2
      = (Result.system "write" env.write_errno,
         { (classify result eof h).2 with done := true },
         (if (classify result eof h).2.seekable then
            [Call.lseek (classify result eof h).2.fd offset env.lseek_ret] else [])
          ++ [Call.write (classify result eof h).2.fd nbytes env.write_ret]) := by
    unfold write_block
    simp only [hn, hs, hseek, hlt, if_true, if_false]
  have hk := complete_of_done env (Result.system "write" env.write_errno)
    { (classify result eof h).2 with done := true } rfl
  have hfin : finished_results (complete env (Result.system "write" env.write_errno)
        { (classify result eof h).2 with done := true }).2 = []
      ∨ finished_results (complete env (Result.system "write" env.write_errno)
        { (classify result eof h).2 with done := true }).2
          = [if env.close_ret = -1 then Result.system "close" env.close_errno
             else Result.system "write" env.write_errno] := by
    unfold complete
    simp only []
    split_ifs <;> simp_all [finished_results]
  have hrep : reported_ranges (complete env (Result.system "write" env.write_errno)
        { (classify result eof h).2 with done := true }).2 = [] := by
    unfold complete
    simp only []
    split_ifs <;> simp_all [reported_ranges]
  unfold write_to_storage_cb
  simp only [hb]
  refine ⟨hk.1, ?_, ?_, ?_⟩
  · rw [reported_ranges_append, hrep]
    split_ifs <;> simp [reported_ranges]
  · rw [List.all_append, hk.2.1]
    split_ifs <;> simp [Call.is_registration]
  · have hpre : finished_results
        ((if (classify result eof h).2.seekable then
            [Call.lseek (classify result eof h).2.fd offset env.lseek_ret] else [])
          ++ [Call.write (classify result eof h).2.fd nbytes env.write_ret]) = [] := by
      split_ifs <;> simp [finished_results]
    rw [finished_results_append, hpre, List.nil_append]
    rcases hfin with hfin | hfin
    · exact Or.inl hfin
    · exact Or.inr ⟨hk.2.2 (by rw [hfin]; simp), hfin⟩

/-! ### The ranges a receive callback reports -/

theorem write_to_storage_loop_reported (env : Nat → IssueEnv) :
    ∀ (fuel i : Nat) (h : Handle),
      reported_ranges (write_to_storage_loop env fuel i h).2 = [] := by
  intro fuel
  induction fuel with
  | zero => intro i h; rfl
  | succ n ih =>
    intro i h
    unfold write_to_storage_loop
    split_ifs <;> simp [reported_ranges, ih]

theorem complete_reported (env : WriteCbEnv) (rc : Result) (h : Handle) :
    reported_ranges (complete env rc h).2 = [] := by
  unfold complete
  simp only []
  split_ifs <;> simp [reported_ranges, write_to_storage, write_to_storage_loop_reported]

/-- A receive callback reports its own range `(offset, nbytes)`, once, when `nbytes`
is positive, the seek (if any) returned `offset` and `bytes_written` is not below
`nbytes`; otherwise it reports nothing. -/
theorem write_to_storage_cb_reported_ranges (result : Result) (nbytes : Nat) (offset : Int)
    (eof : Bool) (env : WriteCbEnv) (h : Handle) :
    reported_ranges (write_to_storage_cb result nbytes offset eof env h).2
      = if 0 < nbytes ∧ ¬ (h.seekable = true ∧ env.lseek_ret ≠ offset)
            ∧ ¬ (to_size_t env.write_ret < nbytes)
        then [(offset, nbytes)] else [] := by
  have hs : (classify result eof h).2.seekable = h.seekable := by
    unfold classify; split_ifs <;> rfl
  unfold write_to_storage_cb
  simp only []
  rw [reported_ranges_append, complete_reported, List.append_nil]
  unfold write_block
  simp only [hs]
  split_ifs <;> simp_all [reported_ranges, reported_ranges_append]

/-! ### Two transfers without failure -/

/-- A receive of 8 bytes in two blocks with concurrency 2: every completion refills,
the end of file stops the refills, and the last completion closes the descriptor and
reports success, once. -/
theorem recv_two_blocks :
    (recv_run (recv_init "/data/file" (recv_env 5 0 2) Handle.start)
        [completion_ok 0 4 false 2, completion_ok 4 4 false 2, completion_eof 8 2,
         completion_eof 8 2]).log
      = [Call.begin_transfer, Call.posix_open "/data/file" true 5,
         Call.register_read 4 true, Call.register_read 4 true,
         Call.lseek 5 0 0, Call.write 5 4 4, Call.update_bytes_written 0 4,
         Call.register_read 4 true,
         Call.lseek 5 4 4, Call.write 5 4 4, Call.update_bytes_written 4 4,
         Call.register_read 4 true,
         Call.close 5 0, Call.finished_transfer Result.success] := by
  decide

/-- A send with concurrency 1 of a file whose `read` returns 4 bytes and then 0: one
write is registered, its completion finds the end of file, closes the descriptor and
reports success, once. -/
theorem send_one_block :
    (send_run (send_init "/data/file" (send_env 5 0 1 4 true) Handle.start)
        [{ result := Result.success, nbytes := 4, env := read_env 0 true }]).log
      = [Call.begin_transfer, Call.posix_open "/data/file" false 5, Call.lseek 5 0 0,
         Call.read 5 4 4, Call.register_write 4 0 true,
         Call.read 5 4 0, Call.close 5 0, Call.finished_transfer Result.success] := by
  decide

/-! ## The transfer engine on the claims of the specification -/

/-- C1 (the code departs from the claim). When `open` fails in
`globus_l_gfs_posix_recv`, the error is reported at once, in a state where `done` is
false, and the function goes on to the refill. If the registration of the read
succeeds, the completion that ends the transfer reports a second time; if it fails,
the refill itself reports a second time before `recv` returns. -/
theorem recv_open_failure_reports_twice :
    finished_results (recv_init "/data/file" (recv_env (-1) 13 1) Handle.start).log
        = [Result.system "open" 13]
      ∧ (recv_init "/data/file" (recv_env (-1) 13 1) Handle.start).h.done = false
      ∧ (recv_init "/data/file" (recv_env (-1) 13 1) Handle.start).pending = 1
      ∧ finished_results
          (recv_run (recv_init "/data/file" (recv_env (-1) 13 1) Handle.start)
            [completion_eof_bad_fd]).log
        = [Result.system "open" 13, Result.system "close" 9]
      ∧ finished_results
          (recv_init "/data/file"
            { recv_env (-1) 13 1 with issue := issue_register_fails } Handle.start).log
        = [Result.system "open" 13,
           Result.generic "globus_gridftp_server_register_read() fail"] := by
  decide

/-- C2 (the code departs from the claim). In a send with concurrency 2 in which both
calls of `globus_gridftp_server_register_write` fail, the transfer is reported
finished twice, both times with `done` false and `outstanding` positive, the
descriptor is not closed, and no completion is pending that could close it later. -/
theorem send_register_failure_reports_twice :
    finished_results (send_init "/data/file" (send_env 5 0 2 4 false) Handle.start).log
        = [Result.generic "globus_gridftp_server_register_write() fail",
           Result.generic "globus_gridftp_server_register_write() fail"]
      ∧ closed_fds (send_init "/data/file" (send_env 5 0 2 4 false) Handle.start).log = []
      ∧ (send_init "/data/file" (send_env 5 0 2 4 false) Handle.start).h.done = false
      ∧ (send_init "/data/file" (send_env 5 0 2 4 false) Handle.start).h.outstanding = 2
      ∧ (send_init "/data/file" (send_env 5 0 2 4 false) Handle.start).pending = 0 := by
  decide

/-- C4 (the code departs from the claim). Receive with two reads in flight: the first
completion carries a transport error, which sets `done`; the second is a successful
end of file and brings `outstanding` to 0. Its callback starts again from
`rc = GLOBUS_SUCCESS`, so the transfer is reported finished with success. In a send,
a `read` that fails with -1 is followed by an end of file and the report is success
as well. -/
theorem error_lost_before_final_report :
    (recv_run (recv_init "/data/file" (recv_env 5 0 2) Handle.start)
        [completion_transport_error]).h.done = true
      ∧ finished_results
          (recv_run (recv_init "/data/file" (recv_env 5 0 2) Handle.start)
            [completion_transport_error]).log = []
      ∧ finished_results
          (recv_run (recv_init "/data/file" (recv_env 5 0 2) Handle.start)
            [completion_transport_error, completion_eof 0 2]).log = [Result.success]
      ∧ finished_results
          (send_run (send_init "/data/file" (send_env 5 0 1 (-1) true) Handle.start)
            [{ result := Result.success, nbytes := 0, env := read_env 0 true }]).log
          = [Result.success] := by
  decide

/-- C5 (the code departs from the claim). The send callback
`globus_l_gfs_posix_read_from_storage_cb` called with a failed transport result on a
handle with one operation in flight: `done` is still false when it returns, and it
has read 4 more bytes and registered a new write for them. -/
theorem send_callback_ignores_transport_error :
    read_from_storage_cb (Result.generic "connection reset") 4 (read_env 4 true)
        (active_handle 1 1)
      = ({ active_handle 1 1 with offset := 4, block_length := -5 },
         [Call.read 5 4 4, Call.register_write 4 0 true]) := by
  decide

/-- C6 (the code departs from the claim). When `write` returns -1 in a receive
completion of 4 bytes, `bytes_written` is `2^64 - 1`, the test
`bytes_written < nbytes` is false, the 4 bytes are reported as written, `done` stays
false and a new read is registered. When `read` returns -1 in the send refill,
`nbytes` is `2^64 - 1` and a write of that many bytes is registered. -/
theorem failed_io_taken_as_byte_count :
    write_to_storage_cb Result.success 4 0 false (cb_env 0 (-1) 1) (active_handle 1 1)
        = (active_handle 1 1,
           [Call.lseek 5 0 0, Call.write 5 4 (-1), Call.update_bytes_written 0 4,
            Call.register_read 4 true])
      ∧ read_from_storage (read_env (-1) true) (active_handle 0 1)
        = ({ active_handle 1 1 with offset := -1, block_length := 0 },
           [Call.read 5 4 (-1), Call.register_write 18446744073709551615 0 true]) := by
  decide

/-- C7 (the code departs from the claim). Receive with two reads in flight: the first
completion has 4 bytes of which `write` accepts 3, so `done` is set and nothing is
reported as written; the second completion is a successful end of file, and the
transfer is reported finished with success, not with the write error. -/
theorem short_write_error_lost :
    (recv_run (recv_init "/data/file" (recv_env 5 0 2) Handle.start)
        [completion_short_write]).h.done = true
      ∧ (recv_run (recv_init "/data/file" (recv_env 5 0 2) Handle.start)
        [completion_short_write, completion_eof 4 2]).log
        = [Call.begin_transfer, Call.posix_open "/data/file" true 5,
           Call.register_read 4 true, Call.register_read 4 true,
           Call.lseek 5 0 0, Call.write 5 4 3,
           Call.close 5 0, Call.finished_transfer Result.success] := by
  decide

/-- C8 (the code departs from the claim). After a failed `open`, both entry points
report the error and carry on: `globus_l_gfs_posix_recv` registers reads,
`globus_l_gfs_posix_send` calls `lseek` and `read` on descriptor -1 and registers a
write. -/
theorem io_issued_after_open_failure :
    after_first_report (recv_init "/data/file" (recv_env (-1) 13 2) Handle.start).log
        = [Call.register_read 4 true, Call.register_read 4 true]
      ∧ after_first_report
          (send_init "/data/file" (send_env (-1) 13 1 (-1) true) Handle.start).log
        = [Call.lseek (-1) 0 (-1), Call.read (-1) 4 (-1),
           Call.register_write 18446744073709551615 0 true]
      ∧ (after_first_report
          (recv_init "/data/file" (recv_env (-1) 13 2) Handle.start).log).any
            Call.is_io_op = true
      ∧ (after_first_report
          (send_init "/data/file" (send_env (-1) 13 1 (-1) true) Handle.start).log).any
            Call.is_io_op = true := by
  decide

/-- C9 (the code departs from the claim). A receive refill in which
`globus_gridftp_server_register_read` fails reports the transfer finished and returns
with `done` still false, so the next completion refills and registers new reads. A
send refill in which `globus_gridftp_server_register_write` fails has already
incremented `outstanding`, does not leave the loop, and goes on to read and register
again. -/
theorem register_failure_does_not_stop_issuance :
    write_to_storage 2 issue_register_fails (active_handle 1 2)
        = (active_handle 1 2,
           [Call.register_read 4 false,
            Call.finished_transfer
              (Result.generic "globus_gridftp_server_register_read() fail")])
      ∧ write_to_storage_cb Result.success 4 0 false (cb_env 0 4 2) (active_handle 1 2)
        = (active_handle 2 2,
           [Call.lseek 5 0 0, Call.write 5 4 4, Call.update_bytes_written 0 4,
            Call.register_read 4 true, Call.register_read 4 true])
      ∧ read_from_storage (read_env 4 false) (active_handle 0 2)
        = ({ active_handle 2 2 with offset := 8, block_length := -9 },
           [Call.read 5 4 4, Call.register_write 4 0 false,
            Call.finished_transfer
              (Result.generic "globus_gridftp_server_register_write() fail"),
            Call.read 5 4 4, Call.register_write 4 4 false,
            Call.finished_transfer
              (Result.generic "globus_gridftp_server_register_write() fail")]) := by
  decide

/-- C10 (the code departs from the claim). The completions carry the ranges (0, 4)
and (4, 4), which tile the interval from 0 to 8. The `lseek` of the first fails, so
its range is not reported; the second succeeds as the last one, the transfer is
reported finished with success, and the only range reported is (4, 4). -/
theorem success_reported_with_missing_range :
    finished_results
        (recv_run (recv_init "/data/file" (recv_env 5 0 2) Handle.start)
          [completion_seek_error, completion_ok 4 4 true 2]).log = [Result.success]
      ∧ reported_ranges
        (recv_run (recv_init "/data/file" (recv_env 5 0 2) Handle.start)
          [completion_seek_error, completion_ok 4 4 true 2]).log = [(4, 4)] := by
  decide

/-- C19. In the send refill, an iteration that gets its buffer calls `read` first, and
the byte count it asks for is `min(block_size, block_length)` when `block_length` is
not negative and `block_size` when it is; the count never exceeds `block_size`, the
size of the buffer. `block_length` is a `globus_off_t`, hence below `2^63`. -/
theorem read_count_is_min (env : Nat → SendIssueEnv) (fuel i : Nat) (h : Handle)
    (hW : h.block_length < 2 ^ 63) (hg : h.outstanding < h.optimal_count)
    (hd : h.done = false) (hm : (env i).malloc_ok = true) :
    (read_from_storage_loop env (fuel + 1) i h).2.1.head?
        = some (Call.read h.fd (read_length h) (env i).read_ret)
      ∧ read_length h
        = (if 0 ≤ h.block_length then min h.block_size h.block_length.toNat
           else h.block_size)
      ∧ read_length h ≤ h.block_size := by
  refine ⟨?_, ?_, ?_⟩
  · unfold read_from_storage_loop
    by_cases hz : to_size_t (env i).read_ret = 0 <;> simp [hg, hd, hm, hz]
  · unfold read_length to_size_t
    split_ifs <;> omega
  · unfold read_length to_size_t
    split_ifs <;> omega

/-- C19, on a handle with block size 4 and 3 bytes left to send: the count is 3. -/
theorem read_count_is_min_witness :
    (read_from_storage_loop (send_issue 3 true) (0 + 1) 0
          { active_handle 0 1 with block_length := 3 }).2.1.head?
        = some (Call.read 5 (read_length { active_handle 0 1 with block_length := 3 }) 3)
      ∧ read_length { active_handle 0 1 with block_length := 3 }
        = (if (0 : Int) ≤ 3 then min 4 (3 : Int).toNat else 4)
      ∧ read_length { active_handle 0 1 with block_length := 3 } ≤ 4 :=
  read_count_is_min (send_issue 3 true) 0 0 { active_handle 0 1 with block_length := 3 }
    (by decide) (by decide) (by decide) (by decide)

/-! ### Offsets and lengths of a send -/

theorem registered_writes_append (a b : List Call) :
    registered_writes (a ++ b) = registered_writes a ++ registered_writes b := by
  induction a with
  | nil => rfl
  | cons c cs ih => cases c <;> simp [registered_writes, ih]

theorem read_counts_append (a b : List Call) :
    read_counts (a ++ b) = read_counts a ++ read_counts b := by
  induction a with
  | nil => rfl
  | cons c cs ih =>
    cases c <;> simp [read_counts, ih]
    split_ifs <;> simp

theorem chain_append (o : Int) (a b : List Nat) :
    chain o (a ++ b) = chain o a ++ chain (o + (a.sum : Nat)) b := by
  induction a generalizing o with
  | nil => simp [chain]
  | cons n ns ih =>
    rw [List.cons_append, chain, chain, ih, List.sum_cons, Nat.cast_add, add_assoc]
    rfl

theorem to_off_t_of_in_off_t (x : Int) (hx : in_off_t x) : to_off_t x = x := by
  unfold in_off_t at hx
  unfold to_off_t
  omega

/-- The refill loop of the send path, as long as offsets and lengths stay in the range
of `globus_off_t`: the writes registered carry the byte counts read, each at the
offset the handle had before its read, and `offset` and `block_length` move by the
bytes read. -/
theorem read_from_storage_loop_offsets (env : Nat → SendIssueEnv) :
    ∀ (fuel i : Nat) (h : Handle),
      in_off_t h.offset → in_off_t h.block_length →
      in_off_t (h.offset + ((read_counts (read_from_storage_loop env fuel i h).2.1).sum : Nat)) →
      in_off_t (h.block_length
        - ((read_counts (read_from_storage_loop env fuel i h).2.1).sum : Nat)) →
      registered_writes (read_from_storage_loop env fuel i h).2.1
          = chain h.offset (read_counts (read_from_storage_loop env fuel i h).2.1)
        ∧ (read_from_storage_loop env fuel i h).1.offset
          = h.offset + ((read_counts (read_from_storage_loop env fuel i h).2.1).sum : Nat)
        ∧ (read_from_storage_loop env fuel i h).1.block_length
          = h.block_length
            - ((read_counts (read_from_storage_loop env fuel i h).2.1).sum : Nat) := by
  intro fuel
  induction fuel with
  | zero =>
    intro i h _ _ _ _
    simp [read_from_storage_loop, registered_writes, read_counts, chain]
  | succ n ih =>
    intro i h ho hl
    unfold read_from_storage_loop
    by_cases hg : h.outstanding < h.optimal_count ∧ h.done = false
    · by_cases hm : (env i).malloc_ok = false
      · simp [hg, hm, registered_writes, read_counts, chain]
      · by_cases hz : to_size_t (env i).read_ret = 0
        · have := ih (i + 1) { h with done := true } ho hl
          simpa [hg, hm, hz, registered_writes, read_counts] using this
        · have ho1 : ∀ m : Nat, in_off_t (h.offset
                + ((to_size_t (env i).read_ret + m : Nat) : Int)) →
              in_off_t (h.offset + (to_size_t (env i).read_ret : Nat)) := by
            intro m hm'
            unfold in_off_t at *
            rw [Nat.cast_add] at hm'
            omega
          have hl1 : ∀ m : Nat, in_off_t (h.block_length
                - ((to_size_t (env i).read_ret + m : Nat) : Int)) →
              in_off_t (h.block_length - (to_size_t (env i).read_ret : Nat)) := by
            intro m hm'
            unfold in_off_t at *
            rw [Nat.cast_add] at hm'
            omega
          have key : ∀ h1 : Handle,
              h1 = { h with outstanding := h.outstanding + 1,
                            offset := to_off_t (h.offset + (to_size_t (env i).read_ret : Nat)),
                            block_length :=
                              to_off_t (h.block_length - (to_size_t (env i).read_ret : Nat)) } →
              in_off_t (h.offset + ((to_size_t (env i).read_ret
                + (read_counts (read_from_storage_loop env n (i + 1) h1).2.1).sum : Nat) : Int)) →
              in_off_t (h.block_length - ((to_size_t (env i).read_ret
                + (read_counts (read_from_storage_loop env n (i + 1) h1).2.1).sum : Nat) : Int)) →
              (to_size_t (env i).read_ret,
                  to_off_t (to_off_t (h.offset + (to_size_t (env i).read_ret : Nat))
                    - (to_size_t (env i).read_ret : Nat)))
                  :: registered_writes (read_from_storage_loop env n (i + 1) h1).2.1
                = (to_size_t (env i).read_ret, h.offset)
                  :: chain (h.offset + (to_size_t (env i).read_ret : Nat))
                      (read_counts (read_from_storage_loop env n (i + 1) h1).2.1)
              ∧ (read_from_storage_loop env n (i + 1) h1).1.offset
                = h.offset + ((to_size_t (env i).read_ret
                  + (read_counts (read_from_storage_loop env n (i + 1) h1).2.1).sum : Nat) : Int)
              ∧ (read_from_storage_loop env n (i + 1) h1).1.block_length
                = h.block_length - ((to_size_t (env i).read_ret
                  + (read_counts (read_from_storage_loop env n (i + 1) h1).2.1).sum : Nat)
                    : Int) := by
            intro h1 e hso hsl
            have e1 := to_off_t_of_in_off_t _ (ho1 _ hso)
            have e2 := to_off_t_of_in_off_t _ (hl1 _ hsl)
            have e3 : to_off_t (h.offset + (to_size_t (env i).read_ret : Nat)
                - (to_size_t (env i).read_ret : Nat)) = h.offset := by
              rw [add_sub_cancel_right]; exact to_off_t_of_in_off_t _ ho
            rw [e1, e2] at e
            have hof : h1.offset = h.offset + (to_size_t (env i).read_ret : Nat) := by rw [e]
            have hbl : h1.block_length
                = h.block_length - (to_size_t (env i).read_ret : Nat) := by rw [e]
            have := ih (i + 1) h1 (by rw [hof]; exact ho1 _ hso) (by rw [hbl]; exact hl1 _ hsl)
              (by rw [hof, add_assoc, ← Nat.cast_add]; exact hso)
              (by rw [hbl, sub_sub, ← Nat.cast_add]; exact hsl)
            rw [e1, e3, this.1, this.2.1, this.2.2, hof, hbl]
            refine ⟨rfl, ?_, ?_⟩
            · rw [Nat.cast_add]; ring
            · rw [Nat.cast_add]; ring
          have hfin : ∀ b : Bool,
              read_counts (if b = false then
                [Call.finished_transfer
                  (Result.generic "globus_gridftp_server_register_write() fail")]
                else []) = []
              ∧ registered_writes (if b = false then
                [Call.finished_transfer
                  (Result.generic "globus_gridftp_server_register_write() fail")]
                else []) = [] := by
            intro b; cases b <;> simp [read_counts, registered_writes]
          simp only [hg, hm, hz, and_self, if_true, if_false, read_counts,
            registered_writes, List.cons_append, registered_writes_append,
            read_counts_append, chain, List.sum_cons, (hfin _).1, (hfin _).2,
            List.nil_append]
          intro hso hsl
          exact key _ (by rw [hg.2]) hso hsl
    · simp [hg, registered_writes, read_counts, chain]

/-- The function `globus_l_gfs_posix_read_from_storage` adds no read and no
registration to those of its loop. -/
theorem read_from_storage_calls (env : ReadEnv) (h : Handle) :
    read_counts (read_from_storage env h).2
        = read_counts (read_from_storage_loop env.issue
            ((h.optimal_count - h.outstanding).toNat + 1) 0 h).2.1
      ∧ registered_writes (read_from_storage env h).2
        = registered_writes (read_from_storage_loop env.issue
            ((h.optimal_count - h.outstanding).toNat + 1) 0 h).2.1
      ∧ (read_from_storage env h).1
        = (read_from_storage_loop env.issue
            ((h.optimal_count - h.outstanding).toNat + 1) 0 h).1 := by
  unfold read_from_storage
  simp only []
  split_ifs <;>
    simp [read_counts_append, registered_writes_append, read_counts, registered_writes]

theorem read_from_storage_offsets (env : ReadEnv) (h : Handle)
    (ho : in_off_t h.offset) (hl : in_off_t h.block_length)
    (hso : in_off_t (h.offset + ((read_counts (read_from_storage env h).2).sum : Nat)))
    (hsl : in_off_t (h.block_length - ((read_counts (read_from_storage env h).2).sum : Nat))) :
    registered_writes (read_from_storage env h).2
        = chain h.offset (read_counts (read_from_storage env h).2)
      ∧ (read_from_storage env h).1.offset
        = h.offset + ((read_counts (read_from_storage env h).2).sum : Nat)
      ∧ (read_from_storage env h).1.block_length
        = h.block_length - ((read_counts (read_from_storage env h).2).sum : Nat) := by
  have hc := read_from_storage_calls env h
  rw [hc.1] at hso hsl ⊢
  rw [hc.2.1, hc.2.2]
  exact read_from_storage_loop_offsets env.issue _ 0 h ho hl hso hsl

/-- The calls of a send only accumulate. -/
theorem send_step_log (s : Sys) (c : SendCompletion) :
    ∃ ext, (send_step s c).log = s.log ++ ext := by
  unfold send_step
  split_ifs
  · exact ⟨[], by simp⟩
  · exact ⟨_, rfl⟩

theorem send_run_log (cs : List SendCompletion) :
    ∀ s : Sys, ∃ ext, (send_run s cs).log = s.log ++ ext := by
  induction cs with
  | nil => intro s; exact ⟨[], by simp [send_run]⟩
  | cons c cs ih =>
    intro s
    obtain ⟨e1, h1⟩ := send_step_log s c
    obtain ⟨e2, h2⟩ := ih (send_step s c)
    refine ⟨e1 ++ e2, ?_⟩
    simp only [send_run, List.foldl_cons] at h2 ⊢
    rw [h2, h1, List.append_assoc]

theorem send_init_offsets (pathname : String) (env : SendEnv) (h : Handle)
    (ho : in_off_t env.range_offset) (hl : in_off_t env.range_length)
    (hso : in_off_t (env.range_offset
      + ((read_counts (send_init pathname env h).log).sum : Nat)))
    (hsl : in_off_t (env.range_length
      - ((read_counts (send_init pathname env h).log).sum : Nat))) :
    SendOffsets env.range_offset env.range_length (send_init pathname env h) := by
  unfold SendOffsets
  unfold send_init send at *
  simp only [] at *
  split_ifs at * <;>
    simp only [List.cons_append, List.nil_append, read_counts, registered_writes,
      List.singleton_append] at * <;>
    exact read_from_storage_offsets env.rd _ ho hl hso hsl

theorem send_step_offsets (o l : Int) (s : Sys) (c : SendCompletion)
    (ho : in_off_t o) (hl : in_off_t l) (hs : SendOffsets o l s)
    (hso : in_off_t (o + ((read_counts (send_step s c).log).sum : Nat)))
    (hsl : in_off_t (l - ((read_counts (send_step s c).log).sum : Nat))) :
    SendOffsets o l (send_step s c) := by
  unfold send_step at *
  split_ifs at * with hp
  · exact hs
  · unfold SendOffsets at *
    simp only [read_from_storage_cb, read_counts_append, registered_writes_append,
      List.sum_append, Nat.cast_add] at *
    have h1 : in_off_t s.h.offset := by
      rw [hs.2.1]; unfold in_off_t at *; omega
    have h2 : in_off_t s.h.block_length := by
      rw [hs.2.2]; unfold in_off_t at *; omega
    have := read_from_storage_offsets c.env { s.h with outstanding := s.h.outstanding - 1 }
      h1 h2 (by simp only []; convert hso using 1; linarith [hs.2.1])
      (by simp only []; convert hsl using 1; linarith [hs.2.2])
    simp only [] at this
    rw [this.1, this.2.1, this.2.2, hs.1, hs.2.1, hs.2.2, chain_append]
    refine ⟨rfl, ?_, ?_⟩ <;> ring

theorem send_run_offsets (o l : Int) (ho : in_off_t o) (hl : in_off_t l)
    (cs : List SendCompletion) :
    ∀ s : Sys, SendOffsets o l s →
      in_off_t (o + ((read_counts (send_run s cs).log).sum : Nat)) →
      in_off_t (l - ((read_counts (send_run s cs).log).sum : Nat)) →
      SendOffsets o l (send_run s cs) := by
  induction cs with
  | nil => intro s hs _ _; exact hs
  | cons c cs ih =>
    intro s hs hso hsl
    obtain ⟨ext, he⟩ := send_run_log cs (send_step s c)
    simp only [send_run, List.foldl_cons] at hso hsl he ⊢
    refine ih (send_step s c) (send_step_offsets o l s c ho hl hs ?_ ?_) hso hsl
    · rw [he, read_counts_append, List.sum_append, Nat.cast_add] at hso
      unfold in_off_t at *; omega
    · rw [he, read_counts_append, List.sum_append, Nat.cast_add] at hsl
      unfold in_off_t at *; omega

/-- C11 (as stated, refuted). A send without length limit starts with
`block_length = -1`; after one read of 4 bytes `block_length` is -5, not -1. -/
theorem negative_block_length_changes :
    (send_env 5 0 1 4 true).range_length = -1
      ∧ ¬ ((send_init "/data/file" (send_env 5 0 1 4 true) Handle.start).h.block_length
            = (send_env 5 0 1 4 true).range_length) := by
  decide

/-- C11 (amended). In a send that starts at offset `o0` with length `l0`, as long as
offsets and lengths stay in the range of `globus_off_t`: the operations registered
with the transport carry the positive byte counts `n1, n2, ...` returned by the reads,
the i-th at target offset `o0 + n1 + ... + n(i-1)`; the handle's offset is `o0` plus
the bytes read so far and is never below the offset of an earlier state; and
`block_length` is `l0` minus the bytes read so far, whether it is negative or not. -/
theorem send_offsets_follow_reads (pathname : String) (env : SendEnv) (h : Handle)
    (cs more : List SendCompletion)
    (ho : in_off_t env.range_offset) (hl : in_off_t env.range_length)
    (hso : in_off_t (env.range_offset
      + ((read_counts (send_run (send_init pathname env h) (cs ++ more)).log).sum : Nat)))
    (hsl : in_off_t (env.range_length
      - ((read_counts (send_run (send_init pathname env h) (cs ++ more)).log).sum : Nat))) :
    registered_writes (send_run (send_init pathname env h) (cs ++ more)).log
        = chain env.range_offset
            (read_counts (send_run (send_init pathname env h) (cs ++ more)).log)
      ∧ (send_run (send_init pathname env h) (cs ++ more)).h.offset
        = env.range_offset
          + ((read_counts (send_run (send_init pathname env h) (cs ++ more)).log).sum : Nat)
      ∧ (send_run (send_init pathname env h) (cs ++ more)).h.block_length
        = env.range_length
          - ((read_counts (send_run (send_init pathname env h) (cs ++ more)).log).sum : Nat)
      ∧ (send_run (send_init pathname env h) cs).h.offset
        ≤ (send_run (send_init pathname env h) (cs ++ more)).h.offset := by
  have hsplit : send_run (send_init pathname env h) (cs ++ more)
      = send_run (send_run (send_init pathname env h) cs) more := by
    simp [send_run, List.foldl_append]
  obtain ⟨e1, he1⟩ := send_run_log cs (send_init pathname env h)
  obtain ⟨e2, he2⟩ := send_run_log more (send_run (send_init pathname env h) cs)
  rw [← hsplit] at he2
  have hlog := he2
  rw [he1] at hlog
  have hsum : (((read_counts
        (send_run (send_init pathname env h) (cs ++ more)).log).sum : Nat) : Int)
      = ((read_counts (send_init pathname env h).log).sum : Nat)
        + ((read_counts e1).sum : Nat) + ((read_counts e2).sum : Nat) := by
    rw [hlog, read_counts_append, read_counts_append, List.sum_append, List.sum_append,
      Nat.cast_add, Nat.cast_add]
  have hsum1 : (((read_counts (send_run (send_init pathname env h) cs).log).sum : Nat) : Int)
      = ((read_counts (send_init pathname env h).log).sum : Nat)
        + ((read_counts e1).sum : Nat) := by
    rw [he1, read_counts_append, List.sum_append, Nat.cast_add]
  have hi := send_init_offsets pathname env h ho hl
    (by unfold in_off_t at *; rw [hsum] at hso; omega)
    (by unfold in_off_t at *; rw [hsum] at hsl; omega)
  have hmid := send_run_offsets env.range_offset env.range_length ho hl cs _ hi
    (by unfold in_off_t at *; rw [hsum] at hso; rw [hsum1]; omega)
    (by unfold in_off_t at *; rw [hsum] at hsl; rw [hsum1]; omega)
  have hfin := send_run_offsets env.range_offset env.range_length ho hl (cs ++ more) _ hi
    hso hsl
  refine ⟨hfin.1, hfin.2.1, hfin.2.2, ?_⟩
  rw [hfin.2.1, hmid.2.1, hsum, hsum1]
  omega

/-- C11 (amended), at a send of a file of 8 bytes in blocks of 4 with concurrency 1,
before and after its last completion. -/
theorem send_offsets_follow_reads_witness :
    registered_writes
        (send_run (send_init "/data/file" (send_env 5 0 1 4 true) Handle.start)
          ([{ result := Result.success, nbytes := 4, env := read_env 4 true }]
            ++ [{ result := Result.success, nbytes := 4, env := read_env 0 true }])).log
        = chain (send_env 5 0 1 4 true).range_offset
            (read_counts
              (send_run (send_init "/data/file" (send_env 5 0 1 4 true) Handle.start)
                ([{ result := Result.success, nbytes := 4, env := read_env 4 true }]
                  ++ [{ result := Result.success, nbytes := 4,
                        env := read_env 0 true }])).log)
      ∧ (send_run (send_init "/data/file" (send_env 5 0 1 4 true) Handle.start)
          ([{ result := Result.success, nbytes := 4, env := read_env 4 true }]
            ++ [{ result := Result.success, nbytes := 4, env := read_env 0 true }])).h.offset
        = (send_env 5 0 1 4 true).range_offset
          + ((read_counts
              (send_run (send_init "/data/file" (send_env 5 0 1 4 true) Handle.start)
                ([{ result := Result.success, nbytes := 4, env := read_env 4 true }]
                  ++ [{ result := Result.success, nbytes := 4,
                        env := read_env 0 true }])).log).sum : Nat)
      ∧ (send_run (send_init "/data/file" (send_env 5 0 1 4 true) Handle.start)
          ([{ result := Result.success, nbytes := 4, env := read_env 4 true }]
            ++ [{ result := Result.success, nbytes := 4,
                  env := read_env 0 true }])).h.block_length
        = (send_env 5 0 1 4 true).range_length
          - ((read_counts
              (send_run (send_init "/data/file" (send_env 5 0 1 4 true) Handle.start)
                ([{ result := Result.success, nbytes := 4, env := read_env 4 true }]
                  ++ [{ result := Result.success, nbytes := 4,
                        env := read_env 0 true }])).log).sum : Nat)
      ∧ (send_run (send_init "/data/file" (send_env 5 0 1 4 true) Handle.start)
          [{ result := Result.success, nbytes := 4, env := read_env 4 true }]).h.offset
        ≤ (send_run (send_init "/data/file" (send_env 5 0 1 4 true) Handle.start)
          ([{ result := Result.success, nbytes := 4, env := read_env 4 true }]
            ++ [{ result := Result.success, nbytes := 4,
                  env := read_env 0 true }])).h.offset :=
  send_offsets_follow_reads "/data/file" (send_env 5 0 1 4 true) Handle.start
    [{ result := Result.success, nbytes := 4, env := read_env 4 true }]
    [{ result := Result.success, nbytes := 4, env := read_env 0 true }]
    (by unfold in_off_t; decide) (by unfold in_off_t; decide)
    (by unfold in_off_t; decide) (by unfold in_off_t; decide)

/-! ### A send in which every read returns the count it asked for -/

theorem full_reads_zero (b : Nat) : full_reads b 0 = [0] := by
  simp [full_reads]

theorem full_reads_pos (b r : Nat) (hb : 0 < b) (hr : 0 < r) :
    full_reads b r = min b r :: full_reads b (r - min b r) := by
  unfold full_reads
  by_cases hlt : r < b
  · have h1 : r / b = 0 := Nat.div_eq_of_lt hlt
    have h2 : r % b = r := Nat.mod_eq_of_lt hlt
    have h3 : min b r = r := by omega
    have h4 : r ≠ 0 := by omega
    rw [h3, Nat.sub_self, h1, h2, Nat.zero_div, Nat.zero_mod]
    simp [h4]
  · have hle : b ≤ r := by omega
    have h3 : min b r = b := by omega
    have h1 : r / b = (r - b) / b + 1 := by
      rw [Nat.div_eq_sub_div hb hle]
    have h2 : r % b = (r - b) % b := Nat.mod_eq_sub_mod hle
    rw [h3, h1, h2, List.replicate_succ]
    simp

theorem ceil_div_zero (b : Nat) (hb : 0 < b) : ceil_div 0 b = 0 := by
  unfold ceil_div
  exact Nat.div_eq_of_lt (by omega)

theorem ceil_div_pos (b r : Nat) (hb : 0 < b) (hr : 0 < r) :
    ceil_div r b = ceil_div (r - min b r) b + 1 := by
  unfold ceil_div
  by_cases hlt : r < b
  · have h3 : min b r = r := by omega
    rw [h3, Nat.sub_self]
    have : (0 + b - 1) / b = 0 := Nat.div_eq_of_lt (by omega)
    rw [this]
    have h5 : (r + b - 1) / b = 1 := by
      apply Nat.div_eq_of_lt_le <;> omega
    omega
  · have hle : b ≤ r := by omega
    have h3 : min b r = b := by omega
    rw [h3]
    have : r + b - 1 = (r - b + b - 1) + b := by omega
    rw [this, Nat.add_div_right _ hb]

theorem length_full_reads (b l : Nat) (hb : 0 < b) :
    (full_reads b l).length = ceil_div l b + 1 := by
  induction l using Nat.strong_induction_on with
  | _ l ih =>
    by_cases hl : l = 0
    · subst hl; rw [full_reads_zero, ceil_div_zero b hb]; rfl
    · have hl' : 0 < l := Nat.pos_of_ne_zero hl
      rw [full_reads_pos b l hb hl', ceil_div_pos b l hb hl', List.length_cons,
        ih (l - min b l) (by omega)]

/-- One iteration of the send refill loop that finds the end of the data. -/
theorem read_from_storage_loop_eof (env : Nat → SendIssueEnv) (fuel i : Nat) (h : Handle)
    (hg : h.outstanding < h.optimal_count) (hd : h.done = false)
    (hm : (env i).malloc_ok = true) (hz : to_size_t (env i).read_ret = 0) :
    read_from_storage_loop env (fuel + 1) i h
      = ((read_from_storage_loop env fuel (i + 1) { h with done := true }).1,
         Call.read h.fd (read_length h) (env i).read_ret
          :: (read_from_storage_loop env fuel (i + 1) { h with done := true }).2.1,
         (read_from_storage_loop env fuel (i + 1) { h with done := true }).2.2) := by
  conv_lhs => unfold read_from_storage_loop
  simp [hg, hd, hm, hz]

/-- One iteration of the send refill loop that reads data and registers it. -/
theorem read_from_storage_loop_data (env : Nat → SendIssueEnv) (fuel i : Nat) (h : Handle)
    (hg : h.outstanding < h.optimal_count) (hd : h.done = false)
    (hm : (env i).malloc_ok = true) (hr : (env i).register_ok = true)
    (hz : to_size_t (env i).read_ret ≠ 0) :
    read_from_storage_loop env (fuel + 1) i h
      = ((read_from_storage_loop env fuel (i + 1)
            { h with outstanding := h.outstanding + 1,
                     offset := to_off_t (h.offset + to_size_t (env i).read_ret),
                     block_length :=
                       to_off_t (h.block_length - to_size_t (env i).read_ret) }).1,
         Call.read h.fd (read_length h) (env i).read_ret
          :: Call.register_write (to_size_t (env i).read_ret)
              (to_off_t (to_off_t (h.offset + to_size_t (env i).read_ret)
                - to_size_t (env i).read_ret)) true
          :: (read_from_storage_loop env fuel (i + 1)
            { h with outstanding := h.outstanding + 1,
                     offset := to_off_t (h.offset + to_size_t (env i).read_ret),
                     block_length :=
                       to_off_t (h.block_length - to_size_t (env i).read_ret) }).2.1,
         (read_from_storage_loop env fuel (i + 1)
            { h with outstanding := h.outstanding + 1,
                     offset := to_off_t (h.offset + to_size_t (env i).read_ret),
                     block_length :=
                       to_off_t (h.block_length - to_size_t (env i).read_ret) }).2.2) := by
  conv_lhs => unfold read_from_storage_loop
  simp [hg, hd, hm, hr, hz]

/-- A refill that does nothing. -/
theorem full_refill_refl (h : Handle) (h0 : 0 ≤ h.block_length)
    (hdone : h.done = true → h.block_length = 0)
    (hexit : h.done = true ∨ h.optimal_count ≤ h.outstanding) : FullRefill h h [] := by
  unfold FullRefill
  simp [read_requests, bytes_registered, registered_writes, registered_nil, finished_results,
    closed_fds, h0, hexit]
  exact hdone

/-- The byte count asked from `read` when `block_length` is not negative. -/
theorem read_length_of_nonneg (h : Handle) (h0 : 0 ≤ h.block_length)
    (h63 : h.block_length < 2 ^ 63) :
    read_length h = min h.block_size h.block_length.toNat := by
  unfold read_length to_size_t
  split_ifs <;> omega

/-- A refill that starts with the read of 0 bytes that ends the data. -/
theorem full_refill_eof (h h1 : Handle) (cs : List Call) (fd : Int) (ret : Int)
    (hd : h.done = false) (hbl : h.block_length = 0) (hB : 0 < h.block_size)
    (hF : FullRefill { h with done := true } h1 cs) :
    FullRefill h h1 (Call.read fd 0 ret :: cs) := by
  unfold FullRefill at hF ⊢
  simp only [] at hF
  obtain ⟨f1, f2, f3, f4, f5, f6, f7, f8, f9, f10, f11, f12, f13, f14⟩ := hF
  have hdone1 : h1.done = true := f10 trivial
  refine ⟨f1, f2, f3, f4, ?_, ?_, ?_, f8, f9, fun _ => hdone1, ?_, ?_, ?_, ?_⟩
  · simp only [reads_left, hdone1, if_true, List.append_nil] at f5 ⊢
    simp only [read_requests, f5, hd, hbl, Int.toNat_zero, full_reads_zero,
      Bool.false_eq_true, if_false]
  · simpa [bytes_registered, registered_writes] using f6
  · simpa [registered_cons, Call.registers] using f7
  · simpa [finished_results] using f11
  · simpa [closed_fds] using f12
  · simpa [Call.is_lseek] using f13
  · simp only [writes_left, hdone1, if_true, Nat.add_zero] at f14 ⊢
    simp only [registered_cons, Call.registers, hd, hbl, Int.toNat_zero, ceil_div_zero _ hB,
      Bool.false_eq_true, if_false, f14]

/-- A refill that starts with a read of `n` bytes, `n` the smaller of the block size
and of the bytes left, and the registration of these bytes. -/
theorem full_refill_data (h h1 : Handle) (cs : List Call) (fd : Int) (ret off o1 : Int)
    (n : Nat) (hd : h.done = false) (hpos : 0 < h.block_length.toNat)
    (hB : 0 < h.block_size) (hn : n = min h.block_size h.block_length.toNat)
    (hF : FullRefill
      { h with outstanding := h.outstanding + 1, offset := o1,
               block_length := h.block_length - n } h1 cs) :
    FullRefill h h1 (Call.read fd n ret :: Call.register_write n off true :: cs) := by
  unfold FullRefill at hF ⊢
  simp only [] at hF
  obtain ⟨f1, f2, f3, f4, f5, f6, f7, f8, f9, f10, f11, f12, f13, f14⟩ := hF
  have htoNat : (h.block_length - (n : Int)).toNat = h.block_length.toNat - n := by omega
  refine ⟨f1, f2, f3, f4, ?_, ?_, ?_, f8, f9, ?_, ?_, ?_, ?_, ?_⟩
  · simp only [reads_left, hd, htoNat, Bool.false_eq_true, if_false] at f5 ⊢
    simp only [read_requests, List.cons_append, f5]
    rw [hn]
    exact (full_reads_pos _ _ hB hpos).symm
  · simp only [bytes_registered, registered_writes, List.map_cons, List.sum_cons,
      Nat.cast_add] at f6 ⊢
    omega
  · simp only [registered_cons, Call.registers] at f7 ⊢
    simp only [if_true, Bool.false_eq_true, if_false, Nat.cast_add] at f7 ⊢
    omega
  · intro hc; rw [hd] at hc; exact absurd hc (by decide)
  · simpa [finished_results] using f11
  · simpa [closed_fds] using f12
  · simpa [Call.is_lseek] using f13
  · simp only [writes_left, hd, htoNat, Bool.false_eq_true, if_false] at f14 ⊢
    simp only [registered_cons, Call.registers, if_true, Bool.false_eq_true, if_false]
    rw [ceil_div_pos _ _ hB hpos, ← hn]
    omega

/-- The send refill loop when every allocation and registration succeeds and every
read returns the count it asked for: it reads the next counts of `full_reads`,
registers the bytes read, and stops when the window is full or the data is over. -/
theorem full_refill_loop (env : Nat → SendIssueEnv) (hok : issue_all_ok env) :
    ∀ (fuel i : Nat) (h : Handle),
      0 < h.block_size → 0 ≤ h.block_length → h.block_length < 2 ^ 63 →
      (h.done = true → h.block_length = 0) →
      (h.done = true ∨ (h.optimal_count - h.outstanding).toNat ≤ fuel) →
      reads_full (read_from_storage_loop env fuel i h).2.1 = true →
      FullRefill h (read_from_storage_loop env fuel i h).1
          (read_from_storage_loop env fuel i h).2.1
        ∧ (read_from_storage_loop env fuel i h).2.2 = false := by
  intro fuel
  induction fuel with
  | zero =>
    intro i h _ h0 _ hdone hf _
    refine ⟨?_, rfl⟩
    simp only [read_from_storage_loop]
    refine full_refill_refl h h0 hdone ?_
    rcases hf with hf | hf
    · exact Or.inl hf
    · right; omega
  | succ n ih =>
    intro i h hB h0 h63 hdone hf hfull
    by_cases hg : h.outstanding < h.optimal_count ∧ h.done = false
    · obtain ⟨hlt, hd⟩ := hg
      have hm := (hok i).1
      have hr := (hok i).2
      have hlen := read_length_of_nonneg h h0 h63
      by_cases hz : to_size_t (env i).read_ret = 0
      · rw [read_from_storage_loop_eof env n i h hlt hd hm hz] at hfull ⊢
        simp only [reads_full, Bool.and_eq_true, decide_eq_true_eq] at hfull
        have hcount : read_length h = 0 := by
          have := hfull.1
          unfold to_size_t at hz
          omega
        have hbl : h.block_length = 0 := by
          rw [hlen] at hcount
          omega
        have := ih (i + 1) { h with done := true } hB h0 h63 (fun _ => hbl) (Or.inl rfl)
          hfull.2
        rw [hcount]
        exact ⟨full_refill_eof h _ _ h.fd _ hd hbl hB this.1, this.2⟩
      · rw [read_from_storage_loop_data env n i h hlt hd hm hr hz] at hfull ⊢
        simp only [reads_full, Bool.and_eq_true, decide_eq_true_eq] at hfull
        have hret : (to_size_t (env i).read_ret : Int) = (read_length h : Nat) := by
          have := hfull.1
          unfold to_size_t
          omega
        have hnat : to_size_t (env i).read_ret = min h.block_size h.block_length.toNat := by
          rw [← hlen]; exact_mod_cast hret
        have hpos : 0 < h.block_length.toNat := by
          rcases Nat.eq_zero_or_pos h.block_length.toNat with h' | h'
          · rw [h', Nat.min_zero] at hnat; exact absurd hnat hz
          · exact h'
        have e2 : to_off_t (h.block_length - to_size_t (env i).read_ret)
            = h.block_length - to_size_t (env i).read_ret := by
          apply to_off_t_of_in_off_t
          unfold in_off_t
          omega
        rw [e2] at hfull ⊢
        have := ih (i + 1)
          { h with outstanding := h.outstanding + 1,
                   offset := to_off_t (h.offset + to_size_t (env i).read_ret),
                   block_length := h.block_length - to_size_t (env i).read_ret }
          hB (by simp only []; omega) (by simp only []; omega)
          (fun hc => by simp only [] at hc; rw [hd] at hc; exact absurd hc (by decide))
          (Or.inr (by
            rcases hf with hf | hf
            · rw [hd] at hf; exact absurd hf (by decide)
            · simp only []; omega))
          hfull.2
        have hrl : read_length h = to_size_t (env i).read_ret := by rw [hlen, hnat]
        rw [hrl]
        exact ⟨full_refill_data h _ _ h.fd _ _ _ _ hd hpos hB hnat this.1, this.2⟩
    · have hnone : read_from_storage_loop env (n + 1) i h = (h, [], false) := by
        conv_lhs => unfold read_from_storage_loop
        simp [hg]
      rw [hnone]
      refine ⟨full_refill_refl h h0 hdone ?_, rfl⟩
      by_cases hd : h.done = true
      · exact Or.inl hd
      · right
        have : h.done = false := by simpa using hd
        by_contra hc
        exact hg ⟨by omega, this⟩

theorem reads_full_append (a b : List Call) :
    reads_full (a ++ b) = (reads_full a && reads_full b) := by
  induction a with
  | nil => simp [reads_full]
  | cons c cs ih => cases c <;> simp [reads_full, ih, Bool.and_assoc]

theorem read_requests_append (a b : List Call) :
    read_requests (a ++ b) = read_requests a ++ read_requests b := by
  induction a with
  | nil => rfl
  | cons c cs ih => cases c <;> simp [read_requests, ih]

theorem closed_fds_append (a b : List Call) :
    closed_fds (a ++ b) = closed_fds a ++ closed_fds b := by
  induction a with
  | nil => rfl
  | cons c cs ih => cases c <;> simp [closed_fds, ih]

theorem bytes_registered_append (a b : List Call) :
    bytes_registered (a ++ b) = bytes_registered a + bytes_registered b := by
  simp [bytes_registered, registered_writes_append]

/-- The function `globus_l_gfs_posix_read_from_storage` in that case: the refill of
its loop, followed by `close` and the report of success exactly when nothing is
outstanding. -/
theorem full_read_from_storage (env : ReadEnv) (hok : issue_all_ok env.issue) (h : Handle)
    (hB : 0 < h.block_size) (h0 : 0 ≤ h.block_length) (h63 : h.block_length < 2 ^ 63)
    (hdone : h.done = true → h.block_length = 0)
    (hfull : reads_full (read_from_storage env h).2 = true) :
    ∃ cs, FullRefill h (read_from_storage env h).1 cs
      ∧ (read_from_storage env h).2
        = cs ++ (if (read_from_storage env h).1.outstanding = 0
            then [Call.close h.fd env.close_ret, Call.finished_transfer Result.success]
            else []) := by
  have hf : reads_full (read_from_storage_loop env.issue
      ((h.optimal_count - h.outstanding).toNat + 1) 0 h).2.1 = true := by
    unfold read_from_storage at hfull
    simp only [] at hfull
    split_ifs at hfull
    · exact hfull
    · rw [reads_full_append, Bool.and_eq_true] at hfull; exact hfull.1
    · exact hfull
  have hl := full_refill_loop env.issue hok _ 0 h hB h0 h63 hdone (Or.inr (by omega)) hf
  have h1 := (read_from_storage_calls env h).2.2
  refine ⟨(read_from_storage_loop env.issue
    ((h.optimal_count - h.outstanding).toNat + 1) 0 h).2.1, by rw [h1]; exact hl.1, ?_⟩
  have hfd := hl.1.2.2.1
  rw [h1]
  unfold read_from_storage
  simp only [hl.2, Bool.false_eq_true, if_false]
  split_ifs <;> simp [hfd]

/-- The state after a refill, and after the `close` and the report that follow it
when nothing is outstanding, from a state in which nothing was reported yet. -/
theorem full_send_after (l b : Nat) (fd : Int) (log0 : List Call) (p0 : Nat) (h1 r : Handle)
    (cs : List Call) (close_ret : Int)
    (hB : 0 < b ∧ h1.block_size = b) (hfd : h1.fd = fd) (hopt : 1 ≤ h1.optimal_count)
    (h63 : h1.block_length < 2 ^ 63)
    (hreads : read_requests log0 ++ reads_left h1 = full_reads b l)
    (hbytes : (bytes_registered log0 : Int) + h1.block_length = l)
    (hout : h1.outstanding = p0)
    (hfin : finished_results log0 = []) (hclosed : closed_fds log0 = [])
    (hseek : log0.any Call.is_lseek = false)
    (hF : FullRefill h1 r cs) :
    FullSend l b fd
        { h := r,
          pending := p0 + registered (cs ++ (if r.outstanding = 0 then
            [Call.close h1.fd close_ret, Call.finished_transfer Result.success] else [])),
          log := log0 ++ (cs ++ (if r.outstanding = 0 then
            [Call.close h1.fd close_ret, Call.finished_transfer Result.success] else [])) }
      ∧ p0 + registered (cs ++ (if r.outstanding = 0 then
            [Call.close h1.fd close_ret, Call.finished_transfer Result.success] else []))
          + writes_left r = p0 + writes_left h1 := by
  unfold FullRefill at hF
  obtain ⟨f1, f2, f3, f4, f5, f6, f7, f8, f9, f10, f11, f12, f13, f14⟩ := hF
  have htail : registered (if r.outstanding = 0 then
      [Call.close h1.fd close_ret, Call.finished_transfer Result.success] else []) = 0 := by
    split_ifs <;> simp [registered_cons, registered_nil, Call.registers]
  have hdone0 : r.outstanding = 0 → r.done = true := by
    intro h0
    rcases f8 with h | h
    · exact h
    · omega
  refine ⟨?_, by rw [registered_append, htail]; omega⟩
  unfold FullSend
  simp only []
  refine ⟨⟨hB.1, by rw [f1]; exact hB.2⟩, by rw [f3]; exact hfd, by rw [f2]; exact hopt, f4,
    by have : (0 : Int) ≤ bytes_registered cs := Int.natCast_nonneg _
       omega, ?_, ?_, ?_, f8, f9, ?_, ?_, ?_⟩
  · rw [read_requests_append, read_requests_append, ← hreads, ← f5]
    have : read_requests (if r.outstanding = 0 then
        [Call.close h1.fd close_ret, Call.finished_transfer Result.success] else []) = [] := by
      split_ifs <;> simp [read_requests]
    rw [this]
    simp
  · rw [bytes_registered_append, bytes_registered_append]
    have : bytes_registered (if r.outstanding = 0 then
        [Call.close h1.fd close_ret, Call.finished_transfer Result.success] else []) = 0 := by
      split_ifs <;> simp [bytes_registered, registered_writes]
    rw [this]
    push_cast
    omega
  · rw [registered_append, htail, f7, hout]
    push_cast
    ring
  · rw [finished_results_append, finished_results_append, hfin, f11]
    by_cases h0 : r.outstanding = 0
    · simp [h0, hdone0 h0, finished_results]
    · simp [h0, finished_results]
  · rw [closed_fds_append, closed_fds_append, hclosed, f12]
    by_cases h0 : r.outstanding = 0
    · simp [h0, hdone0 h0, closed_fds, hfd]
    · simp [h0, closed_fds]
  · rw [List.any_append, List.any_append, hseek, f13]
    split_ifs <;> simp [Call.is_lseek]

/-- One completion of such a send: the state stays as described and the number of
operations pending or still to be registered drops by one. -/
theorem full_send_step (l b : Nat) (fd : Int) (s : Sys) (c : SendCompletion)
    (hs : FullSend l b fd s) (hp : s.pending ≠ 0) (hok : issue_all_ok c.env.issue)
    (hfull : reads_full (read_from_storage_cb c.result c.nbytes c.env s.h).2 = true) :
    FullSend l b fd (send_step s c)
      ∧ (send_step s c).pending + writes_left (send_step s c).h + 1
        = s.pending + writes_left s.h := by
  unfold FullSend at hs
  obtain ⟨g1, g2, g3, g4, g5, g6, g7, g8, g9, g10, g11, g12, g13⟩ := hs
  have hne : ¬ (s.h.done = true ∧ s.h.outstanding = 0) := by
    intro hc; rw [g8] at hc; omega
  rw [if_neg hne] at g11 g12
  have hp1 : 1 ≤ s.pending := Nat.one_le_iff_ne_zero.mpr hp
  obtain ⟨cs, hF, hcalls⟩ := full_read_from_storage c.env hok
    { s.h with outstanding := s.h.outstanding - 1 } (by rw [g1.2]; exact g1.1) g4 g5 g10 hfull
  have ha := full_send_after l b fd s.log (s.pending - 1)
    { s.h with outstanding := s.h.outstanding - 1 } _ cs c.env.close_ret
    g1 g2 g3 g5 g6 g7 (by simp only []; rw [g8]; omega) g11 g12 g13 hF
  have hstep : send_step s c
      = { h := (read_from_storage c.env { s.h with outstanding := s.h.outstanding - 1 }).1,
          pending := s.pending - 1
            + registered (read_from_storage c.env
                { s.h with outstanding := s.h.outstanding - 1 }).2,
          log := s.log ++ (read_from_storage c.env
                { s.h with outstanding := s.h.outstanding - 1 }).2 } := by
    unfold send_step
    rw [if_neg hp]
    rfl
  rw [hstep, hcalls]
  refine ⟨ha.1, ?_⟩
  have h2 := ha.2
  simp only [writes_left] at h2 ⊢
  omega

/-- The state after `globus_l_gfs_posix_send` for "/dev/zero", when the `open`
succeeds. -/
theorem full_send_init (pathname : String) (env : SendEnv) (h : Handle)
    (hpath : normalize_path pathname = "/dev/zero") (hopen : env.open_ret ≠ -1)
    (hB : 0 < env.block_size) (hopt : 1 ≤ env.opt)
    (h0 : 0 ≤ env.range_length) (h63 : env.range_length < 2 ^ 63)
    (hok : issue_all_ok env.rd.issue)
    (hfull : reads_full (send_init pathname env h).log = true) :
    FullSend env.range_length.toNat env.block_size env.open_ret (send_init pathname env h)
      ∧ (send_init pathname env h).pending + writes_left (send_init pathname env h).h
        = ceil_div env.range_length.toNat env.block_size := by
  have hsend : send pathname env h
      = ((read_from_storage env.rd (zero_handle env h)).1,
         Call.begin_transfer :: Call.posix_open "/dev/zero" false env.open_ret ::
           (read_from_storage env.rd (zero_handle env h)).2) := by
    unfold send zero_handle
    simp [hpath, hopen]
  have hfull1 : reads_full (read_from_storage env.rd (zero_handle env h)).2 = true := by
    rw [show (send_init pathname env h).log = (send pathname env h).2 from rfl, hsend] at hfull
    simpa [reads_full] using hfull
  obtain ⟨cs, hF, hcalls⟩ := full_read_from_storage env.rd hok (zero_handle env h) hB h0 h63
    (fun hc => by simp [zero_handle] at hc) hfull1
  have ha := full_send_after env.range_length.toNat env.block_size env.open_ret
    [Call.begin_transfer, Call.posix_open "/dev/zero" false env.open_ret] 0
    (zero_handle env h) _ cs
    env.rd.close_ret ⟨hB, rfl⟩ rfl hopt h63
    (by simp [read_requests, reads_left, zero_handle])
    (by simp [bytes_registered, registered_writes, zero_handle]; omega)
    rfl rfl rfl rfl hF
  have hinit : send_init pathname env h
      = { h := (read_from_storage env.rd (zero_handle env h)).1,
          pending := 0 + registered (read_from_storage env.rd (zero_handle env h)).2,
          log := [Call.begin_transfer, Call.posix_open "/dev/zero" false env.open_ret]
            ++ (read_from_storage env.rd (zero_handle env h)).2 } := by
    unfold send_init
    simp only [hsend, registered_cons, Call.registers]
    simp
  rw [hinit, hcalls]
  refine ⟨ha.1, ?_⟩
  have h2 := ha.2
  simp only [writes_left, zero_handle, Bool.false_eq_true, if_false] at h2 ⊢
  omega

/-- Such a send comes to its end: once as many completions have been delivered as
there were operations pending or still to be registered, nothing is pending. -/
theorem full_send_run (l b : Nat) (fd : Int) (cs : List SendCompletion) :
    ∀ s : Sys, FullSend l b fd s → (∀ c ∈ cs, issue_all_ok c.env.issue) →
      reads_full (send_run s cs).log = true →
      s.pending + writes_left s.h ≤ cs.length →
      FullSend l b fd (send_run s cs) ∧ (send_run s cs).pending = 0 := by
  induction cs with
  | nil =>
    intro s hs _ _ hm
    refine ⟨hs, ?_⟩
    simp only [List.length_nil] at hm
    show s.pending = 0
    omega
  | cons c cs ih =>
    intro s hs hok hfull hm
    have hrun : send_run s (c :: cs) = send_run (send_step s c) cs := rfl
    rw [hrun] at hfull ⊢
    by_cases hp : s.pending = 0
    · have hstep : send_step s c = s := by unfold send_step; rw [if_pos hp]
      rw [hstep] at hfull ⊢
      refine ih s hs (fun d hd => hok d (List.mem_cons_of_mem c hd)) hfull ?_
      have hw : writes_left s.h = 0 := by
        unfold FullSend at hs
        obtain ⟨_, _, g3, _, _, _, _, g8, g9, _⟩ := hs
        have hd : s.h.done = true := by
          rcases g9 with h | h
          · exact h
          · rw [g8, hp] at h; simp at h; omega
        simp [writes_left, hd]
      omega
    · obtain ⟨ext, he⟩ := send_run_log cs (send_step s c)
      have hlog : (send_step s c).log
          = s.log ++ (read_from_storage_cb c.result c.nbytes c.env s.h).2 := by
        unfold send_step; rw [if_neg hp]
      have hf1 : reads_full (read_from_storage_cb c.result c.nbytes c.env s.h).2 = true := by
        rw [he, hlog, reads_full_append, reads_full_append] at hfull
        simp only [Bool.and_eq_true] at hfull
        exact hfull.1.2
      have hst := full_send_step l b fd s c hs hp (hok c (List.mem_cons_self c cs)) hf1
      refine ih (send_step s c) hst.1 (fun d hd => hok d (List.mem_cons_of_mem c hd)) hfull ?_
      have := hst.2
      simp only [List.length_cons] at hm
      omega

/-- The send from "/dev/zero" whose callbacks run one at a time. A requested length `L`
that is not negative, such as 1 MiB, a block size `B > 0` and a concurrency of at
least 1; `open`, the allocations and the registrations succeed and every read returns
the count it asked for. Once at least `ceil(L / B)` completions have been delivered:
the transfer has called `read` exactly `ceil(L / B) + 1` times, for `B` bytes
`L / B` times, then for the remainder if there is one, and a last time for 0 bytes;
it has registered exactly `L` bytes with the transport, closed the descriptor and
reported success once, and has never called `lseek`; no operation is pending. -/
theorem dev_zero_send_reads (pathname : String) (env : SendEnv) (h : Handle)
    (cs : List SendCompletion)
    (hpath : normalize_path pathname = "/dev/zero") (hopen : env.open_ret ≠ -1)
    (hB : 0 < env.block_size) (hopt : 1 ≤ env.opt)
    (h0 : 0 ≤ env.range_length) (h63 : env.range_length < 2 ^ 63)
    (hok : issue_all_ok env.rd.issue) (hoks : ∀ c ∈ cs, issue_all_ok c.env.issue)
    (hfull : reads_full (send_run (send_init pathname env h) cs).log = true)
    (hcs : ceil_div env.range_length.toNat env.block_size ≤ cs.length) :
    read_requests (send_run (send_init pathname env h) cs).log
        = full_reads env.block_size env.range_length.toNat
      ∧ (read_requests (send_run (send_init pathname env h) cs).log).length
        = ceil_div env.range_length.toNat env.block_size + 1
      ∧ (bytes_registered (send_run (send_init pathname env h) cs).log : Int)
        = env.range_length
      ∧ finished_results (send_run (send_init pathname env h) cs).log = [Result.success]
      ∧ closed_fds (send_run (send_init pathname env h) cs).log = [env.open_ret]
      ∧ (send_run (send_init pathname env h) cs).log.any Call.is_lseek = false
      ∧ (send_run (send_init pathname env h) cs).pending = 0 := by
  obtain ⟨ext, he⟩ := send_run_log cs (send_init pathname env h)
  have hf0 : reads_full (send_init pathname env h).log = true := by
    rw [he, reads_full_append, Bool.and_eq_true] at hfull
    exact hfull.1
  have hi := full_send_init pathname env h hpath hopen hB hopt h0 h63 hok hf0
  have hr := full_send_run _ _ _ cs _ hi.1 hoks hfull (by rw [hi.2]; exact hcs)
  obtain ⟨hF, hp⟩ := hr
  unfold FullSend at hF
  obtain ⟨g1, g2, g3, g4, g5, g6, g7, g8, g9, g10, g11, g12, g13⟩ := hF
  have hout : (send_run (send_init pathname env h) cs).h.outstanding = 0 := by
    rw [g8, hp]; rfl
  have hd : (send_run (send_init pathname env h) cs).h.done = true := by
    rcases g9 with hd | hd
    · exact hd
    · omega
  have hreads : read_requests (send_run (send_init pathname env h) cs).log
      = full_reads env.block_size env.range_length.toNat := by
    rw [← g6]; simp [reads_left, hd]
  refine ⟨hreads, ?_, ?_, ?_, ?_, g13, hp⟩
  · rw [hreads, length_full_reads _ _ hB]
  · have := g10 hd
    omega
  · rw [g11, if_pos ⟨hd, hout⟩]
  · rw [g12, if_pos ⟨hd, hout⟩]

/-- The send of 1 MiB in blocks of 512 KiB with concurrency 1 whose callbacks run one
at a time: three reads, for 524288, 524288 and 0 bytes. -/
theorem dev_zero_send_reads_witness :
    read_requests
        (send_run (send_init "/dev/zero" (mib_send_env 524288 524288) Handle.start)
          [{ result := Result.success, nbytes := 524288, env := read_env 524288 true },
           { result := Result.success, nbytes := 524288, env := read_env 0 true }]).log
        = full_reads (mib_send_env 524288 524288).block_size
            (mib_send_env 524288 524288).range_length.toNat
      ∧ (read_requests
        (send_run (send_init "/dev/zero" (mib_send_env 524288 524288) Handle.start)
          [{ result := Result.success, nbytes := 524288, env := read_env 524288 true },
           { result := Result.success, nbytes := 524288,
             env := read_env 0 true }]).log).length
        = ceil_div (mib_send_env 524288 524288).range_length.toNat
            (mib_send_env 524288 524288).block_size + 1
      ∧ (bytes_registered
        (send_run (send_init "/dev/zero" (mib_send_env 524288 524288) Handle.start)
          [{ result := Result.success, nbytes := 524288, env := read_env 524288 true },
           { result := Result.success, nbytes := 524288,
             env := read_env 0 true }]).log : Int)
        = (mib_send_env 524288 524288).range_length
      ∧ finished_results
        (send_run (send_init "/dev/zero" (mib_send_env 524288 524288) Handle.start)
          [{ result := Result.success, nbytes := 524288, env := read_env 524288 true },
           { result := Result.success, nbytes := 524288, env := read_env 0 true }]).log
        = [Result.success]
      ∧ closed_fds
        (send_run (send_init "/dev/zero" (mib_send_env 524288 524288) Handle.start)
          [{ result := Result.success, nbytes := 524288, env := read_env 524288 true },
           { result := Result.success, nbytes := 524288, env := read_env 0 true }]).log
        = [(mib_send_env 524288 524288).open_ret]
      ∧ (send_run (send_init "/dev/zero" (mib_send_env 524288 524288) Handle.start)
          [{ result := Result.success, nbytes := 524288, env := read_env 524288 true },
           { result := Result.success, nbytes := 524288,
             env := read_env 0 true }]).log.any Call.is_lseek = false
      ∧ (send_run (send_init "/dev/zero" (mib_send_env 524288 524288) Handle.start)
          [{ result := Result.success, nbytes := 524288, env := read_env 524288 true },
           { result := Result.success, nbytes := 524288,
             env := read_env 0 true }]).pending = 0 :=
  dev_zero_send_reads "/dev/zero" (mib_send_env 524288 524288) Handle.start
    [{ result := Result.success, nbytes := 524288, env := read_env 524288 true },
     { result := Result.success, nbytes := 524288, env := read_env 0 true }]
    (by decide) (by decide) (by decide) (by decide) (by decide) (by decide)
    (fun _ => ⟨rfl, rfl⟩) (by
      intro c hc
      simp only [List.mem_cons, List.mem_singleton, List.not_mem_nil, or_false] at hc
      rcases hc with hc | hc <;> subst hc <;> exact fun _ => ⟨rfl, rfl⟩)
    (by decide) (by decide)

/-! ### The format of a digest -/

theorem hex_digit_ne_NUL : ∀ n, n < 16 → hex_digit n ≠ NUL := by decide

theorem hex_digit_mem : ∀ n, n < 16 → hex_digit n ∈ "0123456789abcdef".data := by decide

theorem length_hex_chars (d : List Nat) : (hex_chars d).length = 2 * d.length := by
  induction d with
  | nil => rfl
  | cons b bs ih => simp only [hex_chars, List.length_cons, ih]; omega

theorem hex_chars_append (a b : List Nat) : hex_chars (a ++ b) = hex_chars a ++ hex_chars b := by
  induction a with
  | nil => rfl
  | cons x xs ih => simp [hex_chars, ih]

theorem hex_chars_ne_NUL (d : List Nat) (hb : ∀ b ∈ d, b < 256) :
    ∀ c ∈ hex_chars d, (c != NUL) = true := by
  induction d with
  | nil => intro c hc; simp [hex_chars] at hc
  | cons b bs ih =>
    intro c hc
    have hb0 : b < 256 := hb b (List.mem_cons_self b bs)
    simp only [hex_chars, List.mem_cons] at hc
    rcases hc with hc | hc | hc
    · rw [hc]; simpa using hex_digit_ne_NUL (b / 16) (by omega)
    · rw [hc]; simpa using hex_digit_ne_NUL (b % 16) (by omega)
    · exact ih (fun x hx => hb x (List.mem_cons_of_mem b hx)) c hc

theorem hex_chars_mem (d : List Nat) (hb : ∀ b ∈ d, b < 256) :
    ∀ c ∈ hex_chars d, c ∈ "0123456789abcdef".data := by
  induction d with
  | nil => intro c hc; simp [hex_chars] at hc
  | cons b bs ih =>
    intro c hc
    have hb0 : b < 256 := hb b (List.mem_cons_self b bs)
    simp only [hex_chars, List.mem_cons] at hc
    rcases hc with hc | hc | hc
    · rw [hc]; exact hex_digit_mem (b / 16) (by omega)
    · rw [hc]; exact hex_digit_mem (b % 16) (by omega)
    · exact ih (fun x hx => hb x (List.mem_cons_of_mem b hx)) c hc

theorem hex_chars_get (d : List Nat) :
    ∀ i, i < d.length →
      (hex_chars d)[2 * i]? = some (hex_digit (d.getD i 0 / 16))
        ∧ (hex_chars d)[2 * i + 1]? = some (hex_digit (d.getD i 0 % 16)) := by
  induction d with
  | nil => intro i hi; simp at hi
  | cons b bs ih =>
    intro i hi
    cases i with
    | zero => simp [hex_chars]
    | succ j =>
      have := ih j (by simpa using hi)
      have e1 : 2 * (j + 1) = 2 * j + 1 + 1 := by ring
      rw [e1]
      simpa [hex_chars] using this

/-- The call `sprintf(&buf[pos], "%02x", v)` on a buffer of which the first `pos`
characters are `x`. -/
theorem sprintf_02x_append (x rest : List Char) (v : Nat) (hr : 3 ≤ rest.length) :
    sprintf_02x (x ++ rest) x.length v
      = x ++ hex_digit (v / 16) :: hex_digit (v % 16) :: NUL :: rest.drop 3 := by
  match rest, hr with
  | r0 :: r1 :: r2 :: tail, _ =>
    unfold sprintf_02x
    rw [List.set_append_right _ _ (le_refl _), List.set_append_right _ _ (by omega),
      List.set_append_right _ _ (by omega)]
    simp

/-- The buffer after the first `k` turns of the loop of `format_digest`. -/
theorem format_loop (d : List Nat) (cksm : List Char) (hd : d.length = 16)
    (hb : ∀ b ∈ d, b < 256) (hc : cksm.length = 512) :
    ∀ k, k ≤ 16 →
      ∃ tail, (List.range k).foldl
            (fun buf i => sprintf_02x buf (i * 2) (d.getD i 0 % 256)) cksm
          = hex_chars (d.take k) ++ tail
        ∧ tail.length = 512 - 2 * k ∧ (0 < k → tail.head? = some NUL) := by
  intro k
  induction k with
  | zero => intro _; exact ⟨cksm, by simp [hex_chars], by simpa using hc, by simp⟩
  | succ n ih =>
    intro hk
    obtain ⟨tail, h1, h2, _⟩ := ih (by omega)
    have hlen : (hex_chars (d.take n)).length = n * 2 := by
      rw [length_hex_chars, List.length_take]; omega
    have hbn : d.getD n 0 < 256 := by
      have hn : n < d.length := by omega
      rw [List.getD_eq_getElem _ _ hn]
      exact hb _ (List.getElem_mem hn)
    refine ⟨NUL :: tail.drop 3, ?_, ?_, fun _ => rfl⟩
    · rw [List.range_succ, List.foldl_append, h1]
      simp only [List.foldl_cons, List.foldl_nil]
      rw [← hlen, sprintf_02x_append _ _ _ (by omega)]
      have htake : d.take (n + 1) = d.take n ++ [d.getD n 0] := by
        have hn : n < d.length := by omega
        rw [List.take_succ, List.getD_eq_getElem _ _ hn]
        simp [List.getElem?_eq_getElem hn]
      rw [htake, hex_chars_append, Nat.mod_eq_of_lt hbn]
      simp [hex_chars]
    · simp only [List.length_cons, List.length_drop]
      omega

/-- The buffer `cksm` after `format_digest` starts with the 32 hexadecimal digits of
the digest followed by `NUL`, whatever it held before. -/
theorem c_string_format_digest (d : List Nat) (cksm : List Char) (hd : d.length = 16)
    (hb : ∀ b ∈ d, b < 256) (hc : cksm.length = 512) :
    c_string (format_digest d cksm) = hex_chars d
      ∧ (format_digest d cksm)[32]? = some NUL := by
  obtain ⟨tail, h1, h2, h3⟩ := format_loop d cksm hd hb hc 16 (le_refl _)
  have htake : d.take 16 = d := by rw [← hd]; exact List.take_length d
  rw [htake] at h1
  have hlen : (hex_chars d).length = 32 := by rw [length_hex_chars, hd]
  match tail, h2, h3 (by decide) with
  | t0 :: t1 :: rest, _, h0 =>
    simp only [List.head?_cons, Option.some.injEq] at h0
    subst h0
    have hfmt : format_digest d cksm = hex_chars d ++ NUL :: NUL :: rest := by
      unfold format_digest
      rw [h1, List.set_append_right _ _ (by omega), hlen]
      rfl
    rw [hfmt]
    constructor
    · unfold c_string
      rw [List.takeWhile_append_of_pos (hex_chars_ne_NUL d hb)]
      simp
    · rw [List.getElem?_append_right (by omega), hlen]
      rfl

theorem le_bytes_spec (n x : Nat) :
    (le_bytes n x).length = n ∧ ∀ b ∈ le_bytes n x, b < 256 := by
  unfold le_bytes
  refine ⟨by simp, ?_⟩
  intro b hb
  simp only [List.mem_map] at hb
  obtain ⟨k, _, hk⟩ := hb
  rw [← hk]
  exact Nat.mod_lt _ (by decide)

/-- A digest returned by `MD5_Final` is 16 bytes. -/
theorem MD5_Final_spec (c : MD5_CTX) :
    (MD5_Final c).length = 16 ∧ ∀ b ∈ MD5_Final c, b < 256 := by
  unfold MD5_Final md5
  simp only [List.length_append, List.mem_append, (le_bytes_spec 4 _).1]
  refine ⟨trivial, ?_⟩
  intro b hb
  rcases hb with ((hb | hb) | hb) | hb <;> exact (le_bytes_spec 4 _).2 b hb

set_option maxRecDepth 8000 in
/-- The digests of the standard test messages "" and "abc". -/
theorem md5_test_vectors :
    hex_chars (md5 []) = "d41d8cd98f00b204e9800998ecf8427e".data
      ∧ hex_chars (md5 [97, 98, 99]) = "900150983cd24fb0d6963f7d28e17f72".data := by
  decide

/-- C15. The terminal step of the checksum (`length == 0`) reports the C string held
by `cksm` after the digest of its context has been formatted. For every digest `d` of
16 bytes and every previous content of the 512 characters of `cksm`, that string is
the 32 characters `hex_chars d`: characters `2i` and `2i + 1` are the high and the
low hexadecimal digit of `d[i]`, all are among `0-9a-f`, and the character of `cksm`
right after them is `NUL`. -/
theorem digest_string_is_lowercase_hex (d : List Nat) (cksm : List Char) (t : Md5Task)
    (env : Md5StepEnv) (hd : d.length = 16) (hb : ∀ b ∈ d, b < 256)
    (hc : cksm.length = 512) (ht : t.length = 0) :
    (cksm_md5_cb env cksm t).calls
        = [CmdCall.close t.fd,
           CmdCall.finished_command Result.success
            (some (String.mk (c_string (format_digest (MD5_Final t.c) cksm))))]
      ∧ ((MD5_Final t.c).length = 16 ∧ ∀ b ∈ MD5_Final t.c, b < 256)
      ∧ c_string (format_digest d cksm) = hex_chars d
      ∧ (format_digest d cksm)[32]? = some NUL
      ∧ (hex_chars d).length = 32
      ∧ (∀ c ∈ hex_chars d, c ∈ "0123456789abcdef".data)
      ∧ (∀ i, i < 16 →
          (hex_chars d)[2 * i]? = some (hex_digit (d.getD i 0 / 16))
            ∧ (hex_chars d)[2 * i + 1]? = some (hex_digit (d.getD i 0 % 16))) := by
  have hf := c_string_format_digest d cksm hd hb hc
  refine ⟨by simp [cksm_md5_cb, ht], MD5_Final_spec t.c, hf.1, hf.2,
    by rw [length_hex_chars, hd], hex_chars_mem d hb, ?_⟩
  intro i hi
  exact hex_chars_get d i (by omega)

set_option maxRecDepth 8000 in
/-- C15, at the digest of the empty message and a buffer filled with the letter x. -/
theorem digest_string_is_lowercase_hex_witness :
    (cksm_md5_cb (step_env 0 []) stale_cksm (md5_task [] 0)).calls
        = [CmdCall.close (md5_task [] 0).fd,
           CmdCall.finished_command Result.success
            (some (String.mk (c_string
              (format_digest (MD5_Final (md5_task [] 0).c) stale_cksm))))]
      ∧ ((MD5_Final (md5_task [] 0).c).length = 16
        ∧ ∀ b ∈ MD5_Final (md5_task [] 0).c, b < 256)
      ∧ c_string (format_digest (MD5_Final []) stale_cksm) = hex_chars (MD5_Final [])
      ∧ (format_digest (MD5_Final []) stale_cksm)[32]? = some NUL
      ∧ (hex_chars (MD5_Final [])).length = 32
      ∧ (∀ c ∈ hex_chars (MD5_Final []), c ∈ "0123456789abcdef".data)
      ∧ (∀ i, i < 16 →
          (hex_chars (MD5_Final []))[2 * i]?
              = some (hex_digit ((MD5_Final []).getD i 0 / 16))
            ∧ (hex_chars (MD5_Final []))[2 * i + 1]?
              = some (hex_digit ((MD5_Final []).getD i 0 % 16))) :=
  digest_string_is_lowercase_hex (MD5_Final []) stale_cksm (md5_task [] 0) (step_env 0 [])
    (by decide) (by decide) (List.length_replicate _ _) rfl

/-! ### The steps of the checksum -/

/-- A step entered with `errno` equal to 0 whose `read` returns data: the bytes read
are fed to the digest, `offset` and `total_bytes` grow and `length` drops by their
number. -/
theorem cksm_md5_cb_of_data (env : Md5StepEnv) (cksm : List Char) (t : Md5Task)
    (bytes : List Nat) (ht : t.length ≠ 0) (he : env.errno = 0)
    (hr : env.read_data = some bytes) (hn : bytes ≠ []) :
    ∃ t1, (cksm_md5_cb env cksm t).task = some t1
      ∧ t1.c = t.c ++ bytes
      ∧ t1.total_bytes = t.total_bytes + bytes.length
      ∧ t1.length = t.length - bytes.length
      ∧ t1.offset = t.offset + bytes.length := by
  have hpos : (0 : Int) < bytes.length := by
    have := List.length_pos.mpr hn
    omega
  unfold cksm_md5_cb
  simp only [ht, hr, he, hpos, and_self, if_true, if_false, Option.getD_some, MD5_Update]
  split_ifs <;> exact ⟨_, rfl, rfl, rfl, rfl, rfl⟩

/-- C13 (the code departs from the claim). A step on a task with 3 bytes left is
entered with `errno` equal to 2, left over from an earlier call; its `read` returns
the 3 bytes 1, 2, 3. The test `readlen > 0 && errno == 0` fails: nothing is fed to the
digest, `total_bytes` and `length` keep their values, and the step sleeps and
schedules itself again, although the 3 bytes are consumed from the descriptor. The
same step entered with `errno` equal to 0 feeds them. -/
theorem step_drops_bytes_on_stale_errno :
    (cksm_md5_cb (step_env 2 [1, 2, 3]) stale_cksm (md5_task [] 3)).task
        = some (md5_task [] 3)
      ∧ (cksm_md5_cb (step_env 2 [1, 2, 3]) stale_cksm (md5_task [] 3)).calls
        = [CmdCall.read 7 3, CmdCall.sleep 2, CmdCall.register_oneshot]
      ∧ (cksm_md5_cb (step_env 0 [1, 2, 3]) stale_cksm (md5_task [] 3)).task
        = some { md5_task [1, 2, 3] 0 with offset := 3 } := by
  decide

/-- The byte count a step asks from `read` when `length` is positive: the smaller of
`length` and of the chunk limit, positive and at most 4194304. -/
theorem md5_read_count_of_pos (t : Md5Task) (hb : t.blocksize = MAXBLOCSIZE4CKSM)
    (hl : 0 < t.length) :
    (md5_read_count t : Int) = min t.length 4194304
      ∧ 0 < md5_read_count t ∧ md5_read_count t ≤ 4194304 := by
  unfold md5_read_count to_size_t
  rw [hb]
  unfold MAXBLOCSIZE4CKSM
  split_ifs <;> omega

/-- The range stored by `globus_l_gfs_posix_cksm_md5` when the offset is within the
file, the offset not being negative and the size of the file being a `globus_off_t`:
`length` is not negative. -/
theorem cksm_md5_length_nonneg (env : Md5Env) (cksm : List Char) (offset length : Int)
    (t : Md5Task) (h0 : 0 ≤ offset) (ho : offset ≤ env.st_size) (hS : env.st_size < 2 ^ 63)
    (ht : (cksm_md5 env cksm offset length).task = some t) :
    0 ≤ t.length ∧ t.blocksize = MAXBLOCSIZE4CKSM := by
  unfold cksm_md5 at ht
  split at ht
  · simp at ht
  · simp at ht
  · split_ifs at ht with h1 h2 h3
    · simp only [Option.some.injEq] at ht
      subst ht
      refine ⟨?_, rfl⟩
      show 0 ≤ to_off_t (env.st_size - offset)
      unfold to_off_t
      omega
    · simp only [Option.some.injEq] at ht
      subst ht
      exact ⟨by simp only []; omega, rfl⟩

/-- C20 (the code departs from the claim). For a file of 10 bytes and a request at
offset 20 of length 5, `globus_l_gfs_posix_cksm_md5` stores `length = 10 - 20 = -10`;
the step then asks `read` for `(size_t) -10 = 2^64 - 10` bytes, far more than the
4194304 + 1 bytes of its buffer. -/
theorem read_count_beyond_buffer :
    (cksm_init (md5_env 10) stale_cksm 20 5).task
        = some { c := [], fd := 7, fsize := 10, blocksize := 4194304, offset := 20,
                 length := -10, total_bytes := 0, marker_freq := 10, t_lastmarker := 100 }
      ∧ cmd_read_counts
          (cksm_run (cksm_init (md5_env 10) stale_cksm 20 5) [step_env 0 []]).calls
        = [18446744073709551606]
      ∧ ¬ (18446744073709551606 ≤ 4194304) := by
  decide

theorem finished_commands_append (a b : List CmdCall) :
    finished_commands (a ++ b) = finished_commands a ++ finished_commands b := by
  induction a with
  | nil => rfl
  | cons c cs ih => cases c <;> simp [finished_commands, ih]

/-- A task with bytes left whose reads return no data stays as it is, and nothing is
reported, however many times the step runs. -/
theorem cksm_run_stalled (t : Md5Task) (ht : t.length ≠ 0) (env : Md5StepEnv)
    (he : env.read_data = none ∨ env.read_data = some []) :
    ∀ (n : Nat) (s : CksmState), s.task = some t →
      (cksm_run s (List.replicate n env)).task = some t
        ∧ finished_commands (cksm_run s (List.replicate n env)).calls
          = finished_commands s.calls := by
  intro n
  induction n with
  | zero => intro s hs; exact ⟨hs, rfl⟩
  | succ k ih =>
    intro s hs
    have hstep : cksm_step s env
        = { task := some t, cksm := s.cksm,
            calls := s.calls ++ [CmdCall.read t.fd (md5_read_count t), CmdCall.sleep 2,
              CmdCall.register_oneshot] } := by
      unfold cksm_step
      rw [hs]
      rcases he with he | he <;> simp [cksm_md5_cb, ht, he]
    have := ih (cksm_step s env) (by rw [hstep])
    simp only [List.replicate_succ, cksm_run, List.foldl_cons] at this ⊢
    refine ⟨this.1, ?_⟩
    rw [this.2, hstep, finished_commands_append]
    simp [finished_commands]

/-- A checksum request of length 0 at an offset within the file, the offset being a
`globus_off_t`: the first step reports the digest of the empty message without
calling `read`. -/
theorem empty_range_digest (env : Md5Env) (cksm : List Char) (offset : Int)
    (senv : Md5StepEnv) (hext : env.ext = none) (hstat : env.stat_ret = 0)
    (hreg : env.is_reg = true) (hopen : 0 ≤ env.open_ret) (hoff : in_off_t offset)
    (ho : offset ≤ env.st_size) (hc : cksm.length = 512) :
    finished_commands (cksm_run (cksm_init env cksm offset 0) [senv]).calls
        = [(Result.success, some "d41d8cd98f00b204e9800998ecf8427e")]
      ∧ cmd_read_counts (cksm_run (cksm_init env cksm offset 0) [senv]).calls = [] := by
  have hstr : String.mk (c_string (format_digest (MD5_Final MD5_Init) cksm))
      = "d41d8cd98f00b204e9800998ecf8427e" := by
    rw [(c_string_format_digest _ cksm (MD5_Final_spec _).1 (MD5_Final_spec _).2 hc).1]
    show String.mk (hex_chars (md5 [])) = _
    rw [md5_test_vectors.1]
  have hno : ¬ (env.stat_ret ≠ 0 ∨ env.is_reg = false) := by simp [hstat, hreg]
  have hlen : ¬ ((0 : Int) < 0 ∨ to_off_t (offset + 0) > env.st_size) := by
    rw [add_zero, to_off_t_of_in_off_t offset hoff]
    omega
  simp only [cksm_run, cksm_init, cksm_md5, hext, hno, if_false, not_lt.mpr hopen, hlen,
    List.foldl_cons, List.foldl_nil, cksm_step, cksm_md5_cb, if_true, hstr]
  simp [finished_commands, cmd_read_counts]

/-- C14 (the code departs from the claim). For a file of 10 bytes and a request at
offset 20 of length 0, `globus_l_gfs_posix_cksm_md5` stores `length = 10 - 20 = -10`.
The first step does not find `length == 0`: it calls `read`, for `2^64 - 10` bytes,
and as the reads past the end of the file return nothing, no digest is reported after
any number of steps. -/
theorem empty_range_beyond_end_never_reported :
    (cksm_init (md5_env 10) stale_cksm 20 0).task
        = some { c := [], fd := 7, fsize := 10, blocksize := 4194304, offset := 20,
                 length := -10, total_bytes := 0, marker_freq := 10, t_lastmarker := 100 }
      ∧ (cksm_run (cksm_init (md5_env 10) stale_cksm 20 0) [step_env 0 []]).calls
        = [CmdCall.posix_call "stat" 0, CmdCall.posix_call "open" 7, CmdCall.lseek 7 20,
           CmdCall.time 100, CmdCall.register_oneshot,
           CmdCall.read 7 18446744073709551606, CmdCall.sleep 2, CmdCall.register_oneshot]
      ∧ ∀ n, finished_commands
          (cksm_run (cksm_init (md5_env 10) stale_cksm 20 0)
            (List.replicate n (step_env 0 []))).calls = [] := by
  refine ⟨by decide, by decide, ?_⟩
  intro n
  have := cksm_run_stalled
    { c := [], fd := 7, fsize := 10, blocksize := 4194304, offset := 20,
      length := -10, total_bytes := 0, marker_freq := 10, t_lastmarker := 100 }
    (by decide) (step_env 0 []) (Or.inr rfl) n (cksm_init (md5_env 10) stale_cksm 20 0)
    (by decide)
  rw [this.2]
  decide

set_option maxRecDepth 8000 in
/-- C16 (the code departs from the claim). Two checksums of the first 3 bytes of the
same file of 4 bytes, in which the four reads return the same bytes 1, 2, 3 and 4 one
at a time and which start from the same buffer at the same times. The first is entered
with `errno` equal to 2 at its third step, the second at its first step: the first
reports the digest of 1, 2, 4 and the second the digest of 2, 3, 4. With `errno` equal
to 0 at every step the digest reported is that of 1, 2, 3. -/
theorem digest_depends_on_errno :
    ([step_env 0 [1], step_env 0 [2], step_env 2 [3], step_env 0 [4], step_env 0 []].map
          (fun e => e.read_data)
        = [step_env 2 [1], step_env 0 [2], step_env 0 [3], step_env 0 [4],
            step_env 0 []].map (fun e => e.read_data))
      ∧ finished_commands
          (cksm_run (cksm_init (md5_env 4) stale_cksm 0 3)
            [step_env 0 [1], step_env 0 [2], step_env 2 [3], step_env 0 [4],
             step_env 0 []]).calls
        = [(Result.success, some "57db60e93fb52657521f8f99cbc7398f")]
      ∧ finished_commands
          (cksm_run (cksm_init (md5_env 4) stale_cksm 0 3)
            [step_env 2 [1], step_env 0 [2], step_env 0 [3], step_env 0 [4],
             step_env 0 []]).calls
        = [(Result.success, some "13427305830a139207a3da251a52b53c")]
      ∧ finished_commands
          (cksm_run (cksm_init (md5_env 4) stale_cksm 0 3)
            [step_env 0 [1], step_env 0 [2], step_env 0 [3], step_env 0 []]).calls
        = [(Result.success, some "5289df737df57326fcdd22597afb1fac")] := by
  decide

/-! ### Progress markers -/

theorem markers_append (a b : List CmdCall) :
    ∀ last, markers last (a ++ b) = markers last a ++ markers (last_time last a) b := by
  induction a with
  | nil => intro last; rfl
  | cons c cs ih => intro last; cases c <;> simp [markers, last_time, ih]

theorem markers_ok_mono (freq t0 b0 b1 : Int) (ms : List (Int × Int)) (hb : b1 ≤ b0)
    (h : markers_ok freq t0 b0 ms) : markers_ok freq t0 b1 ms := by
  cases ms with
  | nil => trivial
  | cons m ms =>
    obtain ⟨t, b⟩ := m
    simp only [markers_ok] at h ⊢
    exact ⟨h.1, by omega, h.2.2⟩

/-- One step sends at most one marker, more than `marker_freq` seconds after the time
kept in `t_lastmarker`, which becomes the time of the marker; `total_bytes` does not
decrease and is the total the marker carries. -/
theorem cksm_md5_cb_markers (env : Md5StepEnv) (cksm : List Char) (t : Md5Task) (last : Int) :
    (markers last (cksm_md5_cb env cksm t).calls = []
        ∧ ∀ t1, (cksm_md5_cb env cksm t).task = some t1 →
            t1.t_lastmarker = t.t_lastmarker ∧ t1.marker_freq = t.marker_freq
              ∧ t.total_bytes ≤ t1.total_bytes)
      ∨ ∃ t1, (cksm_md5_cb env cksm t).task = some t1
          ∧ markers last (cksm_md5_cb env cksm t).calls = [(env.now, t1.total_bytes)]
          ∧ t1.t_lastmarker = env.now ∧ t1.marker_freq = t.marker_freq
          ∧ t.marker_freq < env.now - t.t_lastmarker
          ∧ t.total_bytes ≤ t1.total_bytes := by
  unfold cksm_md5_cb
  simp only []
  split_ifs with h0 h1 h2
  · left; simp [markers]
  · right
    exact ⟨_, rfl, by simp [markers], rfl, rfl, by simpa using h2, by simp only []; omega⟩
  · left
    refine ⟨by simp [markers], ?_⟩
    intro t1 ht1
    simp only [Option.some.injEq] at ht1
    subst ht1
    exact ⟨rfl, rfl, by simp only []; omega⟩
  · left
    refine ⟨by simp [markers], ?_⟩
    intro t1 ht1
    simp only [Option.some.injEq] at ht1
    subst ht1
    exact ⟨rfl, rfl, le_refl _⟩

/-- Without a task nothing runs. -/
theorem cksm_run_no_task (envs : List Md5StepEnv) :
    ∀ s : CksmState, s.task = none → cksm_run s envs = s := by
  induction envs with
  | nil => intro s _; rfl
  | cons e es ih =>
    intro s hs
    have : cksm_step s e = s := by unfold cksm_step; rw [hs]
    show cksm_run (cksm_step s e) es = s
    rw [this]; exact ih s hs

/-- The markers sent by the steps that follow a state: spaced by more than
`marker_freq` from the time in `t_lastmarker` on, with totals that do not decrease
from `total_bytes` on. -/
theorem cksm_run_markers (envs : List Md5StepEnv) :
    ∀ (s : CksmState), ∃ ext, (cksm_run s envs).calls = s.calls ++ ext
      ∧ ∀ t, s.task = some t → ∀ last,
          markers_ok t.marker_freq t.t_lastmarker t.total_bytes (markers last ext) := by
  induction envs with
  | nil => intro s; exact ⟨[], by simp [cksm_run], fun _ _ _ => trivial⟩
  | cons e es ih =>
    intro s
    obtain ⟨ext, he, hm⟩ := ih (cksm_step s e)
    cases hs : s.task with
    | none =>
      refine ⟨[], ?_, fun t ht => by simp at ht⟩
      rw [cksm_run_no_task _ s hs, List.append_nil]
    | some t =>
      have hstep : cksm_step s e
          = { task := (cksm_md5_cb e s.cksm t).task, cksm := (cksm_md5_cb e s.cksm t).cksm,
              calls := s.calls ++ (cksm_md5_cb e s.cksm t).calls } := by
        unfold cksm_step; rw [hs]
      refine ⟨(cksm_md5_cb e s.cksm t).calls ++ ext, ?_, ?_⟩
      · show (cksm_run (cksm_step s e) es).calls = _
        rw [he, hstep, List.append_assoc]
      · intro t' ht' last
        simp only [Option.some.injEq] at ht'
        subst ht'
        rw [markers_append]
        rw [hstep] at hm he
        simp only [] at hm he
        rcases cksm_md5_cb_markers e s.cksm t last with ⟨h1, h2⟩ | ⟨t1, h1, h2, h3, h4, h5, h6⟩
        · rw [h1, List.nil_append]
          cases htask : (cksm_md5_cb e s.cksm t).task with
          | none =>
            have hext : ext = [] := by
              have := cksm_run_no_task es (cksm_step s e) (by rw [hstep]; exact htask)
              rw [hstep] at this
              rw [this] at he
              exact (List.self_eq_append_right.mp he)
            rw [hext]; trivial
          | some t1 =>
            obtain ⟨e1, e2, e3⟩ := h2 t1 htask
            have := hm t1 htask (last_time last (cksm_md5_cb e s.cksm t).calls)
            rw [e1, e2] at this
            exact markers_ok_mono _ _ _ _ _ e3 this
        · rw [h2]
          have := hm t1 h1 (last_time last (cksm_md5_cb e s.cksm t).calls)
          rw [h3, h4] at this
          simp only [List.cons_append, List.nil_append, markers_ok]
          exact ⟨h5, h6, this⟩

/-- The function `globus_l_gfs_posix_cksm_md5` sends no marker; the task it schedules
has no byte counted, the update interval of the transport as `marker_freq` and the
time of the call as `t_lastmarker`. -/
theorem cksm_md5_markers (env : Md5Env) (cksm : List Char) (offset length : Int) :
    markers 0 (cksm_md5 env cksm offset length).calls = []
      ∧ ∀ t, (cksm_md5 env cksm offset length).task = some t →
          t.marker_freq = env.marker_freq ∧ t.t_lastmarker = env.now ∧ t.total_bytes = 0 := by
  unfold cksm_md5
  split
  · exact ⟨rfl, fun t ht => by simp at ht⟩
  · exact ⟨rfl, fun t ht => by simp at ht⟩
  · split_ifs
    · exact ⟨rfl, fun t ht => by simp at ht⟩
    · exact ⟨rfl, fun t ht => by simp at ht⟩
    all_goals
      refine ⟨rfl, fun t ht => ?_⟩
      simp only [Option.some.injEq] at ht
      subst ht
      exact ⟨rfl, rfl, rfl⟩

/-- A checksum of 4 bytes read in two steps, the second of which comes 11 seconds
after the start with a marker interval of 10 seconds: one marker, for 4 bytes. -/
theorem progress_marker_example :
    markers 0
        (cksm_run (cksm_init (md5_env 4) stale_cksm 0 4)
          [step_env 0 [1, 2], { step_env 0 [3, 4] with now := 111 }, step_env 0 []]).calls
      = [(111, 4)] := by
  decide

/-- C17. Over every run of the checksum steps that follows
`globus_l_gfs_posix_cksm_md5`, the progress notifications carry byte totals that do
not decrease, starting from 0, and the clock value of each one exceeds the clock
value of the one before, or of the task start for the first, by more than
`marker_freq` seconds. -/
theorem progress_markers_spaced_and_monotone (env : Md5Env) (cksm : List Char)
    (offset length : Int) (envs : List Md5StepEnv) :
    markers_ok env.marker_freq env.now 0
      (markers 0 (cksm_run (cksm_init env cksm offset length) envs).calls) := by
  obtain ⟨ext, he, hm⟩ := cksm_run_markers envs (cksm_init env cksm offset length)
  have hi := cksm_md5_markers env cksm offset length
  rw [he, markers_append]
  have hcalls : (cksm_init env cksm offset length).calls
      = (cksm_md5 env cksm offset length).calls := rfl
  have htask : (cksm_init env cksm offset length).task
      = (cksm_md5 env cksm offset length).task := rfl
  rw [hcalls, hi.1, List.nil_append]
  cases ht : (cksm_md5 env cksm offset length).task with
  | none =>
    have := cksm_run_no_task envs (cksm_init env cksm offset length) (by rw [htask]; exact ht)
    rw [this] at he
    rw [List.self_eq_append_right.mp he]
    trivial
  | some t =>
    obtain ⟨e1, e2, e3⟩ := hi.2 t ht
    have := hm t (by rw [htask]; exact ht) (last_time 0 (cksm_md5 env cksm offset length).calls)
    rw [e1, e2, e3] at this
    exact this

/-! ### The reports of a command -/

/-- The checksums of no data, of 1, 2, 3, 4 and of the text "Wikipedia". -/
theorem adler32_test_vectors :
    adler32 adler32_init [] = 1 ∧ hex8 (adler32 adler32_init [1, 2, 3, 4]) = "0018000b".data
      ∧ adler32 adler32_init [87, 105, 107, 105, 112, 101, 100, 105, 97] = 300286872 := by
  decide

/-- The function `globus_l_gfs_posix_cksm_adler32` returns `GLOBUS_SUCCESS` after one
report with success and a string, or `GLOBUS_FAILURE` without any report. -/
theorem cksm_adler32_reports (env : Adler32Env) (cksm : List Char) :
    ((cksm_adler32 env cksm).1 = Result.success
        ∧ ∃ str, finished_commands (cksm_adler32 env cksm).2.2
            = [(Result.success, some str)])
      ∨ ((cksm_adler32 env cksm).1 = Result.failure
        ∧ finished_commands (cksm_adler32 env cksm).2.2 = []) := by
  have hmap : ∀ (l : List (List Nat)) (fd : Int),
      finished_commands (l.map (fun _ => CmdCall.read fd 65536)) = [] := by
    intro l fd
    induction l with
    | nil => rfl
    | cons x xs ih => simpa [finished_commands] using ih
  unfold cksm_adler32
  split
  · right; exact ⟨rfl, rfl⟩
  · left; exact ⟨rfl, _, rfl⟩
  · split_ifs
    · right; exact ⟨rfl, rfl⟩
    · right; exact ⟨rfl, rfl⟩
    · left
      refine ⟨rfl, ?_⟩
      simp only [finished_commands_append, hmap]
      exact ⟨_, rfl⟩

/-- The function `globus_l_gfs_posix_cksm_md5` returns `GLOBUS_FAILURE` without any
report and without a task, or `GLOBUS_SUCCESS` either after one report with success
and a string (external helper) or with a task scheduled and no report. -/
theorem cksm_md5_reports (env : Md5Env) (cksm : List Char) (offset length : Int) :
    ((cksm_md5 env cksm offset length).rc = Result.failure
        ∧ (cksm_md5 env cksm offset length).task = none
        ∧ finished_commands (cksm_md5 env cksm offset length).calls = [])
      ∨ ((cksm_md5 env cksm offset length).rc = Result.success
        ∧ (cksm_md5 env cksm offset length).task = none
        ∧ ∃ str, finished_commands (cksm_md5 env cksm offset length).calls
            = [(Result.success, some str)])
      ∨ ((cksm_md5 env cksm offset length).rc = Result.success
        ∧ (cksm_md5 env cksm offset length).task ≠ none
        ∧ finished_commands (cksm_md5 env cksm offset length).calls = []) := by
  unfold cksm_md5
  split
  · left; exact ⟨rfl, rfl, rfl⟩
  · right; left; exact ⟨rfl, rfl, _, rfl⟩
  · split_ifs
    · left; exact ⟨rfl, rfl, rfl⟩
    · left; exact ⟨rfl, rfl, rfl⟩
    all_goals
      right; right
      exact ⟨rfl, by simp, rfl⟩

/-- A step reports exactly when it is the terminal one, and then frees the task. -/
theorem cksm_md5_cb_reports (env : Md5StepEnv) (cksm : List Char) (t : Md5Task) :
    ((cksm_md5_cb env cksm t).task = none
        ∧ ∃ str, finished_commands (cksm_md5_cb env cksm t).calls
            = [(Result.success, some str)])
      ∨ ((cksm_md5_cb env cksm t).task ≠ none
        ∧ finished_commands (cksm_md5_cb env cksm t).calls = []) := by
  unfold cksm_md5_cb
  simp only []
  split_ifs
  · left; exact ⟨rfl, _, rfl⟩
  all_goals
    right
    exact ⟨by simp, rfl⟩

/-- The steps that follow a state with a task report nothing as long as the task is
there, and have reported once, with success and a string, when it is gone. -/
theorem cksm_run_reports (envs : List Md5StepEnv) :
    ∀ s : CksmState, s.task ≠ none →
      ((cksm_run s envs).task ≠ none
          ∧ finished_commands (cksm_run s envs).calls = finished_commands s.calls)
        ∨ ((cksm_run s envs).task = none
          ∧ ∃ str, finished_commands (cksm_run s envs).calls
              = finished_commands s.calls ++ [(Result.success, some str)]) := by
  induction envs with
  | nil => intro s hs; left; exact ⟨hs, rfl⟩
  | cons e es ih =>
    intro s hs
    cases ht : s.task with
    | none => exact absurd ht hs
    | some t =>
      have hstep : cksm_step s e
          = { task := (cksm_md5_cb e s.cksm t).task, cksm := (cksm_md5_cb e s.cksm t).cksm,
              calls := s.calls ++ (cksm_md5_cb e s.cksm t).calls } := by
        unfold cksm_step; rw [ht]
      show ((cksm_run (cksm_step s e) es).task ≠ none ∧ _) ∨ _
      rcases cksm_md5_cb_reports e s.cksm t with ⟨h1, str, h2⟩ | ⟨h1, h2⟩
      · right
        have hnone := cksm_run_no_task es (cksm_step s e) (by rw [hstep]; exact h1)
        have hrun : cksm_run s (e :: es) = cksm_step s e := hnone
        rw [hrun, hstep]
        exact ⟨h1, str, by simp only []; rw [finished_commands_append, h2]⟩
      · have hcalls : finished_commands (cksm_step s e).calls = finished_commands s.calls := by
          rw [hstep]; simp only []; rw [finished_commands_append, h2, List.append_nil]
        have hrun : cksm_run s (e :: es) = cksm_run (cksm_step s e) es := rfl
        rcases ih (cksm_step s e) (by rw [hstep]; exact h1) with ⟨g1, g2⟩ | ⟨g1, str, g2⟩
        · left; exact ⟨g1, by rw [hrun, g2, hcalls]⟩
        · right; exact ⟨g1, str, by rw [hrun, g2, hcalls]⟩

/-- C18 (the code departs from the claim). A CKSM command with algorithm "md5" on a
regular file, without external helper: the handler schedules the checksum task and reports nothing;
when every `read` of the steps fails with `EIO`, each step sleeps and schedules itself
again, and no `globus_gridftp_server_finished_command` is issued after any number of
steps. -/
theorem md5_command_without_report :
    (command_switch Command.CKSM "md5" 0 4 (command_env 0) stale_cksm).rc = Result.success
      ∧ ∀ n, finished_commands
          (cksm_run (command Command.CKSM "md5" 0 4 (command_env 0) stale_cksm)
            (List.replicate n step_env_eio)).calls = [] := by
  refine ⟨by decide, ?_⟩
  intro n
  have := cksm_run_stalled
    { c := [], fd := 7, fsize := 4, blocksize := 4194304, offset := 0,
      length := 4, total_bytes := 0, marker_freq := 10, t_lastmarker := 100 }
    (by decide) step_env_eio (Or.inl rfl) n
    (command Command.CKSM "md5" 0 4 (command_env 0) stale_cksm) (by decide)
  rw [this.2]
  decide

/-- The reports of a command handled by `globus_l_gfs_posix_command`, followed by any
number of steps of the checksum task it may have scheduled:
for a command other than CKSM the handler issues exactly one
`globus_gridftp_server_finished_command`, with the result of the command and no
payload, and an unknown command is reported as a failure; for CKSM, every algorithm
name other than "adler32", "ADLER32", "md5", "MD5" makes the result a failure, a
failure of the checksum routine is reported once by the handler, as a failure without
payload, and after a success of the routine either exactly one report has been
issued, with success and a digest string, and no task is left, or the MD5 task is
still scheduled and nothing has been reported yet. -/
theorem command_reports (cmd : Command) (cksm_alg : String) (cksm_offset cksm_length : Int)
    (env : CommandEnv) (cksm : List Char) (envs : List Md5StepEnv) :
    (cmd ≠ Command.CKSM →
        finished_commands
            (cksm_run (command cmd cksm_alg cksm_offset cksm_length env cksm) envs).calls
          = [((command_switch cmd cksm_alg cksm_offset cksm_length env cksm).rc, none)]
        ∧ (cmd = Command.other →
            (command_switch cmd cksm_alg cksm_offset cksm_length env cksm).rc
              = Result.failure))
      ∧ (cmd = Command.CKSM →
        ((cksm_alg ≠ "adler32" ∧ cksm_alg ≠ "ADLER32" ∧ cksm_alg ≠ "md5"
            ∧ cksm_alg ≠ "MD5") →
          (command_switch cmd cksm_alg cksm_offset cksm_length env cksm).rc = Result.failure)
        ∧ ((command_switch cmd cksm_alg cksm_offset cksm_length env cksm).rc
              ≠ Result.success →
            finished_commands
                (cksm_run (command cmd cksm_alg cksm_offset cksm_length env cksm) envs).calls
              = [(Result.failure, none)])
        ∧ ((command_switch cmd cksm_alg cksm_offset cksm_length env cksm).rc
              = Result.success →
            ((cksm_run (command cmd cksm_alg cksm_offset cksm_length env cksm) envs).task
                  = none
                ∧ ∃ str, finished_commands
                    (cksm_run (command cmd cksm_alg cksm_offset cksm_length env cksm)
                      envs).calls = [(Result.success, some str)])
              ∨ ((cksm_run (command cmd cksm_alg cksm_offset cksm_length env cksm) envs).task
                  ≠ none
                ∧ finished_commands
                    (cksm_run (command cmd cksm_alg cksm_offset cksm_length env cksm)
                      envs).calls = []))) := by
  constructor
  · intro hne
    have hswitch : (command_switch cmd cksm_alg cksm_offset cksm_length env cksm).task = none
        ∧ finished_commands
            (command_switch cmd cksm_alg cksm_offset cksm_length env cksm).calls = [] := by
      cases cmd <;> first | exact absurd rfl hne | exact ⟨rfl, rfl⟩
    have hcmd : command cmd cksm_alg cksm_offset cksm_length env cksm
        = { task := none,
            cksm := (command_switch cmd cksm_alg cksm_offset cksm_length env cksm).cksm,
            calls := (command_switch cmd cksm_alg cksm_offset cksm_length env cksm).calls
              ++ [CmdCall.finished_command
                    (command_switch cmd cksm_alg cksm_offset cksm_length env cksm).rc
                    none] } := by
      unfold command
      simp only [hne, ne_eq, not_false_eq_true, or_true, if_true, hswitch.1]
    refine ⟨?_, ?_⟩
    · rw [cksm_run_no_task envs _ (by rw [hcmd]), hcmd]
      simp only []
      rw [finished_commands_append, hswitch.2]
      rfl
    · intro ho; subst ho; rfl
  · intro hc
    subst hc
    refine ⟨?_, ?_, ?_⟩
    · rintro ⟨h1, h2, h3, h4⟩
      simp [command_switch, h1, h2, h3, h4]
    · intro hrc
      have hsw : (command_switch Command.CKSM cksm_alg cksm_offset cksm_length env cksm).rc
            = Result.failure
          ∧ (command_switch Command.CKSM cksm_alg cksm_offset cksm_length env cksm).task
            = none
          ∧ finished_commands
              (command_switch Command.CKSM cksm_alg cksm_offset cksm_length env cksm).calls
            = [] := by
        unfold command_switch at hrc ⊢
        simp only [] at hrc ⊢
        split_ifs at hrc ⊢ with ha hm
        · rcases cksm_adler32_reports env.adler cksm with ⟨h1, _⟩ | ⟨h1, h2⟩
          · exact absurd h1 hrc
          · exact ⟨h1, rfl, h2⟩
        · rcases cksm_md5_reports env.md5 cksm cksm_offset cksm_length with
            ⟨h1, h2, h3⟩ | ⟨h1, _⟩ | ⟨h1, _⟩
          · exact ⟨h1, h2, h3⟩
          · exact absurd h1 hrc
          · exact absurd h1 hrc
        · exact ⟨rfl, rfl, rfl⟩
      have hcmd : command Command.CKSM cksm_alg cksm_offset cksm_length env cksm
          = { task := none,
              cksm := (command_switch Command.CKSM cksm_alg cksm_offset cksm_length env
                cksm).cksm,
              calls := (command_switch Command.CKSM cksm_alg cksm_offset cksm_length env
                  cksm).calls ++ [CmdCall.finished_command Result.failure none] } := by
        unfold command
        simp only []
        rw [if_pos (Or.inl hrc), hsw.2.1, hsw.1]
      rw [cksm_run_no_task envs _ (by rw [hcmd]), hcmd]
      simp only []
      rw [finished_commands_append, hsw.2.2]
      rfl
    · intro hrc
      have hcmd : command Command.CKSM cksm_alg cksm_offset cksm_length env cksm
          = { task := (command_switch Command.CKSM cksm_alg cksm_offset cksm_length env
                cksm).task,
              cksm := (command_switch Command.CKSM cksm_alg cksm_offset cksm_length env
                cksm).cksm,
              calls := (command_switch Command.CKSM cksm_alg cksm_offset cksm_length env
                cksm).calls } := by
        unfold command
        simp [hrc]
      have hsw : ((command_switch Command.CKSM cksm_alg cksm_offset cksm_length env
              cksm).task = none
            ∧ ∃ str, finished_commands
                (command_switch Command.CKSM cksm_alg cksm_offset cksm_length env cksm).calls
              = [(Result.success, some str)])
          ∨ ((command_switch Command.CKSM cksm_alg cksm_offset cksm_length env cksm).task
              ≠ none
            ∧ finished_commands
                (command_switch Command.CKSM cksm_alg cksm_offset cksm_length env cksm).calls
              = []) := by
        unfold command_switch at hrc ⊢
        simp only [] at hrc ⊢
        split_ifs at hrc ⊢ with ha hm
        · rcases cksm_adler32_reports env.adler cksm with ⟨_, h2⟩ | ⟨h1, _⟩
          · left; exact ⟨rfl, h2⟩
          · rw [h1] at hrc; exact Result.noConfusion hrc
        · rcases cksm_md5_reports env.md5 cksm cksm_offset cksm_length with
            ⟨h1, _⟩ | ⟨_, h2, h3⟩ | ⟨_, h2, h3⟩
          · rw [h1] at hrc; exact Result.noConfusion hrc
          · left; exact ⟨h2, h3⟩
          · right; exact ⟨h2, h3⟩
      rcases hsw with ⟨h1, str, h2⟩ | ⟨h1, h2⟩
      · left
        rw [cksm_run_no_task envs _ (by rw [hcmd]; exact h1), hcmd]
        exact ⟨h1, str, h2⟩
      · rcases cksm_run_reports envs
            (command Command.CKSM cksm_alg cksm_offset cksm_length env cksm)
            (by rw [hcmd]; exact h1) with ⟨g1, g2⟩ | ⟨g1, str, g2⟩
        · right
          refine ⟨g1, ?_⟩
          rw [g2, hcmd]; exact h2
        · left
          refine ⟨g1, str, ?_⟩
          rw [g2, hcmd]
          simp only []
          rw [h2]; rfl

/-- The reports of three commands: MKD whose `mkdir` fails, CKSM with the algorithm
name "sha1", and CKSM with "md5" on a file of 4 bytes read in one step. -/
theorem command_reports_witness :
    (finished_commands
        (cksm_run (command Command.MKD "" 0 0 (command_env (-1)) stale_cksm) []).calls
          = [((command_switch Command.MKD "" 0 0 (command_env (-1)) stale_cksm).rc, none)]
        ∧ (Command.MKD = Command.other →
            (command_switch Command.MKD "" 0 0 (command_env (-1)) stale_cksm).rc
              = Result.failure))
      ∧ (command_switch Command.CKSM "sha1" 0 4 (command_env 0) stale_cksm).rc
          = Result.failure
      ∧ finished_commands
          (cksm_run (command Command.CKSM "sha1" 0 4 (command_env 0) stale_cksm) []).calls
        = [(Result.failure, none)]
      ∧ (((cksm_run (command Command.CKSM "md5" 0 4 (command_env 0) stale_cksm)
              [step_env 0 [1, 2, 3, 4], step_env 0 []]).task = none
          ∧ ∃ str, finished_commands
              (cksm_run (command Command.CKSM "md5" 0 4 (command_env 0) stale_cksm)
                [step_env 0 [1, 2, 3, 4], step_env 0 []]).calls
              = [(Result.success, some str)])
        ∨ ((cksm_run (command Command.CKSM "md5" 0 4 (command_env 0) stale_cksm)
              [step_env 0 [1, 2, 3, 4], step_env 0 []]).task ≠ none
          ∧ finished_commands
              (cksm_run (command Command.CKSM "md5" 0 4 (command_env 0) stale_cksm)
                [step_env 0 [1, 2, 3, 4], step_env 0 []]).calls = [])) :=
  ⟨(command_reports Command.MKD "" 0 0 (command_env (-1)) stale_cksm []).1 (by decide),
   ((command_reports Command.CKSM "sha1" 0 4 (command_env 0) stale_cksm []).2 rfl).1
      (by decide),
   ((command_reports Command.CKSM "sha1" 0 4 (command_env 0) stale_cksm []).2 rfl).2.1
      (by decide),
   ((command_reports Command.CKSM "md5" 0 4 (command_env 0) stale_cksm
      [step_env 0 [1, 2, 3, 4], step_env 0 []]).2 rfl).2.2 (by decide)⟩

/-! ## Checksum steps, paths, descriptors and ranges -/

/-! ### One step of the checksum -/

/-- C21. One run of `globus_l_gfs_posix_cksm_md5_cb` calls `read` at most once. With
`length != 0` it calls `read` once, for `md5_read_count` bytes, reports no result and
registers itself once more, whatever `read` returns; when `read` fails or returns no
byte the task it registers is the task it was given (`length`, `offset`,
`total_bytes` and the digest state `c` included). With `length == 0` it calls no
`read`, registers nothing and frees the task. -/
theorem step_reads_once_and_reschedules (env : Md5StepEnv) (cksm : List Char) (t : Md5Task) :
    (cmd_read_counts (cksm_md5_cb env cksm t).calls).length ≤ 1
      ∧ (t.length ≠ 0 →
          cmd_read_counts (cksm_md5_cb env cksm t).calls = [md5_read_count t]
            ∧ oneshots (cksm_md5_cb env cksm t).calls = 1
            ∧ (cksm_md5_cb env cksm t).calls.getLast? = some CmdCall.register_oneshot
            ∧ (cksm_md5_cb env cksm t).task.isSome = true
            ∧ finished_commands (cksm_md5_cb env cksm t).calls = [])
      ∧ (t.length ≠ 0 → (env.read_data = none ∨ env.read_data = some []) →
          (cksm_md5_cb env cksm t).task = some t)
      ∧ (t.length = 0 →
          cmd_read_counts (cksm_md5_cb env cksm t).calls = []
            ∧ oneshots (cksm_md5_cb env cksm t).calls = 0
            ∧ (cksm_md5_cb env cksm t).task = none) := by
  refine ⟨?_, ?_, ?_, ?_⟩
  · unfold cksm_md5_cb
    simp only []
    split_ifs <;> simp [cmd_read_counts]
  · intro ht
    unfold cksm_md5_cb
    simp only [ht, if_false]
    split_ifs <;> simp [cmd_read_counts, oneshots, finished_commands]
  · intro ht he
    unfold cksm_md5_cb
    rcases he with he | he <;> simp [ht, he]
  · intro ht
    unfold cksm_md5_cb
    simp [ht, cmd_read_counts, oneshots]

/-- C21, on a task with 4 bytes left whose `read` fails with `EIO`, and on a task with
nothing left. -/
theorem step_reads_once_and_reschedules_witness :
    ((md5_task [] 4).length ≠ 0
        ∧ (step_env_eio.read_data = none ∨ step_env_eio.read_data = some [])
        ∧ (cksm_md5_cb step_env_eio stale_cksm (md5_task [] 4)).task = some (md5_task [] 4))
      ∧ ((md5_task [] 4).length ≠ 0
        ∧ cmd_read_counts (cksm_md5_cb step_env_eio stale_cksm (md5_task [] 4)).calls
            = [md5_read_count (md5_task [] 4)]
        ∧ oneshots (cksm_md5_cb step_env_eio stale_cksm (md5_task [] 4)).calls = 1)
      ∧ ((md5_task [1, 2] 0).length = 0
        ∧ oneshots (cksm_md5_cb (step_env 0 []) stale_cksm (md5_task [1, 2] 0)).calls = 0) :=
  ⟨⟨by decide, Or.inl rfl,
      (step_reads_once_and_reschedules step_env_eio stale_cksm (md5_task [] 4)).2.2.1
        (by decide) (Or.inl rfl)⟩,
   ⟨by decide,
      ((step_reads_once_and_reschedules step_env_eio stale_cksm (md5_task [] 4)).2.1
        (by decide)).1,
      ((step_reads_once_and_reschedules step_env_eio stale_cksm (md5_task [] 4)).2.1
        (by decide)).2.1⟩,
   ⟨by decide,
      ((step_reads_once_and_reschedules (step_env 0 []) stale_cksm (md5_task [1, 2] 0)).2.2.2
        (by decide)).2.1⟩⟩

/-! ### Path normalisation -/

theorem skip_leading_slashes_cons_cons (t : List Char) :
    skip_leading_slashes ('/' :: '/' :: t) = skip_leading_slashes ('/' :: t) := by
  rw [skip_leading_slashes]; simp

theorem skip_leading_slashes_of_not_two (p : List Char) (h : ¬ (['/', '/'] <+: p)) :
    skip_leading_slashes p = p := by
  cases p with
  | nil => rfl
  | cons c t =>
    rw [skip_leading_slashes]
    split_ifs with hc
    · exfalso
      apply h
      obtain ⟨h1, h2⟩ := hc
      cases t with
      | nil => simp at h2
      | cons d u =>
        simp at h2
        subst h1; subst h2
        exact ⟨u, rfl⟩
    · rfl

theorem skip_leading_slashes_removes (p : List Char) :
    ∃ n, p = List.replicate n '/' ++ skip_leading_slashes p := by
  induction p with
  | nil => exact ⟨0, rfl⟩
  | cons c t ih =>
    rw [skip_leading_slashes]
    split_ifs with hc
    · obtain ⟨n, hn⟩ := ih
      refine ⟨n + 1, ?_⟩
      rw [List.replicate_succ, List.cons_append, ← hn, hc.1]
    · exact ⟨0, rfl⟩

theorem skip_leading_slashes_not_two (p : List Char) :
    ¬ (['/', '/'] <+: skip_leading_slashes p) := by
  induction p with
  | nil => simp [skip_leading_slashes]
  | cons c t ih =>
    rw [skip_leading_slashes]
    split_ifs with hc
    · exact ih
    · rintro ⟨u, hu⟩
      apply hc
      simp at hu
      obtain ⟨h1, h2⟩ := hu
      subst h1; subst h2
      simp

/-- The refill loop of the receive path changes no field of the handle other than
`outstanding`. -/
theorem write_to_storage_loop_frame (env : Nat → IssueEnv) :
    ∀ (fuel i : Nat) (h : Handle),
      (write_to_storage_loop env fuel i h).1.pathname = h.pathname
        ∧ (write_to_storage_loop env fuel i h).1.seekable = h.seekable
        ∧ (write_to_storage_loop env fuel i h).1.fd = h.fd
        ∧ (write_to_storage_loop env fuel i h).1.done = h.done := by
  intro fuel
  induction fuel with
  | zero => intro i h; simp [write_to_storage_loop]
  | succ n ih =>
    intro i h
    unfold write_to_storage_loop
    split_ifs
    · simp
    · simp
    · exact ih (i + 1) { h with outstanding := h.outstanding + 1 }
    · simp

theorem write_to_storage_frame (opt : Int) (env : Nat → IssueEnv) (h : Handle) :
    (write_to_storage opt env h).1.pathname = h.pathname
      ∧ (write_to_storage opt env h).1.seekable = h.seekable
      ∧ (write_to_storage opt env h).1.fd = h.fd
      ∧ (write_to_storage opt env h).1.done = h.done := by
  unfold write_to_storage
  exact write_to_storage_loop_frame env _ 0 { h with optimal_count := opt }

/-- The refill loop of the send path leaves `pathname`, `seekable` and `fd` alone. -/
theorem read_from_storage_loop_frame (env : Nat → SendIssueEnv) :
    ∀ (fuel i : Nat) (h : Handle),
      (read_from_storage_loop env fuel i h).1.pathname = h.pathname
        ∧ (read_from_storage_loop env fuel i h).1.seekable = h.seekable
        ∧ (read_from_storage_loop env fuel i h).1.fd = h.fd := by
  intro fuel
  induction fuel with
  | zero => intro i h; simp [read_from_storage_loop]
  | succ n ih =>
    intro i h
    unfold read_from_storage_loop
    simp only []
    split_ifs
    · simp
    · exact ih (i + 1) { h with done := true }
    · exact ih (i + 1) _
    · exact ih (i + 1) _
    · simp

theorem read_from_storage_frame (env : ReadEnv) (h : Handle) :
    (read_from_storage env h).1.pathname = h.pathname
      ∧ (read_from_storage env h).1.seekable = h.seekable
      ∧ (read_from_storage env h).1.fd = h.fd := by
  unfold read_from_storage
  simp only []
  split_ifs <;> exact read_from_storage_loop_frame env.issue _ 0 h

/-- The path `globus_l_gfs_posix_recv` stores in the handle. -/
theorem recv_pathname (p : String) (env : RecvEnv) (h : Handle) :
    (recv p env h).1.pathname = normalize_path p := by
  unfold recv
  simp only []
  cases env.quota_msg with
  | some msg => rfl
  | none =>
    simp only []
    rw [(write_to_storage_frame _ _ _).1]
    split_ifs <;> rfl

/-- The path `globus_l_gfs_posix_send` stores in the handle. -/
theorem send_pathname (p : String) (env : SendEnv) (h : Handle) :
    (send p env h).1.pathname = normalize_path p := by
  unfold send
  simp only []
  rw [(read_from_storage_frame _ _).1]

/-- C24. The loop `while (p[0] == '/' && p[1] == '/') p++;` of the entry points, on
every path: the value is the path without some number of `/` characters from its
start, hence a suffix of the path; it does not begin with `//`; it is the path itself
when the path does not begin with `//`; and the loop applied to its own value changes
nothing. `globus_l_gfs_posix_recv` and `globus_l_gfs_posix_send` store this value
as the `pathname` of the handle. -/
theorem normalisation_drops_leading_slashes (p : String) :
    (∃ n, p.data = List.replicate n '/' ++ (normalize_path p).data)
      ∧ (normalize_path p).data <:+ p.data
      ∧ ¬ (['/', '/'] <+: (normalize_path p).data)
      ∧ (¬ (['/', '/'] <+: p.data) → normalize_path p = p)
      ∧ normalize_path (normalize_path p) = normalize_path p
      ∧ (∀ (env : RecvEnv) (h : Handle), (recv p env h).1.pathname = normalize_path p)
      ∧ (∀ (env : SendEnv) (h : Handle), (send p env h).1.pathname = normalize_path p) := by
  refine ⟨skip_leading_slashes_removes p.data, ?_, skip_leading_slashes_not_two p.data,
    ?_, ?_, recv_pathname p, send_pathname p⟩
  · obtain ⟨n, hn⟩ := skip_leading_slashes_removes p.data
    exact ⟨List.replicate n '/', hn.symm⟩
  · intro h
    unfold normalize_path
    rw [skip_leading_slashes_of_not_two p.data h]
  · unfold normalize_path
    rw [skip_leading_slashes_of_not_two _ (skip_leading_slashes_not_two p.data)]

/-- C24, on the paths `///data//file` and `/data//file`. -/
theorem normalisation_drops_leading_slashes_witness :
    normalize_path "///data//file" = "/data//file"
      ∧ ¬ (['/', '/'] <+: "/data//file".data)
      ∧ normalize_path "/data//file" = "/data//file" :=
  ⟨by decide, by decide,
   (normalisation_drops_leading_slashes "/data//file").2.2.2.1 (by decide)⟩

/-! ### Seeking in a receive completion -/

/-- The refill loop of the receive path calls neither `open` nor `lseek` nor `write`. -/
theorem write_to_storage_loop_calls (env : Nat → IssueEnv) :
    ∀ (fuel i : Nat) (h : Handle),
      (write_to_storage_loop env fuel i h).2.all
        (fun c => !c.is_lseek && !c.is_write && !c.is_open) = true := by
  intro fuel
  induction fuel with
  | zero => intro i h; simp [write_to_storage_loop]
  | succ n ih =>
    intro i h
    unfold write_to_storage_loop
    split_ifs
    · simp [Call.is_lseek, Call.is_write, Call.is_open]
    · simp [Call.is_lseek, Call.is_write, Call.is_open]
    · have := ih (i + 1) { h with outstanding := h.outstanding + 1 }
      simpa [Call.is_lseek, Call.is_write, Call.is_open] using this
    · simp

/-- The end of the callback calls neither `lseek` nor `write`. -/
theorem complete_calls (env : WriteCbEnv) (rc : Result) (h : Handle) :
    (complete env rc h).2.all (fun c => !c.is_lseek && !c.is_write && !c.is_open) = true := by
  unfold complete
  simp only []
  split_ifs
  · exact write_to_storage_loop_calls env.issue _ 0 _
  all_goals simp [Call.is_lseek, Call.is_write, Call.is_open]

theorem filter_eq_nil_of_all (p q : Call → Bool) (l : List Call)
    (h : l.all q = true) (hpq : ∀ c, q c = true → p c = false) : l.filter p = [] := by
  rw [List.filter_eq_nil_iff]
  intro c hc
  rw [List.all_eq_true] at h
  simp [hpq c (h c hc)]

theorem complete_no_lseek (env : WriteCbEnv) (rc : Result) (h : Handle) :
    (complete env rc h).2.filter Call.is_lseek = [] :=
  filter_eq_nil_of_all _ _ _ (complete_calls env rc h) (fun c hc => by
    cases c <;> simp_all [Call.is_lseek, Call.is_write, Call.is_open])

theorem complete_no_write (env : WriteCbEnv) (rc : Result) (h : Handle) :
    (complete env rc h).2.filter Call.is_write = [] :=
  filter_eq_nil_of_all _ _ _ (complete_calls env rc h) (fun c hc => by
    cases c <;> simp_all [Call.is_lseek, Call.is_write, Call.is_open])

/-- The callback leaves `seekable`, `pathname` and `fd` alone. -/
theorem write_to_storage_cb_frame (result : Result) (nbytes : Nat) (offset : Int) (eof : Bool)
    (env : WriteCbEnv) (h : Handle) :
    (write_to_storage_cb result nbytes offset eof env h).1.seekable = h.seekable
      ∧ (write_to_storage_cb result nbytes offset eof env h).1.pathname = h.pathname
      ∧ (write_to_storage_cb result nbytes offset eof env h).1.fd = h.fd := by
  have hc : (classify result eof h).2.seekable = h.seekable
      ∧ (classify result eof h).2.pathname = h.pathname
      ∧ (classify result eof h).2.fd = h.fd := by
    unfold classify; split_ifs <;> simp
  have hb : ∀ (rc : Result) (g : Handle),
      (write_block nbytes offset env rc g).2.1.seekable = g.seekable
        ∧ (write_block nbytes offset env rc g).2.1.pathname = g.pathname
        ∧ (write_block nbytes offset env rc g).2.1.fd = g.fd := by
    intro rc g; unfold write_block; simp only []; split_ifs <;> simp
  have hk : ∀ (rc : Result) (g : Handle),
      (complete env rc g).1.seekable = g.seekable
        ∧ (complete env rc g).1.pathname = g.pathname
        ∧ (complete env rc g).1.fd = g.fd := by
    intro rc g
    unfold complete
    simp only []
    split_ifs
    · have := write_to_storage_frame env.opt env.issue { g with outstanding := g.outstanding - 1 }
      exact ⟨this.2.1, this.1, this.2.2.1⟩
    all_goals simp
  unfold write_to_storage_cb
  simp only []
  refine ⟨?_, ?_, ?_⟩
  · rw [(hk _ _).1, (hb _ _).1, hc.1]
  · rw [(hk _ _).2.1, (hb _ _).2.1, hc.2.1]
  · rw [(hk _ _).2.2, (hb _ _).2.2, hc.2.2]

theorem recv_init_seekable (pathname : String) (env : RecvEnv) (h : Handle) :
    RecvSeekable pathname (recv_init pathname env h) := by
  unfold RecvSeekable recv_init recv
  simp only []
  cases env.quota_msg with
  | some msg => left; simp [registered, Call.registers]
  | none =>
    right
    simp only []
    rw [(write_to_storage_frame _ _ _).2.1]
    split_ifs <;> simp_all

theorem recv_step_seekable (pathname : String) (s : Sys) (c : RecvCompletion)
    (hs : RecvSeekable pathname s) : RecvSeekable pathname (recv_step s c) := by
  unfold recv_step
  split_ifs with hp
  · exact hs
  · rcases hs with hs | hs
    · exact absurd hs hp
    · right
      simp only []
      rw [(write_to_storage_cb_frame _ _ _ _ _ _).1, hs]

theorem recv_run_seekable (pathname : String) (cs : List RecvCompletion) :
    ∀ s : Sys, RecvSeekable pathname s → RecvSeekable pathname (recv_run s cs) := by
  induction cs with
  | nil => intro s hs; exact hs
  | cons c cs ih => intro s hs; exact ih (recv_step s c) (recv_step_seekable pathname s c hs)

/-- The block `if (nbytes > 0)` with `nbytes > 0`: one `lseek`, to `offset`, on a
seekable handle, none on another. -/
theorem write_block_lseek (nbytes : Nat) (offset : Int) (env : WriteCbEnv) (rc : Result)
    (h : Handle) (hn : 0 < nbytes) :
    (write_block nbytes offset env rc h).2.2.filter Call.is_lseek
      = if h.seekable = true then [Call.lseek h.fd offset env.lseek_ret] else [] := by
  unfold write_block
  simp only [hn, if_true]
  by_cases hs : h.seekable = true
  · by_cases hl : env.lseek_ret = offset
    · by_cases hw : to_size_t env.write_ret < nbytes <;>
        simp [hs, hl, hw, Call.is_lseek]
    · simp [hs, hl, Call.is_lseek]
  · by_cases hw : to_size_t env.write_ret < nbytes <;>
      simp [hs, hw, Call.is_lseek]

/-- The block `if (nbytes > 0)` when the seek does not return `offset`. -/
theorem write_block_seek_mismatch (nbytes : Nat) (offset : Int) (env : WriteCbEnv)
    (rc : Result) (h : Handle) (hn : 0 < nbytes) (hs : h.seekable = true)
    (hl : env.lseek_ret ≠ offset) :
    write_block nbytes offset env rc h
      = (Result.system "lseek" env.lseek_errno, { h with done := true },
          [Call.lseek h.fd offset env.lseek_ret]) := by
  unfold write_block
  simp [hn, hs, hl]

/-- C22. A receive completion with `nbytes > 0` that the transport delivers in a
transfer started by `globus_l_gfs_posix_recv` for `pathname`. The handle is not
seekable exactly when the normalised path is `/dev/null`. The callback calls `lseek`
once, to the offset of the completion, when the handle is seekable, and not at all
when it is not. When the handle is seekable and `lseek` returns a position other than
the offset: the callback calls no `write`, reports no range as written, leaves `done`
true, and the result `rc` of its block is the system error of `lseek` with the
`errno` found; this is the result it reports when no other operation is outstanding
and `close` succeeds. -/
theorem seek_iff_seekable (pathname : String) (env : RecvEnv) (h0 : Handle)
    (cs : List RecvCompletion) (s : Sys) (c : RecvCompletion)
    (hs : s = recv_run (recv_init pathname env h0) cs) (hp : 0 < s.pending)
    (hn : 0 < c.nbytes) :
    (s.h.seekable = false ↔ normalize_path pathname = "/dev/null")
      ∧ (write_to_storage_cb c.result c.nbytes c.offset c.eof c.env s.h).2.filter Call.is_lseek
          = (if s.h.seekable = true then [Call.lseek s.h.fd c.offset c.env.lseek_ret] else [])
      ∧ (s.h.seekable = true → c.env.lseek_ret ≠ c.offset →
          (write_to_storage_cb c.result c.nbytes c.offset c.eof c.env s.h).2.filter
              Call.is_write = []
            ∧ reported_ranges
                (write_to_storage_cb c.result c.nbytes c.offset c.eof c.env s.h).2 = []
            ∧ (write_to_storage_cb c.result c.nbytes c.offset c.eof c.env s.h).1.done = true
            ∧ (write_block c.nbytes c.offset c.env (classify c.result c.eof s.h).1
                (classify c.result c.eof s.h).2).1 = Result.system "lseek" c.env.lseek_errno
            ∧ (s.h.outstanding = 1 → c.env.close_ret ≠ -1 →
                finished_results
                    (write_to_storage_cb c.result c.nbytes c.offset c.eof c.env s.h).2
                  = [Result.system "lseek" c.env.lseek_errno])) := by
  have hinv : RecvSeekable pathname s := by
    rw [hs]; exact recv_run_seekable pathname cs _ (recv_init_seekable pathname env h0)
  have hseek : s.h.seekable = (if normalize_path pathname = "/dev/null" then false else true) := by
    rcases hinv with h | h
    · omega
    · exact h
  have hcs : (classify c.result c.eof s.h).2.seekable = s.h.seekable
      ∧ (classify c.result c.eof s.h).2.fd = s.h.fd
      ∧ (classify c.result c.eof s.h).2.outstanding = s.h.outstanding := by
    unfold classify; split_ifs <;> simp
  refine ⟨?_, ?_, ?_⟩
  · rw [hseek]; split_ifs with hpn <;> simp [hpn]
  · unfold write_to_storage_cb
    simp only []
    rw [List.filter_append, complete_no_lseek, List.append_nil,
      write_block_lseek _ _ _ _ _ hn, hcs.1, hcs.2.1]
  · intro hsk hl
    have hb := write_block_seek_mismatch c.nbytes c.offset c.env (classify c.result c.eof s.h).1
      (classify c.result c.eof s.h).2 hn (by rw [hcs.1]; exact hsk) hl
    have hrep := write_to_storage_cb_reported_ranges c.result c.nbytes c.offset c.eof c.env s.h
    refine ⟨?_, ?_, ?_, ?_, ?_⟩
    · unfold write_to_storage_cb
      simp only []
      rw [List.filter_append, complete_no_write, List.append_nil, hb]
      simp [Call.is_write]
    · rw [hrep]; simp [hsk, hl]
    · unfold write_to_storage_cb
      simp only []
      rw [hb]
      exact (complete_of_done c.env _ _ rfl).1
    · rw [hb]
    · intro ho hcl
      unfold write_to_storage_cb
      simp only []
      rw [hb, finished_results_append]
      unfold complete
      simp [hcs.2.2, ho, hcl, finished_results]

/-- C22, on a receive of `/data/file` (seekable: the completion of 4 bytes at offset 0
seeks, `lseek` fails, nothing is written) and on a receive of `//dev/null` (not
seekable: the same completion does not seek). -/
theorem seek_iff_seekable_witness :
    (0 < (recv_run (recv_init "/data/file" (recv_env 5 0 2) Handle.start) []).pending
        ∧ 0 < completion_seek_error.nbytes
        ∧ (recv_run (recv_init "/data/file" (recv_env 5 0 2) Handle.start) []).h.seekable = true
        ∧ completion_seek_error.env.lseek_ret ≠ completion_seek_error.offset
        ∧ (write_to_storage_cb completion_seek_error.result completion_seek_error.nbytes
              completion_seek_error.offset completion_seek_error.eof completion_seek_error.env
              (recv_run (recv_init "/data/file" (recv_env 5 0 2) Handle.start) []).h).2.filter
            Call.is_write = [])
      ∧ (0 < (recv_run (recv_init "//dev/null" (recv_env 5 0 2) Handle.start) []).pending
        ∧ ((recv_run (recv_init "//dev/null" (recv_env 5 0 2) Handle.start) []).h.seekable = false
            ↔ normalize_path "//dev/null" = "/dev/null")) :=
  ⟨⟨by decide, by decide, by decide, by decide,
      ((seek_iff_seekable "/data/file" (recv_env 5 0 2) Handle.start [] _ completion_seek_error
        rfl (by decide) (by decide)).2.2 (by decide) (by decide)).1⟩,
   ⟨by decide,
      (seek_iff_seekable "//dev/null" (recv_env 5 0 2) Handle.start [] _ completion_seek_error
        rfl (by decide) (by decide)).1⟩⟩

/-- How the callback treats the two kinds of target. -/
theorem seek_examples :
    (write_to_storage_cb completion_seek_error.result completion_seek_error.nbytes
          completion_seek_error.offset completion_seek_error.eof completion_seek_error.env
          (recv_init "/data/file" (recv_env 5 0 2) Handle.start).h).2
        = [Call.lseek 5 0 (-1)]
      ∧ (write_to_storage_cb completion_seek_error.result completion_seek_error.nbytes
          completion_seek_error.offset completion_seek_error.eof completion_seek_error.env
          (recv_init "//dev/null" (recv_env 5 0 2) Handle.start).h).2
        = [Call.write 5 4 4, Call.update_bytes_written 0 4, Call.register_read 4 true] := by
  decide

/-! ### The descriptor of a receive -/

/-- The descriptor after `globus_l_gfs_posix_recv`, when the quota check lets the
transfer go on: the result of an `open` without `O_CREAT` when `stat` succeeds, of an
`open` with `O_CREAT` when `stat` fails with `ENOENT`, and the descriptor the handle
held before the call, without any `open`, when `stat` fails with another error. -/
theorem recv_descriptor (p : String) (env : RecvEnv) (h : Handle)
    (hq : env.quota_msg = none) :
    (env.stat_ret = 0 →
        (recv p env h).1.fd = env.open_ret
          ∧ (recv p env h).2.filter Call.is_open
              = [Call.posix_open ((env.cgi_filename).getD (normalize_path p)) false env.open_ret])
      ∧ (env.stat_ret ≠ 0 → env.stat_errno = ENOENT →
        (recv p env h).1.fd = env.open_ret
          ∧ (recv p env h).2.filter Call.is_open
              = [Call.posix_open ((env.cgi_filename).getD (normalize_path p)) true env.open_ret])
      ∧ (env.stat_ret ≠ 0 → env.stat_errno ≠ ENOENT →
        (recv p env h).1.fd = h.fd ∧ (recv p env h).2.filter Call.is_open = []) := by
  have hw : ∀ g : Handle, (write_to_storage env.opt env.issue g).2.filter Call.is_open = [] := by
    intro g
    exact filter_eq_nil_of_all _ _ _ (write_to_storage_loop_calls env.issue _ 0 _) (fun c hc => by
      cases c <;> simp_all [Call.is_lseek, Call.is_write, Call.is_open])
  refine ⟨?_, ?_, ?_⟩
  · intro hs
    unfold recv
    simp only [hq, hs, if_true]
    rw [(write_to_storage_frame _ _ _).2.2.1]
    refine ⟨rfl, ?_⟩
    rw [List.filter_append, hw, List.append_nil]
    cases env.cgi_filename <;> by_cases ho : env.open_ret = -1 <;> simp [ho, Call.is_open]
  · intro hs he
    unfold recv
    simp only [hq, hs, he, if_true, if_false]
    rw [(write_to_storage_frame _ _ _).2.2.1]
    refine ⟨rfl, ?_⟩
    rw [List.filter_append, hw, List.append_nil]
    cases env.cgi_filename <;> by_cases ho : env.open_ret = -1 <;> simp [ho, Call.is_open]
  · intro hs he
    unfold recv
    simp only [hq, hs, he, if_false]
    rw [(write_to_storage_frame _ _ _).2.2.1]
    refine ⟨rfl, ?_⟩
    rw [List.filter_append, hw, List.append_nil]
    by_cases ho : h.fd = -1 <;> simp [ho, Call.is_open]

/-- C23 (the code departs from the claim). `stat` fails with `EACCES`, an error other
than `ENOENT`: `globus_l_gfs_posix_recv` attempts no `open` and registers a read all
the same. On the handle of a new session the descriptor is the 0 stored by
`globus_l_gfs_posix_start`, and the completion of 4 bytes is written to descriptor 0,
which is then closed, and the transfer is reported as a success. On a handle left by
an earlier transfer the descriptor is the one that transfer used and closed, 5. -/
theorem recv_uses_leftover_descriptor :
    (recv "/data/file" recv_env_eacces Handle.start).2
        = [Call.begin_transfer, Call.register_read 4 true]
      ∧ (recv "/data/file" recv_env_eacces Handle.start).1.fd = 0
      ∧ (recv_run (recv_init "/data/file" recv_env_eacces Handle.start)
            [completion_ok 0 4 true 1]).log
        = [Call.begin_transfer, Call.register_read 4 true, Call.lseek 0 0 0,
           Call.write 0 4 4, Call.update_bytes_written 0 4, Call.close 0 0,
           Call.finished_transfer Result.success]
      ∧ (recv_run (recv_init "/data/file" recv_env_eacces used_handle)
            [completion_ok 0 4 true 1]).log
        = [Call.begin_transfer, Call.register_read 4 true, Call.lseek 5 0 0,
           Call.write 5 4 4, Call.update_bytes_written 0 4, Call.close 5 0,
           Call.finished_transfer Result.success] := by
  decide

/-! ### The range of a checksum -/

/-- The task created by `globus_l_gfs_posix_cksm_md5`: the offset asked for, no byte
counted, an empty digest state, the chunk limit, and the length left by the statement
`if (length < 0 || (offset + length) > stbuf.st_size) length = stbuf.st_size - offset;`
in 64-bit arithmetic. -/
theorem cksm_md5_task (env : Md5Env) (cksm : List Char) (offset length : Int) (t : Md5Task)
    (ht : (cksm_md5 env cksm offset length).task = some t) :
    t.offset = offset ∧ t.total_bytes = 0 ∧ t.blocksize = MAXBLOCSIZE4CKSM
      ∧ t.c = MD5_Init
      ∧ t.length = (if length < 0 ∨ to_off_t (offset + length) > env.st_size then
                      to_off_t (env.st_size - offset)
                    else length) := by
  unfold cksm_md5 at ht
  split at ht
  · simp at ht
  · simp at ht
  · split_ifs at ht with h1 h2 h3
    · simp only [Option.some.injEq] at ht
      subst ht
      exact ⟨rfl, rfl, rfl, rfl, (if_pos h3).symm⟩
    · simp only [Option.some.injEq] at ht
      subst ht
      exact ⟨rfl, rfl, rfl, rfl, (if_neg h3).symm⟩

/-- The range stored by `globus_l_gfs_posix_cksm_md5` for a file whose size `S` is a
non-negative `globus_off_t`, an offset that is one too and a length that is a
`globus_off_t`. When `offset + length` is below `2^63`: the length stored is the
length asked for when that is not negative and the range ends within the file, else
`S - offset`; the range stored never ends beyond the end of the file; and the length
stored is negative exactly when the offset lies beyond the end of the file. When
`offset + length` reaches `2^63` the sum wraps to a negative number: the length asked
for is stored as it is, and the range ends beyond the end of the file. -/
theorem cksm_md5_range (env : Md5Env) (cksm : List Char) (offset length : Int) (t : Md5Task)
    (ht : (cksm_md5 env cksm offset length).task = some t)
    (h0 : 0 ≤ offset) (ho : offset < 2 ^ 63) (hl : in_off_t length)
    (hS0 : 0 ≤ env.st_size) (hS : env.st_size < 2 ^ 63) :
    (offset + length < 2 ^ 63 →
        t.length = (if 0 ≤ length ∧ offset + length ≤ env.st_size then length
                    else env.st_size - offset)
          ∧ offset + t.length ≤ env.st_size
          ∧ (t.length < 0 ↔ env.st_size < offset))
      ∧ (2 ^ 63 ≤ offset + length →
        t.length = length ∧ env.st_size < offset + t.length) := by
  have hlen := (cksm_md5_task env cksm offset length t ht).2.2.2.2
  unfold in_off_t at hl
  unfold to_off_t at hlen
  constructor
  · intro hsum
    rw [hlen]
    split_ifs <;> omega
  · intro hsum
    rw [hlen]
    split_ifs <;> omega

/-- C26 (the code departs from the claim). For a regular file of 100 bytes and a
request at offset 150, `globus_l_gfs_posix_cksm_md5` stores the length
`100 - 150 = -50`, a negative number, for the requested length 10 as for the requested
length -1. For a file of 10 bytes and a request at offset 5 of length `2^63 - 1`, the
sum `offset + length` wraps to a negative number, the test of the range does not see
that it ends beyond the file, and the length stored is `2^63 - 1`: the range stored
ends far beyond the 10 bytes of the file. -/
theorem stored_length_negative_beyond_end :
    (cksm_init (md5_env 100) stale_cksm 150 10).task.map (fun t => (t.offset, t.length))
        = some (150, -50)
      ∧ (cksm_init (md5_env 100) stale_cksm 150 (-1)).task.map (fun t => (t.offset, t.length))
        = some (150, -50)
      ∧ ¬ ((0 : Int) ≤ -50)
      ∧ (cksm_init (md5_env 10) stale_cksm 5 9223372036854775807).task.map
          (fun t => (t.offset, t.length))
        = some (5, 9223372036854775807)
      ∧ ¬ ((5 : Int) + 9223372036854775807 ≤ 10) := by
  decide

/-! ### The chain of steps of a checksum -/

theorem cksm_after_succ (env : Nat → Md5StepEnv) (s : CksmState) (n : Nat) :
    cksm_after env s (n + 1) = cksm_after (fun k => env (k + 1)) (cksm_step s (env 0)) n := by
  unfold cksm_after cksm_run
  rw [List.range_succ_eq_map, List.map_cons, List.foldl_cons, List.map_map]
  rfl

theorem cksm_after_step (env : Nat → Md5StepEnv) (s : CksmState) (n : Nat) :
    cksm_after env s (n + 1) = cksm_step (cksm_after env s n) (env n) := by
  unfold cksm_after cksm_run
  rw [List.range_succ, List.map_append, List.foldl_append]
  rfl

/-- Once the task is freed no later run of the callback happens. -/
theorem cksm_after_none (env : Nat → Md5StepEnv) (s : CksmState) (n : Nat)
    (hn : (cksm_after env s n).task = none) :
    ∀ m, (cksm_after env s (n + m)).task = none := by
  intro m
  induction m with
  | zero => exact hn
  | succ m ih =>
    rw [← Nat.add_assoc, cksm_after_step]
    unfold cksm_step
    rw [ih]
    exact ih

/-- A step entered with `errno` equal to 0 whose `read` returns at least one byte. -/
theorem cksm_step_of_data (s : CksmState) (t : Md5Task) (e : Md5StepEnv) (bytes : List Nat)
    (hs : s.task = some t) (ht : t.length ≠ 0) (he : e.errno = 0)
    (hr : e.read_data = some bytes) (hn : 1 ≤ bytes.length) :
    ∃ t1, (cksm_step s e).task = some t1
      ∧ t1.length = t.length - bytes.length
      ∧ t1.total_bytes = t.total_bytes + bytes.length
      ∧ t1.offset = t.offset + bytes.length
      ∧ t1.blocksize = t.blocksize := by
  have hpos : (0 : Int) < bytes.length := by omega
  unfold cksm_step
  rw [hs]
  unfold cksm_md5_cb
  simp only [ht, hr, he, hpos, and_self, if_true, if_false]
  split_ifs <;> exact ⟨_, rfl, rfl, rfl, rfl, rfl⟩

/-- The terminal step: the task is freed and one result is reported, a success. -/
theorem cksm_step_terminal (s : CksmState) (t : Md5Task) (e : Md5StepEnv)
    (hs : s.task = some t) (ht : t.length = 0) :
    (cksm_step s e).task = none
      ∧ oneshots (cksm_step s e).calls = oneshots s.calls
      ∧ ∃ digest, finished_commands (cksm_step s e).calls
          = finished_commands s.calls ++ [(Result.success, some digest)] := by
  unfold cksm_step
  rw [hs]
  unfold cksm_md5_cb
  simp only [ht, if_true]
  refine ⟨trivial, ?_, String.mk (c_string (format_digest (MD5_Final t.c) s.cksm)), ?_⟩
  · simp [oneshots]
  · rw [finished_commands_append]
    rfl

/-- A chain of steps on a task with `length >= 0` bytes left, in which every read
returns at least one byte and at most the count asked for: after `n <= length` steps
that read, the task has `length == 0`, `total_bytes` and `offset` have grown by the
length, and `n` is `ceil(length / 4194304)` when every read returns the count asked
for. -/
theorem cksm_chain_reaches_end :
    ∀ (m : Nat) (env : Nat → Md5StepEnv) (s : CksmState) (t : Md5Task),
      s.task = some t → 0 ≤ t.length → t.length.toNat ≤ m →
      t.blocksize = MAXBLOCSIZE4CKSM → GoodReads env s →
      ∃ n t1, n ≤ t.length.toNat
        ∧ (∀ k, k < n → ∃ tk, (cksm_after env s k).task = some tk ∧ tk.length ≠ 0)
        ∧ (cksm_after env s n).task = some t1 ∧ t1.length = 0
        ∧ t1.total_bytes = t.total_bytes + t.length
        ∧ t1.offset = t.offset + t.length
        ∧ (FullReads env s → n = ceil_div t.length.toNat 4194304) := by
  intro m
  induction m with
  | zero =>
    intro env s t hs h0 hm _ _
    have hz : t.length = 0 := by omega
    refine ⟨0, t, Nat.zero_le _, fun k hk => absurd hk (Nat.not_lt_zero k), hs, hz,
      by rw [hz]; simp, by rw [hz]; simp, fun _ => ?_⟩
    rw [hz]
    exact (ceil_div_zero 4194304 (by norm_num)).symm
  | succ m ih =>
    intro env s t hs h0 hm hb hgood
    by_cases hz : t.length = 0
    · refine ⟨0, t, Nat.zero_le _, fun k hk => absurd hk (Nat.not_lt_zero k), hs, hz,
        by rw [hz]; simp, by rw [hz]; simp, fun _ => ?_⟩
      rw [hz]
      exact (ceil_div_zero 4194304 (by norm_num)).symm
    · have hpos : 0 < t.length := by omega
      obtain ⟨he, bytes, hr, h1, h2⟩ := hgood 0 t hs hz
      have hcount := md5_read_count_of_pos t hb hpos
      obtain ⟨t1, ht1, hl1, htot1, hoff1, hb1⟩ := cksm_step_of_data s t (env 0) bytes hs hz he hr h1
      have hlen : (bytes.length : Int) ≤ t.length := by
        have : (md5_read_count t : Int) ≤ t.length := by rw [hcount.1]; exact min_le_left _ _
        omega
      have hgood1 : GoodReads (fun k => env (k + 1)) (cksm_step s (env 0)) := by
        intro k tk hk hlk
        rw [← cksm_after_succ] at hk
        exact hgood (k + 1) tk hk hlk
      obtain ⟨n, t2, hn, hbefore, hat, hl2, htot2, hoff2, hfull2⟩ :=
        ih (fun k => env (k + 1)) (cksm_step s (env 0)) t1 ht1 (by omega) (by omega)
          (by rw [hb1, hb]) hgood1
      refine ⟨n + 1, t2, by omega, ?_, ?_, hl2, by rw [htot2, htot1, hl1]; ring,
        by rw [hoff2, hoff1, hl1]; ring, ?_⟩
      · intro k hk
        rcases k with _ | k
        · exact ⟨t, hs, hz⟩
        · rw [cksm_after_succ]
          exact hbefore k (by omega)
      · rw [cksm_after_succ]; exact hat
      · intro hfull
        have hfull1 : FullReads (fun k => env (k + 1)) (cksm_step s (env 0)) := by
          intro k tk b hk hlk hrk
          rw [← cksm_after_succ] at hk
          exact hfull (k + 1) tk b hk hlk hrk
        have hbl : bytes.length = md5_read_count t := hfull 0 t bytes hs hz hr
        rw [hfull2 hfull1, ceil_div_pos 4194304 t.length.toNat (by norm_num) (by omega)]
        have : t1.length.toNat = t.length.toNat - min 4194304 t.length.toNat := by
          rw [hl1, hbl]
          have := hcount.1
          omega
        rw [this]

/-- C25. A checksum task as `globus_l_gfs_posix_cksm_md5` creates it, with `length`
not negative, and a chain of steps in which every step that reads is entered with
`errno` equal to 0 and gets at least 1 byte and at most the count it asked for. Some
`n <= length` steps find `length != 0`; the step after them, which is run number
`n + 1 <= length + 1`, finds `length == 0` with `total_bytes` equal to the length of
the task and `offset` advanced by it, frees the task and schedules nothing more. When
every read returns the count asked for, `n + 1` is `ceil(length / 4194304) + 1`. -/
theorem checksum_chain_terminates (menv : Md5Env) (cksm : List Char) (offset length : Int)
    (env : Nat → Md5StepEnv) (t : Md5Task)
    (ht : (cksm_init menv cksm offset length).task = some t) (hL : 0 ≤ t.length)
    (hgood : GoodReads env (cksm_init menv cksm offset length)) :
    ∃ n t1, n + 1 ≤ t.length.toNat + 1
      ∧ (∀ k, k < n →
          ∃ tk, (cksm_after env (cksm_init menv cksm offset length) k).task = some tk
            ∧ tk.length ≠ 0)
      ∧ (cksm_after env (cksm_init menv cksm offset length) n).task = some t1
      ∧ t1.length = 0 ∧ t1.total_bytes = t.length ∧ t1.offset = offset + t.length
      ∧ (cksm_after env (cksm_init menv cksm offset length) (n + 1)).task = none
      ∧ oneshots (cksm_after env (cksm_init menv cksm offset length) (n + 1)).calls
          = oneshots (cksm_after env (cksm_init menv cksm offset length) n).calls
      ∧ (FullReads env (cksm_init menv cksm offset length) →
          n + 1 = ceil_div t.length.toNat 4194304 + 1) := by
  have hr := cksm_md5_task menv cksm offset length t ht
  obtain ⟨n, t1, hn, hbefore, hat, hl, htot, hoff, hfull⟩ :=
    cksm_chain_reaches_end t.length.toNat env (cksm_init menv cksm offset length) t ht hL
      (le_refl _) hr.2.2.1 hgood
  have hterm := cksm_step_terminal (cksm_after env (cksm_init menv cksm offset length) n) t1
    (env n) hat hl
  refine ⟨n, t1, by omega, hbefore, hat, hl, by rw [htot, hr.2.1]; simp,
    by rw [hoff, hr.1], ?_, ?_, fun hf => by rw [hfull hf]⟩
  · rw [cksm_after_step]; exact hterm.1
  · rw [cksm_after_step]; exact hterm.2.1

/-- Reads of one byte for a checksum of 2 bytes: every read returns at least one byte
and at most the 2 or 1 bytes asked for. -/
theorem good_reads_one_byte :
    GoodReads one_byte_reads (cksm_init (md5_env 4) stale_cksm 0 2) := by
  intro k t hk hl
  rcases k with _ | _ | _ | k
  · rw [show (cksm_after one_byte_reads (cksm_init (md5_env 4) stale_cksm 0 2) 0).task
        = some (md5_task [] 2) from by decide] at hk
    obtain rfl := Option.some.inj hk
    exact ⟨rfl, [1], rfl, by decide, by decide⟩
  · rw [show (cksm_after one_byte_reads (cksm_init (md5_env 4) stale_cksm 0 2) (0 + 1)).task
        = some { md5_task [1] 1 with offset := 1 } from by decide] at hk
    obtain rfl := Option.some.inj hk
    exact ⟨rfl, [1], rfl, by decide, by decide⟩
  · rw [show (cksm_after one_byte_reads (cksm_init (md5_env 4) stale_cksm 0 2)
          (0 + 1 + 1)).task
        = some { md5_task [1, 1] 0 with offset := 2 } from by decide] at hk
    obtain rfl := Option.some.inj hk
    exact absurd rfl hl
  · have h3 : (cksm_after one_byte_reads (cksm_init (md5_env 4) stale_cksm 0 2) 3).task
        = none := by decide
    have := cksm_after_none one_byte_reads _ 3 h3 k
    rw [show k + 1 + 1 + 1 = 3 + k from by omega, this] at hk
    exact absurd hk (by simp)

/-- Reads of two bytes for a checksum of 2 bytes: the one read returns the 2 bytes
asked for. -/
theorem good_reads_two_bytes :
    GoodReads two_byte_reads (cksm_init (md5_env 4) stale_cksm 0 2)
      ∧ FullReads two_byte_reads (cksm_init (md5_env 4) stale_cksm 0 2) := by
  have key : ∀ k t, (cksm_after two_byte_reads (cksm_init (md5_env 4) stale_cksm 0 2) k).task
      = some t → t.length ≠ 0 → t = md5_task [] 2 := by
    intro k t hk hl
    rcases k with _ | _ | k
    · rw [show (cksm_after two_byte_reads (cksm_init (md5_env 4) stale_cksm 0 2) 0).task
          = some (md5_task [] 2) from by decide] at hk
      exact (Option.some.inj hk).symm
    · rw [show (cksm_after two_byte_reads (cksm_init (md5_env 4) stale_cksm 0 2) (0 + 1)).task
          = some { md5_task [1, 2] 0 with offset := 2 } from by decide] at hk
      obtain rfl := Option.some.inj hk
      exact absurd rfl hl
    · have h2 : (cksm_after two_byte_reads (cksm_init (md5_env 4) stale_cksm 0 2) 2).task
          = none := by decide
      have := cksm_after_none two_byte_reads _ 2 h2 k
      rw [show k + 1 + 1 = 2 + k from by omega, this] at hk
      exact absurd hk (by simp)
  constructor
  · intro k t hk hl
    obtain rfl := key k t hk hl
    exact ⟨rfl, [1, 2], rfl, by decide, by decide⟩
  · intro k t bytes hk hl hr
    obtain rfl := key k t hk hl
    have : bytes = [1, 2] := (Option.some.inj hr).symm
    rw [this]
    decide

/-- C25, on a checksum of the first 2 bytes of a file of 4 bytes: with reads of one
byte the terminal step is at most the third run, and with reads of two bytes, the count
asked for, it is the second, `ceil(2 / 4194304) + 1`. -/
theorem checksum_chain_terminates_witness :
    ((cksm_init (md5_env 4) stale_cksm 0 2).task = some (md5_task [] 2)
        ∧ 0 ≤ (md5_task [] 2).length
        ∧ GoodReads one_byte_reads (cksm_init (md5_env 4) stale_cksm 0 2)
        ∧ ∃ n t1, n + 1 ≤ (md5_task [] 2).length.toNat + 1
          ∧ (∀ k, k < n →
              ∃ tk, (cksm_after one_byte_reads (cksm_init (md5_env 4) stale_cksm 0 2) k).task
                  = some tk ∧ tk.length ≠ 0)
          ∧ (cksm_after one_byte_reads (cksm_init (md5_env 4) stale_cksm 0 2) n).task = some t1
          ∧ t1.length = 0 ∧ t1.total_bytes = (md5_task [] 2).length
          ∧ t1.offset = 0 + (md5_task [] 2).length
          ∧ (cksm_after one_byte_reads (cksm_init (md5_env 4) stale_cksm 0 2) (n + 1)).task
              = none
          ∧ oneshots
                (cksm_after one_byte_reads (cksm_init (md5_env 4) stale_cksm 0 2) (n + 1)).calls
              = oneshots
                (cksm_after one_byte_reads (cksm_init (md5_env 4) stale_cksm 0 2) n).calls
          ∧ (FullReads one_byte_reads (cksm_init (md5_env 4) stale_cksm 0 2) →
              n + 1 = ceil_div (md5_task [] 2).length.toNat 4194304 + 1))
      ∧ (GoodReads two_byte_reads (cksm_init (md5_env 4) stale_cksm 0 2)
        ∧ FullReads two_byte_reads (cksm_init (md5_env 4) stale_cksm 0 2)
        ∧ ∃ n, n + 1 = ceil_div (md5_task [] 2).length.toNat 4194304 + 1
          ∧ (cksm_after two_byte_reads (cksm_init (md5_env 4) stale_cksm 0 2) (n + 1)).task
              = none) :=
  ⟨⟨by decide, by decide, good_reads_one_byte,
      checksum_chain_terminates (md5_env 4) stale_cksm 0 2 one_byte_reads (md5_task [] 2)
        (by decide) (by decide) good_reads_one_byte⟩,
   ⟨good_reads_two_bytes.1, good_reads_two_bytes.2,
      (checksum_chain_terminates (md5_env 4) stale_cksm 0 2 two_byte_reads (md5_task [] 2)
        (by decide) (by decide) good_reads_two_bytes.1).elim
        (fun n hn => hn.elim (fun _ h =>
          ⟨n, h.2.2.2.2.2.2.2.2 good_reads_two_bytes.2, h.2.2.2.2.2.2.1⟩))⟩⟩

/-! ### Splitting a path -/

theorem strrchr_none_iff (c : Char) (l : List Char) : strrchr c l = none ↔ c ∉ l := by
  induction l with
  | nil => simp [strrchr]
  | cons x xs ih =>
    rw [strrchr]
    cases h : strrchr c xs with
    | some j =>
      have : c ∈ xs := by
        by_contra hc
        rw [ih.mpr hc] at h
        exact absurd h (by simp)
      simp [this]
    | none =>
      have hc : c ∉ xs := ih.mp h
      by_cases hx : x = c
      · simp [hx]
      · simp [hx, hc, Ne.symm hx]

theorem strrchr_some (c : Char) :
    ∀ (l : List Char) (i : Nat), strrchr c l = some i →
      i < l.length ∧ l.take i ++ c :: l.drop (i + 1) = l ∧ c ∉ l.drop (i + 1) := by
  intro l
  induction l with
  | nil => intro i h; simp [strrchr] at h
  | cons x xs ih =>
    intro i h
    rw [strrchr] at h
    cases h' : strrchr c xs with
    | some j =>
      rw [h'] at h
      simp only [Option.some.injEq] at h
      subst h
      obtain ⟨h1, h2, h3⟩ := ih j h'
      refine ⟨by simp; omega, ?_, ?_⟩
      · simp only [List.take_succ_cons, List.drop_succ_cons, List.cons_append]
        rw [h2]
      · simpa using h3
    | none =>
      rw [h'] at h
      by_cases hx : x = c
      · simp only [hx, if_true, Option.some.injEq] at h
        subst h
        refine ⟨by simp, by simp [hx], ?_⟩
        simpa using (strrchr_none_iff c xs).mp h'
      · simp [hx] at h

theorem strrchr_append (c : Char) (a b : List Char) :
    strrchr c (a ++ b)
      = match strrchr c b with
        | some i => some (a.length + i)
        | none => strrchr c a := by
  induction a with
  | nil =>
    simp only [List.nil_append]
    cases h : strrchr c b <;> simp [strrchr]
  | cons x xs ih =>
    rw [List.cons_append, strrchr, ih]
    cases hb : strrchr c b with
    | some i => simp; omega
    | none =>
      simp only []
      rw [strrchr]

theorem strrchr_concat_self (c : Char) (a : List Char) :
    strrchr c (a ++ [c]) = some a.length := by
  rw [strrchr_append]
  simp [strrchr]

theorem strrchr_concat_other (c x : Char) (a : List Char) (hx : x ≠ c) :
    strrchr c (a ++ [x]) = strrchr c a := by
  rw [strrchr_append]
  simp [strrchr, hx]

/-- The loop on a buffer of `/` characters only: one `/` is left. -/
theorem drop_trailing_slashes_only :
    ∀ (k fuel : Nat), k ≤ fuel →
      drop_trailing_slashes fuel (List.replicate (k + 1) '/') = ['/'] := by
  intro k
  induction k with
  | zero =>
    intro fuel _
    cases fuel with
    | zero => rfl
    | succ f => rfl
  | succ k ih =>
    intro fuel hf
    obtain ⟨f, rfl⟩ : ∃ f, fuel = f + 1 := ⟨fuel - 1, by omega⟩
    have hs : strrchr '/' (List.replicate (k + 1 + 1) '/') = some (k + 1) := by
      rw [List.replicate_succ', strrchr_concat_self]
      simp
    rw [drop_trailing_slashes, hs]
    have hg : (List.replicate (k + 1 + 1) '/').get? (k + 1 + 1) = none := by
      rw [List.get?_eq_none]; simp
    have ht : (List.replicate (k + 1 + 1) '/').take (k + 1) = List.replicate (k + 1) '/' := by
      rw [List.replicate_succ' (k + 1), List.take_left']
      simp
    simp only [hg, true_and, ne_eq, Nat.add_one_ne_zero, not_false_eq_true, if_true, ht]
    exact ih f (by omega)

/-- The loop on a buffer that holds a character other than `/` followed by `k`
characters `/`: these are dropped. -/
theorem drop_trailing_slashes_strip (q : List Char) (x : Char) (hx : x ≠ '/') :
    ∀ (k fuel : Nat), k ≤ fuel →
      drop_trailing_slashes fuel ((q ++ [x]) ++ List.replicate k '/') = q ++ [x] := by
  intro k
  induction k with
  | zero =>
    intro fuel _
    rw [List.replicate_zero, List.append_nil]
    cases fuel with
    | zero => rfl
    | succ f =>
      rw [drop_trailing_slashes, strrchr_concat_other '/' x q hx]
      cases hq : strrchr '/' q with
      | none => rfl
      | some i =>
        have hi := (strrchr_some '/' q i hq).1
        have hg : (q ++ [x]).get? (i + 1) ≠ none := by
          intro h
          rw [List.get?_eq_none] at h
          simp at h
          omega
        simp only []
        rw [if_neg (fun h => hg h.1)]
  | succ k ih =>
    intro fuel hf
    obtain ⟨f, rfl⟩ : ∃ f, fuel = f + 1 := ⟨fuel - 1, by omega⟩
    have hs : strrchr '/' ((q ++ [x]) ++ List.replicate (k + 1) '/')
        = some ((q ++ [x]) ++ List.replicate k '/').length := by
      rw [List.replicate_succ', ← List.append_assoc, strrchr_concat_self]
    rw [drop_trailing_slashes, hs]
    have hg : ((q ++ [x]) ++ List.replicate (k + 1) '/').get?
        (((q ++ [x]) ++ List.replicate k '/').length + 1) = none := by
      rw [List.get?_eq_none]; simp; omega
    have ht : ((q ++ [x]) ++ List.replicate (k + 1) '/').take
        ((q ++ [x]) ++ List.replicate k '/').length = (q ++ [x]) ++ List.replicate k '/' := by
      rw [List.replicate_succ', ← List.append_assoc, List.take_left' rfl]
    have hne : ((q ++ [x]) ++ List.replicate k '/').length ≠ 0 := by simp
    simp only [hg, true_and, ne_eq, hne, not_false_eq_true, if_true, ht]
    exact ih f (by omega)

/-- Every path is empty, or made of `/` characters only, or a character other than `/`
followed by some number of `/` characters, after any beginning. -/
theorem path_shape (p : List Char) :
    p = [] ∨ (∃ k, p = List.replicate (k + 1) '/')
      ∨ ∃ (q : List Char) (x : Char) (k : Nat), x ≠ '/' ∧ p = (q ++ [x]) ++ List.replicate k '/' := by
  induction p using List.reverseRecOn with
  | nil => exact Or.inl rfl
  | append_singleton l a ih =>
    by_cases ha : a = '/'
    · subst ha
      rcases ih with h | ⟨k, h⟩ | ⟨q, x, k, hx, h⟩
      · right; left; exact ⟨0, by rw [h]; rfl⟩
      · right; left; exact ⟨k + 1, by rw [h, ← List.replicate_succ']⟩
      · right; right
        exact ⟨q, x, k + 1, hx, by rw [h, List.replicate_succ' k, List.append_assoc]⟩
    · right; right
      exact ⟨l, a, 0, ha, by simp⟩

/-- The fuel given to the loop is enough: with the length of the buffer, or with any
larger number, the loop stops by its own test, on a buffer whose last `/` (if there is
one) is either not its last character or its first. -/
theorem drop_trailing_slashes_enough_fuel (p : List Char) (fuel : Nat)
    (hf : p.length ≤ fuel) :
    drop_trailing_slashes fuel p = drop_trailing_slashes p.length p
      ∧ ∀ i, strrchr '/' (drop_trailing_slashes p.length p) = some i →
          ¬ ((drop_trailing_slashes p.length p).get? (i + 1) = none ∧ i ≠ 0) := by
  rcases path_shape p with h | ⟨k, h⟩ | ⟨q, x, k, hx, h⟩
  · subst h
    have h1 : ∀ f, drop_trailing_slashes f [] = [] := by
      intro f
      cases f <;> rfl
    rw [h1, h1]
    exact ⟨rfl, fun i hi => by simp [strrchr] at hi⟩
  · have hk : k ≤ p.length := by rw [h]; simp
    rw [h] at hf ⊢
    rw [drop_trailing_slashes_only k fuel (by simp at hf; omega),
      drop_trailing_slashes_only k _ (by simp)]
    refine ⟨rfl, fun i hi => ?_⟩
    have : i = 0 := by
      have := (strrchr_some '/' ['/'] i hi).1
      simpa using this
    simp [this]
  · have hk : k ≤ p.length := by rw [h]; simp; omega
    have hkf : k ≤ fuel := by omega
    rw [h]
    rw [drop_trailing_slashes_strip q x hx k fuel hkf,
      drop_trailing_slashes_strip q x hx k _ (by rw [← h]; exact hk)]
    refine ⟨rfl, fun i hi => ?_⟩
    rw [strrchr_concat_other '/' x q hx] at hi
    have := (strrchr_some '/' q i hi).1
    intro hn
    have hn1 := hn.1
    rw [List.get?_eq_none] at hn1
    simp at hn1
    omega

theorem without_trailing_slashes_append (l : List Char) (k : Nat) :
    without_trailing_slashes (l ++ List.replicate k '/') = without_trailing_slashes l := by
  induction k with
  | zero => simp
  | succ k ih =>
    rw [List.replicate_succ', ← List.append_assoc]
    unfold without_trailing_slashes at ih ⊢
    rw [List.rdropWhile_concat]
    simp [ih]

theorem without_trailing_slashes_concat (q : List Char) (x : Char) (hx : x ≠ '/') :
    without_trailing_slashes (q ++ [x]) = q ++ [x] := by
  unfold without_trailing_slashes
  rw [List.rdropWhile_concat]
  simp [hx]

/-- The function on a path shorter than `MAXPATHLEN`: the whole path is copied, and the
fuel given to the loop is its length. -/
theorem file_partition_path_short (p : List Char) (hlen : p.length < MAXPATHLEN) :
    file_partition_path p = partition_buf (drop_trailing_slashes p.length p) := by
  unfold file_partition_path
  simp only []
  rw [List.take_of_length_le (by omega)]

/-- The statement after the loop, on a buffer whose last `/` is not its last
character. -/
theorem partition_buf_spec (Q : List Char)
    (hget : ∀ i, strrchr '/' Q = some i → Q.get? (i + 1) ≠ none) :
    ('/' ∉ Q → partition_buf Q = ([], Q))
      ∧ (∀ rest, Q = '/' :: rest → '/' ∉ rest → partition_buf Q = (['/'], rest))
      ∧ ('/' ∈ Q → (∀ rest, Q = '/' :: rest → '/' ∈ rest) →
          (partition_buf Q).1 ++ '/' :: (partition_buf Q).2 = Q)
      ∧ '/' ∉ (partition_buf Q).2 := by
  refine ⟨?_, ?_, ?_, ?_⟩
  · intro h
    unfold partition_buf
    rw [(strrchr_none_iff '/' Q).mpr h]
  · intro rest hQ hr
    have hs : strrchr '/' Q = some 0 := by
      rw [hQ, strrchr, (strrchr_none_iff '/' rest).mpr hr]
      simp
    have hg := hget 0 hs
    unfold partition_buf
    rw [hs]
    simp only [if_true]
    rw [if_neg hg, hQ]
    rfl
  · intro hmem hrest
    cases hs : strrchr '/' Q with
    | none => exact absurd hmem ((strrchr_none_iff '/' Q).mp hs)
    | some i =>
      obtain ⟨_, h2, h3⟩ := strrchr_some '/' Q i hs
      have hi : i ≠ 0 := by
        intro h0
        subst h0
        exact h3 (hrest (Q.drop (0 + 1)) (by simpa using h2.symm))
      unfold partition_buf
      rw [hs]
      simp only [hi, if_false]
      exact h2
  · cases hs : strrchr '/' Q with
    | none =>
      unfold partition_buf
      rw [hs]
      exact (strrchr_none_iff '/' Q).mp hs
    | some i =>
      obtain ⟨_, _, h3⟩ := strrchr_some '/' Q i hs
      have hg := hget i hs
      unfold partition_buf
      rw [hs]
      by_cases hi : i = 0
      · simp only [hi, if_true]
        rw [hi] at hg h3
        rw [if_neg hg]
        exact h3
      · simp only [hi, if_false]
        exact h3

/-- C27. The function `globus_l_gfs_file_partition_path` on a path shorter than
`MAXPATHLEN`, compared with the path without its trailing `/` characters. For a path
made only of `/` characters it stores the basepath `""` and the filename `"/"`. For
any other path: when no `/` remains, the basepath `""` and the filename the path
without its trailing `/`; when the only `/` that remains is the first character, the
basepath `"/"` and the filename the characters after it; otherwise a basepath and a
filename such that basepath, `/`, filename in a row make the path without its trailing
`/`; and in each of these three cases the filename holds no `/`. -/
theorem file_partition_path_spec (p : List Char) (hlen : p.length < MAXPATHLEN) :
    (only_slashes p → file_partition_path p = ([], ['/']))
      ∧ (¬ only_slashes p → '/' ∉ without_trailing_slashes p →
          file_partition_path p = ([], without_trailing_slashes p))
      ∧ (∀ rest, without_trailing_slashes p = '/' :: rest → '/' ∉ rest →
          file_partition_path p = (['/'], rest))
      ∧ ('/' ∈ without_trailing_slashes p →
          (∀ rest, without_trailing_slashes p = '/' :: rest → '/' ∈ rest) →
          (file_partition_path p).1 ++ '/' :: (file_partition_path p).2
            = without_trailing_slashes p)
      ∧ (¬ only_slashes p → '/' ∉ (file_partition_path p).2) := by
  rw [file_partition_path_short p hlen]
  rcases path_shape p with h | ⟨k, h⟩ | ⟨q, x, k, hx, h⟩
  · subst h
    have hw : without_trailing_slashes [] = [] := by simp [without_trailing_slashes]
    have hb : partition_buf (drop_trailing_slashes ([] : List Char).length []) = ([], []) := rfl
    rw [hw, hb]
    refine ⟨fun h => absurd rfl h.1, fun _ _ => rfl, fun rest h => by simp at h,
      fun h => by simp at h, fun _ => by simp⟩
  · have hos : only_slashes p := by
      rw [h]
      exact ⟨by simp, fun c hc => List.eq_of_mem_replicate hc⟩
    have hw : without_trailing_slashes p = [] := by
      have := without_trailing_slashes_append [] (k + 1)
      rw [List.nil_append] at this
      rw [h, this]
      simp [without_trailing_slashes]
    have hb : partition_buf (drop_trailing_slashes p.length p) = ([], ['/']) := by
      rw [h, drop_trailing_slashes_only k _ (by simp)]
      rfl
    rw [hw, hb]
    refine ⟨fun _ => rfl, fun h => absurd hos h, fun rest h => by simp at h,
      fun h => by simp at h, fun h => absurd hos h⟩
  · have hnos : ¬ only_slashes p := by
      intro hos
      apply hx
      apply hos.2 x
      rw [h]
      simp
    have hw : without_trailing_slashes p = q ++ [x] := by
      rw [h, without_trailing_slashes_append, without_trailing_slashes_concat q x hx]
    have hb : drop_trailing_slashes p.length p = q ++ [x] := by
      have hk : k ≤ p.length := by rw [h]; simp; omega
      have := drop_trailing_slashes_strip q x hx k p.length hk
      rw [← h] at this
      exact this
    have hget : ∀ i, strrchr '/' (q ++ [x]) = some i → (q ++ [x]).get? (i + 1) ≠ none := by
      intro i hi
      rw [strrchr_concat_other '/' x q hx] at hi
      have := (strrchr_some '/' q i hi).1
      intro hn
      rw [List.get?_eq_none] at hn
      simp at hn
      omega
    have hspec := partition_buf_spec (q ++ [x]) hget
    rw [hw, hb]
    exact ⟨fun h => absurd h hnos, fun _ => hspec.1, hspec.2.1, hspec.2.2.1,
      fun _ => hspec.2.2.2⟩

/-- Some paths and what the function stores for them. -/
theorem file_partition_path_examples :
    file_partition_path "/usr/lib//".data = ("/usr".data, "lib".data)
      ∧ file_partition_path "name/".data = ("".data, "name".data)
      ∧ file_partition_path "///".data = ("".data, "/".data)
      ∧ file_partition_path "/etc/".data = ("/".data, "etc".data)
      ∧ file_partition_path "//srv".data = ("/".data, "srv".data)
      ∧ file_partition_path "".data = ("".data, "".data) := by
  decide

/-- C27, on the path `/usr/lib//`: basepath `/usr` and filename `lib`; and on the
paths `///`, `name/` and `/etc/`. -/
theorem file_partition_path_spec_witness :
    ("/usr/lib//".data.length < MAXPATHLEN
        ∧ '/' ∈ without_trailing_slashes "/usr/lib//".data
        ∧ (∀ rest, without_trailing_slashes "/usr/lib//".data = '/' :: rest → '/' ∈ rest)
        ∧ (file_partition_path "/usr/lib//".data).1
              ++ '/' :: (file_partition_path "/usr/lib//".data).2
            = without_trailing_slashes "/usr/lib//".data)
      ∧ (only_slashes "///".data ∧ file_partition_path "///".data = ([], ['/']))
      ∧ (¬ only_slashes "name/".data ∧ '/' ∉ without_trailing_slashes "name/".data
        ∧ file_partition_path "name/".data = ([], without_trailing_slashes "name/".data)
        ∧ '/' ∉ (file_partition_path "name/".data).2)
      ∧ (without_trailing_slashes "/etc/".data = '/' :: "etc".data ∧ '/' ∉ "etc".data
        ∧ file_partition_path "/etc/".data = (['/'], "etc".data)) :=
  ⟨⟨by decide, by decide,
      fun rest h => by
        have hr : rest = "usr/lib".data := by
          have hw : without_trailing_slashes "/usr/lib//".data = '/' :: "usr/lib".data := by
            decide
          rw [hw] at h
          exact (List.cons.inj h).2.symm
        rw [hr]
        decide,
      (file_partition_path_spec "/usr/lib//".data (by decide)).2.2.2.1 (by decide)
        (fun rest h => by
          have hr : rest = "usr/lib".data := by
            have hw : without_trailing_slashes "/usr/lib//".data = '/' :: "usr/lib".data := by
              decide
            rw [hw] at h
            exact (List.cons.inj h).2.symm
          rw [hr]
          decide)⟩,
   ⟨by unfold only_slashes; decide,
      (file_partition_path_spec "///".data (by decide)).1 (by unfold only_slashes; decide)⟩,
   ⟨by unfold only_slashes; decide, by decide,
      (file_partition_path_spec "name/".data (by decide)).2.1
        (by unfold only_slashes; decide) (by decide),
      (file_partition_path_spec "name/".data (by decide)).2.2.2.2
        (by unfold only_slashes; decide)⟩,
   ⟨by decide, by decide,
      (file_partition_path_spec "/etc/".data (by decide)).2.2.1 "etc".data (by decide)
        (by decide)⟩⟩

/-! ### The report of the MD5 task -/

/-- Once the task is freed the state does not change any more. -/
theorem cksm_after_done (env : Nat → Md5StepEnv) (s : CksmState) (n : Nat)
    (hn : (cksm_after env s n).task = none) :
    ∀ m, cksm_after env s (n + m) = cksm_after env s n := by
  intro m
  induction m with
  | zero => rfl
  | succ m ih =>
    rw [← Nat.add_assoc, cksm_after_step, ih]
    unfold cksm_step
    rw [hn]

/-- A CKSM command that leaves a task is one served by the MD5 routine without helper:
nothing has been reported yet, and the task has the chunk limit as its block size. -/
theorem command_task (cksm_alg : String) (cksm_offset cksm_length : Int) (env : CommandEnv)
    (cksm : List Char) (t : Md5Task)
    (ht : (command Command.CKSM cksm_alg cksm_offset cksm_length env cksm).task = some t) :
    finished_commands (command Command.CKSM cksm_alg cksm_offset cksm_length env cksm).calls
        = []
      ∧ t.blocksize = MAXBLOCSIZE4CKSM := by
  have hsw : (command Command.CKSM cksm_alg cksm_offset cksm_length env cksm).task
      = (command_switch Command.CKSM cksm_alg cksm_offset cksm_length env cksm).task := by
    unfold command
    simp only []
    split_ifs <;> rfl
  rw [hsw] at ht
  by_cases ha : cksm_alg = "adler32" ∨ cksm_alg = "ADLER32"
  · simp [command_switch, ha] at ht
  · by_cases hm : cksm_alg = "md5" ∨ cksm_alg = "MD5"
    · have hcs : command_switch Command.CKSM cksm_alg cksm_offset cksm_length env cksm
          = cksm_md5 env.md5 cksm cksm_offset cksm_length := by
        simp [command_switch, ha, hm]
      rw [hcs] at ht
      refine ⟨?_, (cksm_md5_task env.md5 cksm cksm_offset cksm_length t ht).2.2.1⟩
      rcases cksm_md5_reports env.md5 cksm cksm_offset cksm_length with
        ⟨_, h2, _⟩ | ⟨_, h2, _⟩ | ⟨h1, _, h3⟩
      · rw [h2] at ht; exact absurd ht (by simp)
      · rw [h2] at ht; exact absurd ht (by simp)
      · unfold command
        simp only []
        rw [hcs, if_neg (by simp [h1])]
        exact h3
    · simp [command_switch, ha, hm] at ht

/-- A CKSM command served by the MD5 task, with a length that is not negative and
reads that deliver (each step that reads is entered with `errno` equal to 0 and gets
at least 1 byte and at most the count it asked for): the task reports exactly once.
Nothing is reported during the first `n <= length` runs of the step, the run after
them reports a success with a string, and nothing is reported after it. -/
theorem md5_command_reports_once (cksm_alg : String) (cksm_offset cksm_length : Int)
    (env : CommandEnv) (cksm : List Char) (senv : Nat → Md5StepEnv) (t : Md5Task)
    (ht : (command Command.CKSM cksm_alg cksm_offset cksm_length env cksm).task = some t)
    (hL : 0 ≤ t.length)
    (hgood : GoodReads senv (command Command.CKSM cksm_alg cksm_offset cksm_length env cksm)) :
    ∃ n str, n ≤ t.length.toNat
      ∧ (∀ k, k ≤ n →
          finished_commands
            (cksm_after senv (command Command.CKSM cksm_alg cksm_offset cksm_length env cksm)
              k).calls = [])
      ∧ (∀ m, n < m →
          finished_commands
            (cksm_after senv (command Command.CKSM cksm_alg cksm_offset cksm_length env cksm)
              m).calls = [(Result.success, some str)]) := by
  obtain ⟨h0, hb⟩ := command_task cksm_alg cksm_offset cksm_length env cksm t ht
  obtain ⟨n, t1, hn, hbefore, hat, hl, _, _, _⟩ :=
    cksm_chain_reaches_end t.length.toNat senv _ t ht hL (le_refl _) hb hgood
  obtain ⟨hnone, _, str, hrep⟩ := cksm_step_terminal _ t1 (senv n) hat hl
  have hquiet : ∀ k, k ≤ n →
      finished_commands
        (cksm_after senv (command Command.CKSM cksm_alg cksm_offset cksm_length env cksm)
          k).calls = [] := by
    intro k hk
    have hk' : (cksm_after senv
        (command Command.CKSM cksm_alg cksm_offset cksm_length env cksm) k).task ≠ none := by
      rcases Nat.lt_or_eq_of_le hk with hlt | heq
      · obtain ⟨tk, htk, _⟩ := hbefore k hlt
        rw [htk]; simp
      · rw [heq, hat]; simp
    rcases cksm_run_reports ((List.range k).map senv) _ (by rw [ht]; simp) with
      ⟨_, g2⟩ | ⟨g1, _⟩
    · unfold cksm_after
      rw [g2, h0]
    · exact absurd g1 hk'
  refine ⟨n, str, hn, hquiet, ?_⟩
  intro m hm
  obtain ⟨j, rfl⟩ : ∃ j, m = n + 1 + j := ⟨m - (n + 1), by omega⟩
  rw [cksm_after_done senv _ (n + 1) (by rw [cksm_after_step]; exact hnone) j,
    cksm_after_step, hrep, hquiet n (le_refl n)]
  rfl

set_option maxRecDepth 8000 in
/-- The CKSM command with algorithm "md5" on a file of 4 bytes whose reads return two
bytes each: nothing is reported by the handler and by the first two steps, the third
step reports the digest, and later runs report nothing more. -/
theorem md5_command_reports_once_example :
    finished_commands
        (cksm_after two_byte_reads (command Command.CKSM "md5" 0 4 (command_env 0) stale_cksm)
          2).calls = []
      ∧ finished_commands
        (cksm_after two_byte_reads (command Command.CKSM "md5" 0 4 (command_env 0) stale_cksm)
          3).calls = [(Result.success, some "71dac2484ac7e300cee68117eeb0cb41")]
      ∧ finished_commands
        (cksm_after two_byte_reads (command Command.CKSM "md5" 0 4 (command_env 0) stale_cksm)
          5).calls = [(Result.success, some "71dac2484ac7e300cee68117eeb0cb41")] := by
  decide

/-! ### A send whose threads interleave -/

theorem send_eq_setup (pathname : String) (env : SendEnv) (h : Handle) :
    send pathname env h
      = ((read_from_storage env.rd (send_setup pathname env h).1).1,
         (send_setup pathname env h).2
           ++ (read_from_storage env.rd (send_setup pathname env h).1).2) := by
  unfold send send_setup
  simp

theorem send_event_decrement (s : SendThreads) :
    send_event s SendEvent.decrement
      = if s.pending = 0 then s
        else
          { s with h := { s.h with outstanding := s.h.outstanding - 1 },
                   pending := s.pending - 1, entered := s.entered + 1 } := rfl

theorem send_event_lock (s : SendThreads) :
    send_event s SendEvent.lock
      = if s.entered = 0 ∨ s.mutex ≠ Mutex.free then s
        else { s with entered := s.entered - 1, mutex := Mutex.held } := rfl

theorem send_event_iterate (s : SendThreads) (e : SendIssueEnv) :
    send_event s (SendEvent.iterate e)
      = if s.mutex ≠ Mutex.held then s
        else if s.h.outstanding < s.h.optimal_count ∧ s.h.done = false then
          { s with h := (read_from_storage_loop (fun _ => e) 1 0 s.h).1,
                   pending := s.pending
                     + registered (read_from_storage_loop (fun _ => e) 1 0 s.h).2.1,
                   log := s.log ++ (read_from_storage_loop (fun _ => e) 1 0 s.h).2.1,
                   mutex := if (read_from_storage_loop (fun _ => e) 1 0 s.h).2.2
                     then Mutex.lost else Mutex.held }
        else { s with mutex := Mutex.free, leaving := s.leaving + 1 } := rfl

theorem send_event_final_test (s : SendThreads) (close_ret : Int) :
    send_event s (SendEvent.final_test close_ret)
      = if s.leaving = 0 then s
        else if s.h.outstanding = 0 then
          { s with leaving := s.leaving - 1,
                   log := s.log ++ [Call.close s.h.fd close_ret,
                                    Call.finished_transfer Result.success] }
        else { s with leaving := s.leaving - 1 } := rfl

theorem send_events_cons (s : SendThreads) (e : SendEvent) (es : List SendEvent) :
    send_events s (e :: es) = send_events (send_event s e) es := rfl

set_option maxRecDepth 8000 in
/-- The same send with threads one at a time, as events and as completions delivered
by `send_run`: the calls made are the same. -/
theorem one_at_a_time_as_send_run :
    (send_events (send_enter "/dev/zero" (mib_send_env 524288 524288) Handle.start)
        one_at_a_time).log
      = (send_run (send_init "/dev/zero" (mib_send_env 524288 524288) Handle.start)
          [{ result := Result.success, nbytes := 524288, env := read_env 524288 true },
           { result := Result.success, nbytes := 524288, env := read_env 0 true }]).log
      ∧ (send_events (send_enter "/dev/zero" (mib_send_env 524288 524288) Handle.start)
        one_at_a_time).h
      = (send_run (send_init "/dev/zero" (mib_send_env 524288 524288) Handle.start)
          [{ result := Result.success, nbytes := 524288, env := read_env 524288 true },
           { result := Result.success, nbytes := 524288, env := read_env 0 true }]).h := by
  decide

set_option maxRecDepth 8000 in
/-- A send of 1 MiB from "/dev/zero" in one block in which the callback of the write
overlaps the end of `globus_l_gfs_posix_send`: every read returns the count asked for,
the two reads are those of `full_reads`, and the descriptor is closed twice and the
transfer reported finished twice, because both threads run their last statement after
the decrement of the callback. -/
theorem overlapping_send_reports_twice :
    reads_full
        (send_events (send_enter "/dev/zero" (mib_send_env 1048576 1048576) Handle.start)
          overlapping).log = true
      ∧ no_overlap (send_enter "/dev/zero" (mib_send_env 1048576 1048576) Handle.start)
          overlapping = false
      ∧ (send_events (send_enter "/dev/zero" (mib_send_env 1048576 1048576) Handle.start)
          overlapping).log
        = [Call.begin_transfer, Call.posix_open "/dev/zero" false 5,
           Call.read 5 1048576 1048576, Call.register_write 1048576 0 true,
           Call.read 5 0 0,
           Call.close 5 0, Call.finished_transfer Result.success,
           Call.close 5 0, Call.finished_transfer Result.success] := by
  decide

/-! ### A callback that runs alone, as events -/

theorem send_events_append (s : SendThreads) (a b : List SendEvent) :
    send_events s (a ++ b) = send_events (send_events s a) b := by
  unfold send_events
  rw [List.foldl_append]

theorem loop_events_succ (env : Nat → SendIssueEnv) (i k : Nat) :
    loop_events env i (k + 1) = SendEvent.iterate (env i) :: loop_events env (i + 1) k := by
  unfold loop_events
  rw [List.range_succ_eq_map, List.map_cons, List.map_map]
  simp only [Nat.add_zero, List.cons.injEq, true_and]
  apply List.map_congr_left
  intro j _
  simp only [Function.comp_apply, Nat.succ_eq_add_one]
  rw [Nat.add_assoc, Nat.add_comm 1 j]

/-- An iteration of the refill loop that gets its buffer, followed by the rest of the
loop: the loop with fuel for one iteration, then the loop with the fuel left. -/
theorem read_from_storage_loop_split (env : Nat → SendIssueEnv) (fuel i : Nat) (h : Handle)
    (hg : h.outstanding < h.optimal_count ∧ h.done = false)
    (hm : (env i).malloc_ok = true) :
    (read_from_storage_loop (fun _ => env i) 1 0 h).2.2 = false
      ∧ read_from_storage_loop env (fuel + 1) i h
        = ((read_from_storage_loop env fuel (i + 1)
              (read_from_storage_loop (fun _ => env i) 1 0 h).1).1,
           (read_from_storage_loop (fun _ => env i) 1 0 h).2.1
             ++ (read_from_storage_loop env fuel (i + 1)
              (read_from_storage_loop (fun _ => env i) 1 0 h).1).2.1,
           (read_from_storage_loop env fuel (i + 1)
              (read_from_storage_loop (fun _ => env i) 1 0 h).1).2.2) := by
  by_cases hz : to_size_t (env i).read_ret = 0
  · have h1 : read_from_storage_loop (fun _ => env i) 1 0 h
        = ({ h with done := true },
           [Call.read h.fd (read_length h) (env i).read_ret], false) := by
      simp [read_from_storage_loop, hg, hm, hz]
    rw [h1]
    refine ⟨rfl, ?_⟩
    conv_lhs => unfold read_from_storage_loop
    simp [hg, hm, hz]
  · have h1 : read_from_storage_loop (fun _ => env i) 1 0 h
        = ({ h with outstanding := h.outstanding + 1,
                    offset := to_off_t (h.offset + to_size_t (env i).read_ret),
                    block_length := to_off_t (h.block_length - to_size_t (env i).read_ret) },
           Call.read h.fd (read_length h) (env i).read_ret
             :: Call.register_write (to_size_t (env i).read_ret)
                  (to_off_t (to_off_t (h.offset + to_size_t (env i).read_ret)
                    - to_size_t (env i).read_ret)) (env i).register_ok
             :: (if (env i).register_ok = false then
                  [Call.finished_transfer
                    (Result.generic "globus_gridftp_server_register_write() fail")]
                 else []), false) := by
      simp [read_from_storage_loop, hg, hm, hz]
    rw [h1]
    refine ⟨rfl, ?_⟩
    conv_lhs => unfold read_from_storage_loop
    simp [hg, hm, hz]

/-- The refill loop as events: a thread that holds the mutex runs the loop body some
number `k` of times and then finds the loop condition false. The loop has fuel enough
and every iteration gets its buffer. -/
theorem loop_as_events (env : Nat → SendIssueEnv) (hm : ∀ j, (env j).malloc_ok = true) :
    ∀ (fuel i : Nat) (h : Handle),
      h.done = true ∨ (h.optimal_count - h.outstanding).toNat ≤ fuel →
      ∃ k, (∀ (p n l : Nat) (log : List Call),
          send_events { h := h, pending := p, entered := n, mutex := Mutex.held,
                        leaving := l, log := log } (loop_events env i k)
            = { h := (read_from_storage_loop env fuel i h).1,
                pending := p + registered (read_from_storage_loop env fuel i h).2.1,
                entered := n, mutex := Mutex.held, leaving := l,
                log := log ++ (read_from_storage_loop env fuel i h).2.1 })
        ∧ (read_from_storage_loop env fuel i h).2.2 = false
        ∧ ¬ ((read_from_storage_loop env fuel i h).1.outstanding
              < (read_from_storage_loop env fuel i h).1.optimal_count
            ∧ (read_from_storage_loop env fuel i h).1.done = false) := by
  intro fuel
  induction fuel with
  | zero =>
    intro i h hf
    refine ⟨0, fun p n l log => by simp [loop_events, send_events, read_from_storage_loop,
      registered_nil], rfl, ?_⟩
    simp only [read_from_storage_loop]
    rcases hf with hf | hf
    · simp [hf]
    · intro hc; omega
  | succ f ih =>
    intro i h hf
    by_cases hg : h.outstanding < h.optimal_count ∧ h.done = false
    · obtain ⟨hb, hsplit⟩ := read_from_storage_loop_split env f i h hg (hm i)
      have hf1 : (read_from_storage_loop (fun _ => env i) 1 0 h).1.done = true
          ∨ ((read_from_storage_loop (fun _ => env i) 1 0 h).1.optimal_count
              - (read_from_storage_loop (fun _ => env i) 1 0 h).1.outstanding).toNat ≤ f := by
        by_cases hz : to_size_t (env i).read_ret = 0
        · left
          simp [read_from_storage_loop, hg, hm i, hz]
        · right
          have hd : ¬ (h.done = true) := by simp [hg.2]
          rcases hf with hf | hf
          · exact absurd hf hd
          · simp [read_from_storage_loop, hg, hm i, hz]
            omega
      obtain ⟨k, hk, hk2, hk3⟩ := ih (i + 1) (read_from_storage_loop (fun _ => env i) 1 0 h).1 hf1
      refine ⟨k + 1, fun p n l log => ?_, ?_, ?_⟩
      · rw [loop_events_succ, send_events_cons, send_event_iterate]
        simp only [ne_eq, not_true_eq_false, if_false, hg, and_self, if_true, hb,
          Bool.false_eq_true]
        rw [hk, hsplit]
        simp only [registered_append, List.append_assoc, Nat.add_assoc]
      · rw [hsplit]; exact hk2
      · rw [hsplit]; exact hk3
    · have hnone : read_from_storage_loop env (f + 1) i h = (h, [], false) := by
        conv_lhs => unfold read_from_storage_loop
        simp [hg]
      rw [hnone]
      exact ⟨0, fun p n l log => by simp [loop_events, send_events, registered_nil], rfl, hg⟩


theorem no_overlap_active (s : SendThreads) (es : List SendEvent)
    (h : no_overlap s es = true) : active s ≤ 1 := by
  cases es with
  | nil => simpa [no_overlap] using h
  | cons e es =>
    simp only [no_overlap, Bool.and_eq_true, decide_eq_true_eq] at h
    exact h.1

theorem no_overlap_append (a b : List SendEvent) :
    ∀ s : SendThreads, no_overlap s a = true → no_overlap (send_events s a) b = true →
      no_overlap s (a ++ b) = true := by
  induction a with
  | nil => intro s _ hb; exact hb
  | cons e a ih =>
    intro s ha hb
    simp only [no_overlap, Bool.and_eq_true, decide_eq_true_eq] at ha
    rw [List.cons_append]
    simp only [no_overlap, Bool.and_eq_true, decide_eq_true_eq]
    exact ⟨ha.1, ih (send_event s e) ha.2 hb⟩

/-- A thread in the loop, alone: whatever the number of loop bodies it runs, no other
thread is at work. -/
theorem no_overlap_iterate (es : List SendEvent)
    (hes : ∀ e ∈ es, ∃ ie, e = SendEvent.iterate ie) :
    ∀ s : SendThreads, s.entered = 0 → s.leaving ≤ 1 → (s.mutex = Mutex.held → s.leaving = 0) →
      no_overlap s es = true := by
  induction es with
  | nil =>
    intro s h1 h2 h3
    simp only [no_overlap, decide_eq_true_eq, active]
    split_ifs with hh
    · rw [h1, h3 hh]
    · omega
  | cons e es ih =>
    intro s h1 h2 h3
    have hact : active s ≤ 1 := by
      unfold active
      split_ifs with hh
      · rw [h1, h3 hh]
      · omega
    simp only [no_overlap, Bool.and_eq_true, decide_eq_true_eq]
    refine ⟨hact, ?_⟩
    obtain ⟨ie, rfl⟩ := hes e (List.mem_cons_self e es)
    have hes' : ∀ e ∈ es, ∃ ie, e = SendEvent.iterate ie :=
      fun e he => hes e (List.mem_cons_of_mem _ he)
    rw [send_event_iterate]
    by_cases hh : s.mutex ≠ Mutex.held
    · rw [if_pos hh]
      exact ih hes' s h1 h2 h3
    · rw [if_neg hh]
      have hheld : s.mutex = Mutex.held := by simpa using hh
      by_cases hg : s.h.outstanding < s.h.optimal_count ∧ s.h.done = false
      · rw [if_pos hg]
        refine ih hes' _ h1 (by simp only []; rw [h3 hheld]; omega) (fun _ => h3 hheld)
      · rw [if_neg hg]
        refine ih hes' _ h1 (by simp only []; rw [h3 hheld]) (fun hc => Mutex.noConfusion hc)

/-- One call of `globus_l_gfs_posix_read_from_storage` whose iterations get their
buffers, run by a thread that finds the mutex free and no other thread at work: it is
the run of the events `refill_events`, for the answers of the iterations it makes. -/
theorem read_from_storage_as_events (env : ReadEnv)
    (hm : ∀ j, (env.issue j).malloc_ok = true) (h : Handle) :
    ∃ k, ∀ (p : Nat) (log : List Call),
      send_events { h := h, pending := p, entered := 1, mutex := Mutex.free, leaving := 0,
                    log := log }
          (refill_events ((List.range k).map env.issue) env.close_ret)
        = { h := (read_from_storage env h).1,
            pending := p + registered (read_from_storage env h).2, entered := 0,
            mutex := Mutex.free, leaving := 0, log := log ++ (read_from_storage env h).2 }
      ∧ no_overlap { h := h, pending := p, entered := 1, mutex := Mutex.free, leaving := 0,
                     log := log }
          (refill_events ((List.range k).map env.issue) env.close_ret) = true := by
  obtain ⟨k, hk, hk2, hk3⟩ := loop_as_events env.issue hm
    ((h.optimal_count - h.outstanding).toNat + 1) 0 h (Or.inr (by omega))
  refine ⟨k, fun p log => ?_⟩
  have hl : ((List.range k).map env.issue).map SendEvent.iterate = loop_events env.issue 0 k := by
    unfold loop_events
    rw [List.map_map]
    apply List.map_congr_left
    intro j _
    simp
  have hev : refill_events ((List.range k).map env.issue) env.close_ret
      = SendEvent.lock :: (loop_events env.issue 0 k
          ++ [SendEvent.iterate { malloc_ok := true, read_ret := 0, register_ok := true },
              SendEvent.final_test env.close_ret]) := by
    unfold refill_events
    rw [hl]
    simp
  have hlock : send_event
      { h := h, pending := p, entered := 1, mutex := Mutex.free, leaving := 0, log := log }
      SendEvent.lock
      = { h := h, pending := p, entered := 0, mutex := Mutex.held, leaving := 0,
          log := log } := by
    rw [send_event_lock]
    simp
  constructor
  · rw [hev, send_events_cons, hlock, send_events_append, hk, send_events_cons,
      send_event_iterate]
    simp only [ne_eq, not_true_eq_false, if_false, hk3]
    rw [send_events_cons, send_event_final_test]
    simp only [Nat.add_eq_zero, one_ne_zero, and_false, if_false]
    unfold read_from_storage
    simp only [hk2, Bool.false_eq_true, if_false]
    by_cases ho : (read_from_storage_loop env.issue
        ((h.optimal_count - h.outstanding).toNat + 1) 0 h).1.outstanding = 0
    · simp only [ho, if_true]
      simp [send_events, registered_append, registered_cons, registered_nil, Call.registers]
    · simp only [ho, if_false]
      simp [send_events]
  · rw [hev]
    have h0 : active
        { h := h, pending := p, entered := 1, mutex := Mutex.free, leaving := 0, log := log }
        ≤ 1 := by
      simp [active]
    simp only [no_overlap, Bool.and_eq_true, decide_eq_true_eq]
    refine ⟨h0, ?_⟩
    rw [hlock]
    have hsplit : loop_events env.issue 0 k
          ++ [SendEvent.iterate { malloc_ok := true, read_ret := 0, register_ok := true },
              SendEvent.final_test env.close_ret]
        = (loop_events env.issue 0 k
            ++ [SendEvent.iterate { malloc_ok := true, read_ret := 0, register_ok := true }])
          ++ [SendEvent.final_test env.close_ret] := by
      simp
    rw [hsplit]
    apply no_overlap_append
    · apply no_overlap_iterate
      · intro e he
        rcases List.mem_append.mp he with he | he
        · unfold loop_events at he
          obtain ⟨j, _, rfl⟩ := List.mem_map.mp he
          exact ⟨_, rfl⟩
        · rw [List.mem_singleton] at he
          exact ⟨_, he⟩
      · rfl
      · exact Nat.zero_le _
      · intro _; rfl
    · rw [send_events_append, hk, send_events_cons, send_event_iterate]
      simp only [ne_eq, not_true_eq_false, if_false, hk3]
      simp only [send_events, List.foldl_nil, no_overlap, Bool.and_eq_true, decide_eq_true_eq]
      rw [send_event_final_test]
      simp only [Nat.add_eq_zero, one_ne_zero, and_false, if_false]
      constructor
      · simp [active]
      · split_ifs <;> simp [active]


/-- The delivery `send_step` of a completion is the run of the events of a callback
that works alone, from a state in which no thread is at work (every iteration of its
refill getting a buffer). -/
theorem send_step_as_events (s : Sys) (c : SendCompletion) (hp : s.pending ≠ 0)
    (hm : ∀ j, (c.env.issue j).malloc_ok = true) :
    ∃ k, send_events s.threads
          (callback_events ((List.range k).map c.env.issue) c.env.close_ret)
        = (send_step s c).threads
      ∧ no_overlap s.threads
          (callback_events ((List.range k).map c.env.issue) c.env.close_ret) = true := by
  obtain ⟨k, hk⟩ := read_from_storage_as_events c.env hm
    { s.h with outstanding := s.h.outstanding - 1 }
  refine ⟨k, ?_, ?_⟩
  · unfold callback_events
    rw [send_events_cons, send_event_decrement]
    unfold Sys.threads
    simp only [hp, if_false]
    rw [(hk (s.pending - 1) s.log).1]
    unfold send_step read_from_storage_cb
    simp [hp]
  · have hd : send_event s.threads SendEvent.decrement
        = { h := { s.h with outstanding := s.h.outstanding - 1 }, pending := s.pending - 1,
            entered := 1, mutex := Mutex.free, leaving := 0, log := s.log } := by
      rw [send_event_decrement]
      unfold Sys.threads
      simp [hp]
    show (decide (active s.threads ≤ 1)
      && no_overlap (send_event s.threads SendEvent.decrement)
          (refill_events ((List.range k).map c.env.issue) c.env.close_ret)) = true
    rw [Bool.and_eq_true, decide_eq_true_eq, hd]
    exact ⟨by simp [Sys.threads, active], (hk (s.pending - 1) s.log).2⟩

/-- The statements of `globus_l_gfs_posix_send` before the refill register nothing. -/
theorem send_setup_registered (pathname : String) (env : SendEnv) (h : Handle) :
    registered (send_setup pathname env h).2 = 0 := by
  unfold send_setup
  simp only []
  split_ifs <;> simp [registered_cons, registered_nil, registered_append, Call.registers]

/-- The state `send_init` after `globus_l_gfs_posix_send` is the run of the events of
its refill, working alone, from the state `send_enter`. -/
theorem send_init_as_events (pathname : String) (env : SendEnv) (h : Handle)
    (hm : ∀ j, (env.rd.issue j).malloc_ok = true) :
    ∃ k, send_events (send_enter pathname env h)
          (refill_events ((List.range k).map env.rd.issue) env.rd.close_ret)
        = (send_init pathname env h).threads
      ∧ no_overlap (send_enter pathname env h)
          (refill_events ((List.range k).map env.rd.issue) env.rd.close_ret) = true := by
  obtain ⟨k, hk⟩ := read_from_storage_as_events env.rd hm (send_setup pathname env h).1
  refine ⟨k, ?_, ?_⟩
  · unfold send_enter
    rw [(hk 0 (send_setup pathname env h).2).1]
    unfold send_init Sys.threads
    simp only [send_eq_setup, registered_append, send_setup_registered]
  · unfold send_enter
    exact (hk 0 (send_setup pathname env h).2).2

end GridftpPosix
